import Mathlib

/-!
# Verification of the player-rankings tournament backend

Shallow embedding of the rating and tournament-bracket logic of the
`player-rankings-backend` repository (FastAPI + SQLAlchemy).  The embedding
follows the source files:

* `app/elo.py`                — module-level Elo helper (`K = 32`, two parameters);
* `app/routers/matches.py`    — standalone match submission and its tiered-K
  `calculate_elo`;
* `app/routers/tournaments.py`— tournament creation, group fixtures, knockout
  seeding, knockout advancement, result submission.

Python floats are modelled by real numbers; Python `int(...)` truncation and
`round(...)` (banker's rounding) are modelled explicitly.  The SQL store is
modelled as lists of rows for a single tournament (all queries in the source
filter on one `tournament_id`; distinct tournaments never interact).
-/

namespace PlayerRankings

/-! ## Python numeric conversions -/

/-- Python `int(x)` for a float `x`: truncation toward zero. -/
noncomputable def pytrunc (x : ℝ) : ℤ :=
  if 0 ≤ x then ⌊x⌋ else ⌈x⌉

/-- Python 3 `round(x)`: round half to even (banker's rounding). -/
noncomputable def pyround (x : ℝ) : ℤ :=
  let n := ⌊x⌋
  let r := x - n
  if r < 1 / 2 then n
  else if 1 / 2 < r then n + 1
  else if n % 2 = 0 then n else n + 1

/-! ## `app/elo.py` -/

/-- `K = 32` (module constant in `app/elo.py`). -/
def elo_K : ℝ := 32

/-- `app/elo.py` `calculate_elo(winner_elo, loser_elo)`:
returns `(round(new_winner_elo), round(new_loser_elo))`. -/
noncomputable def elo_calculate_elo (winner_elo loser_elo : ℝ) : ℤ × ℤ :=
  let expected_winner := 1 / (1 + (10 : ℝ) ^ ((loser_elo - winner_elo) / 400))
  let expected_loser := 1 - expected_winner
  let new_winner_elo := winner_elo + elo_K * (1 - expected_winner)
  let new_loser_elo := loser_elo + elo_K * (0 - expected_loser)
  (pyround new_winner_elo, pyround new_loser_elo)

/-- The function `calculate_elo` defined in `app/elo.py` takes exactly two
parameters (`winner_elo`, `loser_elo`). -/
def elo_calculate_elo_paramCount : ℕ := 2

/-- `app/routers/tournaments.py` line 921/922 calls the `calculate_elo`
imported from `app.elo` with four positional arguments
`(rating, rating, outcome, matches)`. -/
def tournaments_elo_call_argCount : ℕ := 4

/-! ## `app/routers/matches.py` rating function -/

/-- The expected-score formula `1 / (1 + 10 ** ((opponent - old) / 400))`
shared by the rating functions in `matches.py`, `main.py` and `app.py`. -/
noncomputable def expected_score (old_rating opponent_rating : ℝ) : ℝ :=
  1 / (1 + (10 : ℝ) ^ ((opponent_rating - old_rating) / 400))

/-- `app/routers/matches.py` `calculate_elo(old_rating, opponent_rating,
outcome, games_played)` (identical copies exist in `app/main.py` and
`app.py`): tiered K then `old + K * (outcome - expected)`. -/
noncomputable def matches_calculate_elo
    (old_rating opponent_rating outcome : ℝ) (games_played : ℤ) : ℝ :=
  let K : ℝ := if games_played ≤ 10 then 40 else if games_played ≤ 200 then 24 else 16
  old_rating + K * (outcome - expected_score old_rating opponent_rating)

/-- Modelled from the spec: "K-factor is experience-tiered — K=40 if
matchesPlayedByA ≤ 10, K=24 if ≤ 200, else K=16" (spec §4.1). -/
def spec_K_factor (matchesPlayed : ℤ) : ℝ :=
  if matchesPlayed ≤ 10 then 40 else if matchesPlayed ≤ 200 then 24 else 16

/-! ## Data model (`app/models.py`, restricted to one tournament) -/

/-- The `stage` column of `Match`: `"group"`, `"knockout"`, or SQL NULL
(standalone rating matches). -/
inductive Stage
  | group
  | knockout
  | solo
  deriving DecidableEq, Repr

/-- The `round` string column of `Match`, restricted to the label shapes the
source writes: `"Group {n}"`, `"Round of {n}"`, `"Final"`, `"3rd Place Match"`. -/
inductive Round
  | groupRound (n : ℕ)
  | roundOf (n : ℕ)
  | final
  | thirdPlace
  deriving DecidableEq, Repr

/-- A `Match` row (columns used by the tournament engine). -/
structure MatchRow where
  id : ℕ
  player1 : Option ℕ
  player2 : Option ℕ
  winner : Option ℕ
  score1 : Option ℤ
  score2 : Option ℤ
  round : Round
  stage : Stage
  deriving DecidableEq, Repr

/-- A `SetScore` row. -/
structure SetRow where
  match_id : ℕ
  set_number : ℤ
  player1_score : ℤ
  player2_score : ℤ
  deriving DecidableEq, Repr

/-- A `Player` row (columns used by rating updates); the source's nullable
`matches` column is named `matchesPlayed` here (`matches` is a Lean keyword). -/
structure PlayerRow where
  id : ℕ
  rating : ℤ
  matchesPlayed : Option ℤ
  deriving DecidableEq, Repr

/-- A `TournamentStanding` row (for the one modelled tournament). -/
structure StandingRow where
  player : Option ℕ
  position : ℤ
  deriving DecidableEq, Repr

/-- A `TournamentPlayer` row: member of the modelled tournament. -/
structure TPRow where
  player_id : ℕ
  group_number : ℕ
  deriving DecidableEq, Repr

/-- The persistent store, restricted to one tournament.  `matches` and the
other lists are in insertion order (SQL queries without `ORDER BY` are
modelled as returning insertion order). -/
structure Store where
  matchRows : List MatchRow
  sets : List SetRow
  players : List PlayerRow
  standings : List StandingRow
  roster : List TPRow
  /-- next autoincrement id for `Match` rows -/
  nextId : ℕ
  deriving DecidableEq, Repr

/-- Python truthiness of a nullable integer column (`if m.winner_id:`):
`None` and `0` are falsy. -/
def truthy : Option ℕ → Bool
  | none => false
  | some n => n ≠ 0

/-! ## List helpers: stable sort and grouping

Python's `sorted` and SQL `ORDER BY` are stable sorts; any two stable sorts
agree for a total transitive comparison, so a stable insertion sort models
them. -/

/-- Insert `a` in front of the first element it compares `le` to. -/
def insertSorted (le : α → α → Bool) (a : α) : List α → List α
  | [] => [a]
  | b :: l => if le a b then a :: b :: l else b :: insertSorted le a l

/-- Stable insertion sort: for a total transitive `le` this agrees with
Python's `sorted` / SQL `ORDER BY` (both stable). -/
def stableSort (le : α → α → Bool) : List α → List α
  | [] => []
  | a :: l => insertSorted le a (stableSort le l)

/-- Append `a` to the group of its key, creating the group at the end on first
occurrence (models building a `dict` of lists in iteration order). -/
def addToGroups [DecidableEq β] (key : α → β) :
    List (β × List α) → α → List (β × List α)
  | [], a => [(key a, [a])]
  | (k, l) :: rest, a =>
    if k = key a then (k, l ++ [a]) :: rest else (k, l) :: addToGroups key rest a

/-- Group a list by a key, keys in first-occurrence order, members in list
order (Python `defaultdict(list)` / `setdefault` filling). -/
def groupListBy [DecidableEq β] (key : α → β) (l : List α) : List (β × List α) :=
  l.foldl (addToGroups key) []

/-- Decimal digits, most significant first, with structural fuel: `n`
steps always suffice since the argument shrinks by a factor of 10. -/
def decDigitsGo : ℕ → ℕ → List ℕ
  | 0, n => [n]
  | fuel + 1, n => if n < 10 then [n] else decDigitsGo fuel (n / 10) ++ [n % 10]

/-- Decimal digits of `n`, most significant first (for modelling string
comparison of numeric labels). -/
def decDigits (n : ℕ) : List ℕ :=
  decDigitsGo n n

/-- Lexicographic `≤` on digit/tag lists, matching string order where a
proper prefix sorts first. -/
def lexLe : List ℕ → List ℕ → Bool
  | [], _ => true
  | _ :: _, [] => false
  | a :: as, b :: bs => a < b || (a = b && lexLe as bs)

/-- Key realising the SQL `ORDER BY Match.round` string order on the round
labels the source writes: `"3rd Place Match" < "Final" < "Group {n}" <
"Round of {n}"` (ASCII), numeric suffixes compared as decimal strings. -/
def roundSqlKey : Round → List ℕ
  | Round.thirdPlace => [0]
  | Round.final => [1]
  | Round.groupRound n => 2 :: decDigits n
  | Round.roundOf n => 3 :: decDigits n

/-! ## Group-stage fixture generation (`generate_group_stage_matches`) -/

/-- The nested `for i / for j in range(i+1, n)` loop of
`generate_group_stage_matches`: one fixture per ordered index pair `i < j`. -/
def roundRobinPairs : List ℕ → List (ℕ × ℕ)
  | [] => []
  | x :: xs => xs.map (fun y => (x, y)) ++ roundRobinPairs xs

/-- Members of each group: roster fetched `ORDER BY group_number` (stable),
then grouped in first-occurrence order — groups ascending by number, members
in roster order. -/
def groupsOfRoster (roster : List TPRow) : List (ℕ × List ℕ) :=
  (groupListBy (·.group_number)
      (stableSort (fun a b => a.group_number ≤ b.group_number) roster)).map
    (fun g => (g.1, g.2.map (·.player_id)))

/-- `generate_group_stage_matches`: add one `stage="group"`,
`round="Group {gn+1}"` match per unordered pair of group members.  New rows
get consecutive autoincrement ids starting at `nextId`. -/
def generateGroupStageMatches (s : Store) : Store :=
  let pairs := (groupsOfRoster s.roster).flatMap
    (fun g => (roundRobinPairs g.2).map (fun p => (g.1, p)))
  let rows := pairs.enum.map (fun pi =>
    { id := s.nextId + pi.1
      player1 := some pi.2.2.1
      player2 := some pi.2.2.2
      winner := none
      score1 := none
      score2 := none
      round := Round.groupRound (pi.2.1 + 1)
      stage := Stage.group : MatchRow })
  { s with matchRows := s.matchRows ++ rows, nextId := s.nextId + rows.length }

/-! ## Knockout seeding (`generate_bracket_seeds`, bye placement, slot map) -/

/-- `generate_bracket_seeds` with structural fuel (`n` halvings always
suffice). -/
def generate_bracket_seeds_go : ℕ → ℕ → List ℕ
  | 0, _ => [1]
  | fuel + 1, n =>
    if n ≤ 1 then [1]
    else
      let prev := generate_bracket_seeds_go fuel (n / 2)
      (prev.zip (prev.map (fun x => n + 1 - x))).flatMap (fun p => [p.1, p.2])

/-- `generate_bracket_seeds(n)`: `[1]` for `n == 1`, else interleave the
half-size seeding with its mirror `n + 1 - x`.  (The source recurses forever
on `n = 0`; it is only called with powers of two ≥ 1.) -/
def generate_bracket_seeds (n : ℕ) : List ℕ :=
  generate_bracket_seeds_go n n

/-- The `while power < n: power *= 2` loop of `create_tournament`'s
`next_power_of_two`, with fuel: `n` iterations always suffice since `power`
doubles from 1 and `2 ^ n ≥ n`. -/
def next_power_of_two_go (fuel n power : ℕ) : ℕ :=
  match fuel with
  | 0 => power
  | fuel + 1 => if power < n then next_power_of_two_go fuel n (power * 2) else power

/-- `next_power_of_two(n)` from `create_tournament`: least power of two ≥ n
(1 for n = 0). -/
def next_power_of_two (n : ℕ) : ℕ :=
  next_power_of_two_go n n 1

/-- `2 ** ceil(log2(n))` used by both knockout generators: for `n ≥ 1` this
is exactly the least power of two ≥ n, i.e. the same doubling loop as
`next_power_of_two`.  Callers must rule out `n = 0`, where Python's
`math.log2` raises `ValueError`. -/
def ko_size_of (n : ℕ) : ℕ :=
  next_power_of_two_go n n 1

/-- `seeding_to_player.get(k)`: dict lookup, absent key ↦ `None`. -/
def slotGet (m : List (ℕ × Option ℕ)) (k : ℕ) : Option ℕ :=
  match m.find? (fun e => e.1 = k) with
  | some e => e.2
  | none => none

/-- `seeding_to_player[k] = v`: dict assignment (update in place, insert new
keys at the end, matching Python dict order). -/
def slotSet : List (ℕ × Option ℕ) → ℕ → Option ℕ → List (ℕ × Option ℕ)
  | [], k, v => [(k, v)]
  | e :: rest, k, v => if e.1 = k then (k, v) :: rest else e :: slotSet rest k v

/-- Bye-position computation shared by both knockout generators:
for `i in range(num_byes)`, take `seeds[i]`, pair-index its opposite slot,
and record it if in bounds. -/
def byePositions (seeds : List ℕ) (num_byes : ℕ) : List ℕ :=
  (List.range num_byes).foldl (fun acc i =>
    match seeds.get? i with
    | none => acc
    | some top_seed =>
      let idx := top_seed - 1
      let opponent_idx := if idx % 2 = 0 then idx + 1 else idx - 1
      if opponent_idx < seeds.length then acc ++ [opponent_idx] else acc) []

/-- One iteration of the groupless slot-filling loop: bye positions get
`None`; other positions get the next advancing player if any are left
(`if pi < len(players_advancing)`). -/
def buildStepNoGroups (bye_positions players : List ℕ)
    (acc : List (ℕ × Option ℕ) × ℕ) (seed : ℕ) : List (ℕ × Option ℕ) × ℕ :=
  let position := seed - 1
  if position ∈ bye_positions then (slotSet acc.1 position none, acc.2)
  else
    match players.get? acc.2 with
    | some p => (slotSet acc.1 position (some p), acc.2 + 1)
    | none => acc

/-- Slot filling of `generate_knockout_stage_matches_without_grp_stage`. -/
def buildSeedingNoGroups (seeds bye_positions players : List ℕ) :
    List (ℕ × Option ℕ) :=
  (seeds.foldl (buildStepNoGroups bye_positions players)
    (([] : List (ℕ × Option ℕ)), 0)).1

/-- One iteration of the grouped slot-filling loop: as `buildStepNoGroups`
but without the bounds check — running out of players is an `IndexError`
(modelled as `none`). -/
def buildStepWithGroups (bye_positions players : List ℕ)
    (acc : List (ℕ × Option ℕ) × ℕ) (seed : ℕ) :
    Option (List (ℕ × Option ℕ) × ℕ) :=
  let position := seed - 1
  if position ∈ bye_positions then some (slotSet acc.1 position none, acc.2)
  else
    match players.get? acc.2 with
    | some p => some (slotSet acc.1 position (some p), acc.2 + 1)
    | none => none

/-- Slot filling of `generate_knockout_stage_matches` (grouped variant). -/
def buildSeedingWithGroups (seeds bye_positions players : List ℕ) :
    Option (List (ℕ × Option ℕ)) :=
  (seeds.foldlM (buildStepWithGroups bye_positions players)
    (([] : List (ℕ × Option ℕ)), 0)).map (·.1)

/-- A knockout match row for a filled pair of slots. -/
def koPairRow (id p1 p2 : ℕ) (label : Round) : MatchRow :=
  ⟨id, some p1, some p2, none, none, none, label, Stage.knockout⟩

/-- A knockout bye row: lone player in slot 1, no opponent, winner pre-set,
score 1–0. -/
def koByeRow (id p : ℕ) (label : Round) : MatchRow :=
  ⟨id, some p, none, some p, some 1, some 0, label, Stage.knockout⟩

/-- The `for i in range(0, ko_size, 2)` creation loop of the groupless
generator: `pairsLeft` iterations starting at slot `i`, ids from `nid`. -/
def koLoopNoGroups (slots : List (ℕ × Option ℕ)) (label : Round) :
    ℕ → ℕ → ℕ → List MatchRow
  | 0, _, _ => []
  | k + 1, i, nid =>
    let p1 := slotGet slots i
    let p2 := slotGet slots (i + 1)
    if truthy p1 && truthy p2 then
      koPairRow nid (p1.getD 0) (p2.getD 0) label ::
        koLoopNoGroups slots label k (i + 2) (nid + 1)
    else if truthy p1 then
      koByeRow nid (p1.getD 0) label :: koLoopNoGroups slots label k (i + 2) (nid + 1)
    else if truthy p2 then
      koByeRow nid (p2.getD 0) label :: koLoopNoGroups slots label k (i + 2) (nid + 1)
    else
      koLoopNoGroups slots label k (i + 2) nid

/-- `generate_knockout_stage_matches_without_grp_stage`: seed the full roster
by descending rating (rating 0 for ids missing from the players table).
`none` models the `math.log2(0)` `ValueError` on an empty roster. -/
def generateKnockoutNoGroups (s : Store) : Option Store :=
  let player_ids := s.roster.map (·.player_id)
  let rating : ℕ → ℤ := fun pid =>
    (((s.players.find? (fun p => p.id = pid)).map (·.rating)).getD 0)
  let players_advancing :=
    stableSort (fun a b => -(rating a) ≤ -(rating b)) player_ids
  let num_players := players_advancing.length
  if num_players = 0 then none
  else
    let ko_size := ko_size_of num_players
    let num_byes := ko_size - num_players
    let seeds := generate_bracket_seeds ko_size
    let bye_positions := byePositions seeds num_byes
    let slots := buildSeedingNoGroups seeds bye_positions players_advancing
    let rows := koLoopNoGroups slots (Round.roundOf ko_size) ((ko_size + 1) / 2) 0 s.nextId
    some { s with matchRows := s.matchRows ++ rows, nextId := s.nextId + rows.length }

/-! ## Group statistics and rankings -/

/-- The per-player tallies of the `player_stats` default-dicts.  (`losses` is
maintained only by the details endpoint and read by neither sort key.) -/
structure PStats where
  wins : ℤ
  losses : ℤ
  set_wins : ℤ
  set_losses : ℤ
  points_won : ℤ
  points_lost : ℤ
  deriving DecidableEq, Repr

def zeroStats : PStats := ⟨0, 0, 0, 0, 0, 0⟩

/-- Pointwise update of a stats table (Python `player_stats[k]` mutation);
the tables are keyed by nullable player ids exactly like the dicts. -/
def statUpd (f : Option ℕ → PStats) (k : Option ℕ) (g : PStats → PStats) :
    Option ℕ → PStats :=
  fun x => if x = k then g (f x) else f x

/-- Set scores of one match, fetched in insertion order. -/
def setScoresOf (s : Store) (mid : ℕ) : List SetRow :=
  s.sets.filter (·.match_id = mid)

/-- The per-set tally block shared by the knockout generator and the details
endpoint: set wins/losses and points for both players of one match. -/
def applySetRows (p1 p2 : Option ℕ) (rows : List SetRow)
    (f : Option ℕ → PStats) : Option ℕ → PStats :=
  rows.foldl (fun f r =>
    let f := statUpd f p1 (fun st =>
      { st with
        set_wins := st.set_wins + (if r.player1_score > r.player2_score then 1 else 0)
        set_losses := st.set_losses + (if r.player1_score < r.player2_score then 1 else 0)
        points_won := st.points_won + r.player1_score
        points_lost := st.points_lost + r.player2_score })
    statUpd f p2 (fun st =>
      { st with
        set_wins := st.set_wins + (if r.player2_score > r.player1_score then 1 else 0)
        set_losses := st.set_losses + (if r.player2_score < r.player1_score then 1 else 0)
        points_won := st.points_won + r.player2_score
        points_lost := st.points_lost + r.player1_score })) f

/-- `player_stats` of `generate_knockout_stage_matches`: fold over the group
matches (insertion order); matches without a winner are skipped entirely. -/
def koGenStats (s : Store) : Option ℕ → PStats :=
  (s.matchRows.filter (·.stage = Stage.group)).foldl (fun f m =>
    if m.winner = none then f
    else
      let f :=
        if m.winner = m.player1 then
          statUpd f m.player1 (fun st => { st with wins := st.wins + 1 })
        else
          statUpd f m.player2 (fun st => { st with wins := st.wins + 1 })
      applySetRows m.player1 m.player2 (setScoresOf s m.id) f)
    (fun _ => zeroStats)

/-- The sort key of `generate_knockout_stage_matches`:
`(-wins, -(set_wins - set_losses), -(points_won - points_lost))`. -/
def koSortKey (f : Option ℕ → PStats) (pid : ℕ) : ℤ × ℤ × ℤ :=
  let stats := f (some pid)
  (-stats.wins, -(stats.set_wins - stats.set_losses),
    -(stats.points_won - stats.points_lost))

/-- Python tuple `≤` on the three-component sort keys. -/
def keyLe (a b : ℤ × ℤ × ℤ) : Bool :=
  a.1 < b.1 || (a.1 = b.1 && (a.2.1 < b.2.1 || (a.2.1 = b.2.1 && a.2.2 ≤ b.2.2)))

/-- `player_to_group`: later roster rows overwrite earlier ones for the same
player id (dict build order). -/
def playerGroup (roster : List TPRow) (pid : ℕ) : Option ℕ :=
  (roster.reverse.find? (·.player_id = pid)).map (·.group_number)

/-- `same_group(p1, p2)` from the grouped knockout generator. -/
def sameGroup (roster : List TPRow) (p1 p2 : ℕ) : Bool :=
  match playerGroup roster p1, playerGroup roster p2 with
  | some a, some b => a = b
  | _, _ => false

/-- The inner `for j in range(i+2, total)` search of the group-clash
avoidance: first later slot holding a player from a different group. -/
def findSwap (sg : ℕ → ℕ → Bool) (slots : List (ℕ × Option ℕ)) (p1 : ℕ) :
    ℕ → ℕ → Option (ℕ × ℕ)
  | _, 0 => none
  | j, k + 1 =>
    let pj := slotGet slots j
    if truthy pj && !sg p1 (pj.getD 0) then some (j, pj.getD 0)
    else findSwap sg slots p1 (j + 1) k

/-- The creation loop of the grouped generator: like `koLoopNoGroups` but
with the best-effort same-group swap mutating the slot dict as it goes. -/
def koLoopWithGroups (sg : ℕ → ℕ → Bool) (label : Round) (total : ℕ) :
    ℕ → ℕ → List (ℕ × Option ℕ) → ℕ → List MatchRow
  | 0, _, _, _ => []
  | k + 1, i, slots, nid =>
    let p1 := slotGet slots i
    let p2 := slotGet slots (i + 1)
    let swapped :=
      if truthy p1 && truthy p2 && sg (p1.getD 0) (p2.getD 0) then
        match findSwap sg slots (p1.getD 0) (i + 2) (total - (i + 2)) with
        | some jp => (slotSet (slotSet slots (i + 1) (some jp.2)) jp.1 p2, some jp.2)
        | none => (slots, p2)
      else (slots, p2)
    let slots := swapped.1
    let p2 := swapped.2
    if truthy p1 && truthy p2 then
      koPairRow nid (p1.getD 0) (p2.getD 0) label ::
        koLoopWithGroups sg label total k (i + 2) slots (nid + 1)
    else if truthy p1 then
      koByeRow nid (p1.getD 0) label :: koLoopWithGroups sg label total k (i + 2) slots (nid + 1)
    else if truthy p2 then
      koByeRow nid (p2.getD 0) label :: koLoopWithGroups sg label total k (i + 2) slots (nid + 1)
    else
      koLoopWithGroups sg label total k (i + 2) slots nid

/-- The `Tournament` row fields the engine reads. -/
structure TournamentRow where
  num_groups : ℕ
  players_advance_per_group : ℕ
  knockout_size : ℕ
  num_players : ℕ
  is_customized : Bool
  deriving DecidableEq, Repr

/-- `generate_knockout_stage_matches` (grouped variant): rank each group by
`koSortKey`, advance the per-group top `players_advance_per_group`, regroup
into rank tiers, seed, place byes, and create the `"Round of {ko}"` matches
with clash avoidance.  `none` models the two untrapped Python errors
(`math.log2(0)` when nobody advances, `IndexError` in slot filling). -/
def generateKnockoutWithGroups (t : TournamentRow) (s : Store) : Option Store :=
  let stats := koGenStats s
  let group_map := (groupListBy (·.group_number) s.roster).map
    (fun g => (g.1, g.2.map (·.player_id)))
  let group_rankings := group_map.map
    (fun g => (g.1, stableSort (fun a b => keyLe (koSortKey stats a) (koSortKey stats b)) g.2))
  let sorted_groups := stableSort (fun a b => a.1 ≤ b.1) group_rankings
  let first_pass := sorted_groups.flatMap (fun g => g.2.take t.players_advance_per_group)
  let num_players := first_pass.length
  if num_players = 0 then none
  else
    let ko_size := ko_size_of num_players
    let num_byes := ko_size - num_players
    let advance_count := t.players_advance_per_group
    let rank_buckets : ℕ → List ℕ := fun i =>
      group_rankings.filterMap (fun g =>
        if i < min advance_count g.2.length then g.2.get? i else none)
    let players_advancing := (List.range advance_count).flatMap (fun i =>
      stableSort (fun a b => keyLe (koSortKey stats a) (koSortKey stats b)) (rank_buckets i))
    let seeds := generate_bracket_seeds ko_size
    let bye_positions := byePositions seeds num_byes
    match buildSeedingWithGroups seeds bye_positions players_advancing with
    | none => none
    | some slots =>
      let rows := koLoopWithGroups (sameGroup s.roster) (Round.roundOf ko_size)
        ko_size ((ko_size + 1) / 2) 0 slots s.nextId
      some { s with matchRows := s.matchRows ++ rows, nextId := s.nextId + rows.length }

/-- `generate_knockout_stage_matches`: dispatch on `num_groups`. -/
def generateKnockoutStageMatches (t : TournamentRow) (s : Store) : Option Store :=
  if t.num_groups = 0 then generateKnockoutNoGroups s
  else generateKnockoutWithGroups t s

/-- The request body of `POST /tournaments/` (fields the engine reads). -/
structure TournamentCreateIn where
  num_groups : ℕ
  players_per_group_advancing : ℕ
  player_ids : List ℕ
  is_customized : Bool
  deriving DecidableEq, Repr

/-- `create_tournament`: computes the stored `knockout_size` from
`num_groups * players_per_group_advancing` (no validation of the
group/advance combination), assigns groups round-robin by index, and
generates the initial fixtures.  `none` models an untrapped generation
error. -/
def createTournament (tc : TournamentCreateIn) (s : Store) :
    Option (TournamentRow × Store) :=
  let total_ko_players := tc.num_groups * tc.players_per_group_advancing
  let computed_ko_size := next_power_of_two total_ko_players
  let t : TournamentRow :=
    { num_groups := tc.num_groups
      players_advance_per_group := tc.players_per_group_advancing
      knockout_size := computed_ko_size
      num_players := tc.player_ids.length
      is_customized := tc.is_customized }
  if tc.is_customized then some (t, s)
  else
    let roster :=
      if tc.num_groups > 0 then
        tc.player_ids.enum.map (fun ip =>
          (⟨ip.2, ip.1 % tc.num_groups⟩ : TPRow))
      else
        tc.player_ids.map (fun pid => (⟨pid, 0⟩ : TPRow))
    let s := { s with roster := s.roster ++ roster }
    if tc.num_groups > 0 then some (t, generateGroupStageMatches s)
    else (generateKnockoutNoGroups s).map (fun s2 => (t, s2))

/-! ## Group rankings of `get_tournament_details` -/

/-- `player_stats` of the details endpoint (also counts losses). -/
def detailsStats (s : Store) : Option ℕ → PStats :=
  (s.matchRows.filter (·.stage = Stage.group)).foldl (fun f m =>
    if m.winner = none then f
    else
      let f :=
        if m.winner = m.player1 then
          let f := statUpd f m.player1 (fun st => { st with wins := st.wins + 1 })
          statUpd f m.player2 (fun st => { st with losses := st.losses + 1 })
        else
          let f := statUpd f m.player2 (fun st => { st with wins := st.wins + 1 })
          statUpd f m.player1 (fun st => { st with losses := st.losses + 1 })
      applySetRows m.player1 m.player2 (setScoresOf s m.id) f)
    (fun _ => zeroStats)

/-- The details endpoint's `sort_key(pid)`:
`(-wins, -set_wins + set_losses, -points_won + points_lost)`. -/
def detailsSortKey (f : Option ℕ → PStats) (pid : ℕ) : ℤ × ℤ × ℤ :=
  let stats := f (some pid)
  (-stats.wins, -stats.set_wins + stats.set_losses,
    -stats.points_won + stats.points_lost)

/-- `group_matrix["results"].get(f"{a}-{b}") or .get(f"{b}-{a}")`: the winner
column of the last group match keyed `(a, b)`, else of the last keyed
`(b, a)`; `none` when the pair never met. -/
def detailsH2H (s : Store) (a b : ℕ) : Option (Option ℕ) :=
  let gms := s.matchRows.filter (·.stage = Stage.group)
  match gms.reverse.find? (fun m => m.player1 = some a ∧ m.player2 = some b) with
  | some m => some m.winner
  | none =>
    (gms.reverse.find? (fun m => m.player1 = some b ∧ m.player2 = some a)).map (·.winner)

/-- One step of the adjacent swap pass: `cur` is the element at position
`i`; on a swap the displaced element stays the comparison subject. -/
def h2hPassGo (cond : ℕ → ℕ → Bool) (cur : ℕ) : List ℕ → List ℕ
  | [] => [cur]
  | b :: rest =>
    if cond cur b then b :: h2hPassGo cond cur rest else cur :: h2hPassGo cond b rest

/-- The `while i < len(ranked) - 1` adjacent pass: swap `a, b` when `cond a b`
holds, then advance `i` by one (so the swapped-down element is compared with
the next entry). -/
def h2hPass (cond : ℕ → ℕ → Bool) : List ℕ → List ℕ
  | [] => []
  | a :: rest => h2hPassGo cond a rest

/-- The swap condition of the details endpoint: equal `wins` and a recorded
head-to-head whose winner column equals the lower-sorted player. -/
def detailsSwapCond (s : Store) (f : Option ℕ → PStats) (a b : ℕ) : Bool :=
  (f (some a)).wins = (f (some b)).wins &&
    match detailsH2H s a b with
    | some w => w = some b
    | none => false

/-- Ranking of one group's member list by the details endpoint: stable sort
by `detailsSortKey`, then one adjacent head-to-head pass. -/
def detailsRankGroup (s : Store) (pids : List ℕ) : List ℕ :=
  let stats := detailsStats s
  h2hPass (detailsSwapCond s stats)
    (stableSort (fun a b => keyLe (detailsSortKey stats a) (detailsSortKey stats b)) pids)

/-- `group_rankings` of `get_tournament_details`: groups in first-occurrence
order, each ranked by `detailsRankGroup`. -/
def detailsGroupRankings (s : Store) : List (ℕ × List ℕ) :=
  ((groupListBy (·.group_number) s.roster).map
      (fun g => (g.1, g.2.map (·.player_id)))).map
    (fun g => (g.1, detailsRankGroup s g.2))

/-! ## `advance_knockout_rounds` -/

/-- `round_sort_key(name)`: `"Final" → 1`, `"3rd Place Match" → 0`, else the
integer parsed from the label's last token. -/
def round_sort_key : Round → ℤ
  | Round.final => 1
  | Round.thirdPlace => 0
  | Round.roundOf n => n
  | Round.groupRound n => n

/-- `rounds[name]` dict access. -/
def roundsLookup (rounds : List (Round × List MatchRow)) (r : Round) :
    List MatchRow :=
  ((rounds.find? (·.1 = r)).map (·.2)).getD []

/-- Loser of a match: `m.player1_id if m.winner_id != m.player1_id else
m.player2_id`. -/
def loserOf (m : MatchRow) : Option ℕ :=
  if m.winner ≠ m.player1 then m.player1 else m.player2

/-- `"Final" if winnerCount == 2 and current == "Round of 4" else
"Round of {winnerCount}"`. -/
def nextRoundName (winnerCount : ℕ) (current : Round) : Round :=
  if winnerCount = 2 ∧ current = Round.roundOf 4 then Round.final
  else Round.roundOf winnerCount

/-- Next-round creation loop: pair winners in order; a lone trailing winner
becomes an auto-bye with the winner pre-set. -/
def nextRoundRows (label : Round) : List ℕ → ℕ → List MatchRow
  | [], _ => []
  | [p], nid => [koByeRow nid p label]
  | p :: q :: rest, nid => koPairRow nid p q label :: nextRoundRows label rest (nid + 1)

/-- `db.add_all` of the final-standings block: positions 1 and 2 always,
3 and 4 only when truthy. -/
def writeStandings (s : Store) (first : ℕ) (second third fourth : Option ℕ) :
    Store :=
  let base := [(⟨some first, 1⟩ : StandingRow), ⟨second, 2⟩]
  let withT := if truthy third then base ++ [⟨third, 3⟩] else base
  let withF := if truthy fourth then withT ++ [⟨fourth, 4⟩] else withT
  { s with standings := s.standings ++ withF }

/-- The 3rd-place phase of `advance_knockout_rounds` (runs when the fully
decided current round is named `"Round of 4"`): with two completed matches
and no existing `"3rd Place Match"`, create it from the two losers; with one
completed match, record the loser directly as a position-3 standing. -/
def thirdPlacePhase (s : Store) (current_round_name : Round)
    (current_round_matches : List MatchRow) : Store :=
  if current_round_name = Round.roundOf 4 then
    let completed := current_round_matches.filter (·.winner ≠ none)
    if completed.length = 2 then
      match completed.map loserOf with
      | [l1, l2] =>
        if l1 = none ∨ l2 = none then s
        else if s.matchRows.any (·.round = Round.thirdPlace) then s
        else
          { s with
            matchRows := s.matchRows ++
              [⟨s.nextId, l1, l2, none, none, none, Round.thirdPlace, Stage.knockout⟩]
            nextId := s.nextId + 1 }
      | _ => s
    else if completed.length = 1 then
      match completed with
      | [semi] =>
        if truthy semi.winner then
          let third_place_id := loserOf semi
          if truthy third_place_id then
            { s with standings := s.standings ++ [⟨third_place_id, 3⟩] }
          else s
        else s
      | _ => s
    else s
  else s

/-- The final-standings phase (current round is the decided `"Final"`):
2nd place is the final's loser; 3rd/4th come from the `"3rd Place Match"` if
one exists (deferring while it is undecided), else 3rd falls back to the
loser of a two-player match of the previous round. -/
def finalPhase (s : Store) (final_match : MatchRow) (first : ℕ)
    (last_round_matches : List MatchRow) : Store :=
  let second :=
    if final_match.winner ≠ final_match.player1 then final_match.player1
    else final_match.player2
  match (s.matchRows.filter (·.round = Round.thirdPlace)).head? with
  | some tm =>
    if tm.winner = none then s
    else
      let third := tm.winner
      let fourth := if tm.winner ≠ tm.player1 then tm.player1 else tm.player2
      writeStandings s first second third fourth
  | none =>
    let third :=
      match last_round_matches.find? (fun m => m.player1 ≠ none ∧ m.player2 ≠ none) with
      | some m =>
        if truthy m.winner then
          (if m.winner ≠ m.player1 then m.player1 else m.player2)
        else none
      | none => none
    writeStandings s first second third none

/-- `advance_knockout_rounds`: the knockout state machine, invoked after each
result write and by the manual advance endpoint.  Returns the store
unchanged on every early-return path. -/
def advanceKnockoutRounds (s : Store) : Store :=
  -- already finalized? (any standing row)
  if s.standings ≠ [] then s
  else
  -- fetch knockout matches, ORDER BY round (string order, stable)
  let fetched := stableSort (fun a b => lexLe (roundSqlKey a.round) (roundSqlKey b.round))
    (s.matchRows.filter (·.stage = Stage.knockout))
  if fetched = [] then s
  else
  -- group by round, excluding the 3rd-place match
  let rounds := groupListBy (·.round) (fetched.filter (·.round ≠ Round.thirdPlace))
  let round_names := stableSort (fun a b => round_sort_key b ≤ round_sort_key a)
    (rounds.map (·.1))
  match round_names.getLast? with
  | none => s
  | some current_round_name =>
    let current_round_matches := roundsLookup rounds current_round_name
    if current_round_matches.any (·.winner = none) then s
    else
    let last_round_matches :=
      if round_names.length > 1 then
        match round_names.dropLast.getLast? with
        | some last_round_name => roundsLookup rounds last_round_name
        | none => []
      else []
    if last_round_matches.any (·.winner = none) then s
    else
    let s1 := thirdPlacePhase s current_round_name current_round_matches
    let winners := current_round_matches.filterMap
      (fun m => if truthy m.winner then m.winner else none)
    if winners.length = 1 ∧ current_round_name = Round.final then
      match current_round_matches.head?, winners.head? with
      | some final_match, some first => finalPhase s1 final_match first last_round_matches
      | _, _ => s1
    else if winners.length = 1 ∧ current_round_name = Round.thirdPlace then
      -- unreachable: `rounds` excludes "3rd Place Match"; the source would
      -- raise NameError (`first`/`second` unbound) if it ever got here
      s1
    else
    let next_round_size := winners.length
    if next_round_size < 2 then s1
    else
    let next_round_name := nextRoundName next_round_size current_round_name
    if s1.matchRows.any (fun m => m.round = next_round_name ∧ m.stage = Stage.knockout) then s1
    else
      let rows := nextRoundRows next_round_name winners s1.nextId
      { s1 with matchRows := s1.matchRows ++ rows, nextId := s1.nextId + rows.length }

/-- The part of `advance_knockout_rounds` after the early-return guards
(finalized, nothing fetched, no rounds, undecided current or previous round),
with the current round name, its matches and the previous round's matches
abstracted; `advanceKnockoutRounds` reduces to it once the guards pass. -/
def advanceTail (s : Store) (c : Round) (crm lrm : List MatchRow) : Store :=
  let s1 := thirdPlacePhase s c crm
  let winners := crm.filterMap (fun m => if truthy m.winner then m.winner else none)
  if winners.length = 1 ∧ c = Round.final then
    match crm.head?, winners.head? with
    | some final_match, some first => finalPhase s1 final_match first lrm
    | _, _ => s1
  else if winners.length = 1 ∧ c = Round.thirdPlace then s1
  else
  let next_round_size := winners.length
  if next_round_size < 2 then s1
  else
  let next_round_name := nextRoundName next_round_size c
  if s1.matchRows.any (fun m => m.round = next_round_name ∧ m.stage = Stage.knockout) then s1
  else
    let rows := nextRoundRows next_round_name winners s1.nextId
    { s1 with matchRows := s1.matchRows ++ rows, nextId := s1.nextId + rows.length }

/-! ## Result submission -/

/-- `int(calculate_elo(...))` as composed in `submit_match`
(`matches.py` lines 51–52). -/
noncomputable def submit_match_new_rating
    (old_rating opponent_rating outcome : ℝ) (games_played : ℤ) : ℤ :=
  pytrunc (matches_calculate_elo old_rating opponent_rating outcome games_played)

/-- The request body of the result-submission endpoints (`MatchResult`
schema); a set is `(set_number, player1_score, player2_score)`. -/
structure MatchResultIn where
  player1_id : ℕ
  player2_id : ℕ
  player1_score : ℤ
  player2_score : ℤ
  winner_id : ℕ
  sets : List (ℤ × ℤ × ℤ)
  deriving DecidableEq, Repr

/-- How a call of `submit_tournament_match_result` ends. -/
inductive SubmitOutcome
  | ok
  /-- HTTP 404 "Match not found" -/
  | notFound
  /-- HTTP 400 "Both players must exist." -/
  | playersMissing
  /-- HTTP 400 "Winner must be one of the players." -/
  | invalidWinner
  /-- `TypeError: calculate_elo() takes 2 positional arguments but 4 were
  given` — the `calculate_elo` imported from `app.elo` has two parameters
  but is called with four arguments -/
  | typeError
  deriving DecidableEq, Repr

/-- The match-row update and set-score replacement of
`submit_tournament_match_result` (committed at line 902, before any
validation). -/
def applyResultWrite (s : Store) (mid : ℕ) (r : MatchResultIn) : Store :=
  { s with
    matchRows := s.matchRows.map (fun m =>
      if m.id = mid then
        { m with
          player1 := some r.player1_id
          player2 := some r.player2_id
          winner := some r.winner_id
          score1 := some r.player1_score
          score2 := some r.player2_score }
      else m)
    sets := s.sets.filter (·.match_id ≠ mid) ++
      r.sets.map (fun t => (⟨mid, t.1, t.2.1, t.2.2⟩ : SetRow)) }

/-- `submit_tournament_match_result`: update the match row and replace its
set scores, commit, then look up the players and validate; the rating update
then calls the two-parameter `app.elo.calculate_elo` with four arguments and
raises `TypeError`, so execution never reaches the player updates or the
group-completion / advancement logic. -/
def submitTournamentMatchResult (s : Store) (mid : ℕ) (r : MatchResultIn) :
    Store × SubmitOutcome :=
  match s.matchRows.find? (·.id = mid) with
  | none => (s, SubmitOutcome.notFound)
  | some _ =>
    let s := applyResultWrite s mid r
    let players := s.players.filter (fun p => p.id = r.player1_id ∨ p.id = r.player2_id)
    if players.length < 2 then (s, SubmitOutcome.playersMissing)
    else
      match players with
      | pa :: pb :: _ =>
        let pq := if pa.id = r.player1_id then (pa, pb) else (pb, pa)
        if r.winner_id ≠ pq.1.id ∧ r.winner_id ≠ pq.2.id then
          (s, SubmitOutcome.invalidWinner)
        else if tournaments_elo_call_argCount = elo_calculate_elo_paramCount then
          (s, SubmitOutcome.ok)  -- unreachable: the call has 4 args, the function 2 parameters
        else (s, SubmitOutcome.typeError)
      | _ => (s, SubmitOutcome.playersMissing)

/-- A `CustomMatch` of the `POST /{id}/custom-setup` body. -/
structure CustomMatchIn where
  player1_id : ℕ
  player2_id : Option ℕ
  round : Round
  stage : Stage
  deriving DecidableEq, Repr

/-- `setup_custom_tournament`: append the optional group assignments and the
caller-supplied matches verbatim — no winner is set and no structural check
is made. -/
def setupCustomTournament (s : Store) (assignments : List TPRow)
    (custom_matches : List CustomMatchIn) : Store :=
  let rows := custom_matches.enum.map (fun im =>
    (⟨s.nextId + im.1, some im.2.player1_id, im.2.player2_id, none, none, none,
      im.2.round, im.2.stage⟩ : MatchRow))
  { s with
    roster := s.roster ++ assignments
    matchRows := s.matchRows ++ rows
    nextId := s.nextId + rows.length }

/-! ## Concrete scenarios

`recordWin` is the committed write of `submit_tournament_match_result`
(which persists even though the endpoint then dies in the Elo `TypeError`);
advancement is then triggered through the manual
`POST /{id}/advance-knockout` endpoint, as an operator has to do. -/

/-- Record a decided result (2–0, no set detail) for match `mid`. -/
def recordWin (s : Store) (mid p1 p2 w : ℕ) : Store :=
  applyResultWrite s mid
    { player1_id := p1, player2_id := p2, player1_score := 2,
      player2_score := 0, winner_id := w, sets := [] }

/-- An empty store (fresh database). -/
def store0 : Store := ⟨[], [], [], [], [], 1⟩

/-- Scenario A (spec §8): four players, no groups, distinct ratings. -/
def scenarioA0 : Store :=
  { matchRows := [], sets := []
    players := [⟨1, 1500, some 0⟩, ⟨2, 1400, some 0⟩, ⟨3, 1300, some 0⟩, ⟨4, 1200, some 0⟩]
    standings := [], roster := [⟨1, 0⟩, ⟨2, 0⟩, ⟨3, 0⟩, ⟨4, 0⟩], nextId := 1 }

/-- Scenario A after knockout generation (two "Round of 4" matches). -/
def scenarioA1 : Store := (generateKnockoutNoGroups scenarioA0).getD scenarioA0

/-- Both first-round results recorded: 1 beats 3, 2 beats 4. -/
def scenarioA2 : Store := recordWin (recordWin scenarioA1 1 1 3 1) 2 4 2 2

/-- After the advance triggered by the completed first round. -/
def scenarioA3 : Store := advanceKnockoutRounds scenarioA2

/-- Final decided (1 beats 2), 3rd-place match still open. -/
def scenarioA4 : Store := recordWin scenarioA3 4 1 2 1

/-- 3rd-place match decided as well (3 beats 4). -/
def scenarioA6 : Store := recordWin scenarioA4 3 3 4 3

/-- Group of four with two pairs of equal win counts but distinct set
differentials (players 1 and 2 both win twice; 1 has the better set
differential but lost the head-to-head against 2). -/
def c7Store : Store :=
  { matchRows :=
      [⟨1, some 1, some 2, some 2, some 1, some 2, Round.groupRound 1, Stage.group⟩,
       ⟨2, some 1, some 3, some 1, some 2, some 0, Round.groupRound 1, Stage.group⟩,
       ⟨3, some 1, some 4, some 1, some 2, some 0, Round.groupRound 1, Stage.group⟩,
       ⟨4, some 2, some 3, some 2, some 2, some 1, Round.groupRound 1, Stage.group⟩,
       ⟨5, some 2, some 4, some 4, some 0, some 2, Round.groupRound 1, Stage.group⟩,
       ⟨6, some 3, some 4, some 3, some 2, some 0, Round.groupRound 1, Stage.group⟩]
    sets :=
      [⟨1, 1, 11, 9⟩, ⟨1, 2, 9, 11⟩, ⟨1, 3, 9, 11⟩,
       ⟨2, 1, 11, 5⟩, ⟨2, 2, 11, 5⟩,
       ⟨3, 1, 11, 5⟩, ⟨3, 2, 11, 5⟩,
       ⟨4, 1, 11, 9⟩, ⟨4, 2, 9, 11⟩, ⟨4, 3, 11, 9⟩,
       ⟨5, 1, 5, 11⟩, ⟨5, 2, 5, 11⟩,
       ⟨6, 1, 11, 5⟩, ⟨6, 2, 11, 5⟩]
    players := [⟨1, 1500, some 0⟩, ⟨2, 1500, some 0⟩, ⟨3, 1500, some 0⟩, ⟨4, 1500, some 0⟩]
    standings := [], roster := [⟨1, 0⟩, ⟨2, 0⟩, ⟨3, 0⟩, ⟨4, 0⟩], nextId := 7 }

/-- A store with one open knockout match between existing players 1 and 2. -/
def wStore : Store :=
  { matchRows := [⟨1, some 1, some 2, none, none, none, Round.roundOf 2, Stage.knockout⟩]
    sets := [⟨1, 1, 5, 5⟩]
    players := [⟨1, 1500, some 0⟩, ⟨2, 1400, some 0⟩]
    standings := [], roster := [⟨1, 0⟩, ⟨2, 0⟩], nextId := 2 }

/-- A valid submission for `wStore`: winner 1 is one of the players. -/
def wResult : MatchResultIn := ⟨1, 2, 2, 0, 1, [(1, 11, 9), (2, 11, 7)]⟩

/-- An invalid submission for `wStore`: winner 5 is neither player. -/
def wBadResult : MatchResultIn := ⟨1, 2, 2, 0, 5, [(1, 11, 9)]⟩

/-- The creation request of the repository's own test case
`invalid_6p_3g_3a` (`tests/test_tournaments.py`): 6 players, 3 groups of 2,
3 advancing per group — the test expects HTTP 400/422. -/
def c6Input : TournamentCreateIn := ⟨3, 3, [1, 2, 3, 4, 5, 6], false⟩

/-- The `Tournament` row stored for `c6Input`. -/
def c6T : TournamentRow :=
  ((createTournament c6Input store0).map (·.1)).getD ⟨0, 0, 0, 0, false⟩

/-- The store after creating `c6Input`'s tournament (three group fixtures:
1–4, 2–5, 3–6). -/
def c6S1 : Store :=
  ((createTournament c6Input store0).map (·.2)).getD store0

/-- All three group matches decided (1, 2 and 3 win their groups). -/
def c6S2 : Store :=
  recordWin (recordWin (recordWin c6S1 1 1 4 1) 2 2 5 2) 3 3 6 3

/-- The match invariant of the claim: no match pairs a player against
itself, and a match with a null second participant has its winner pre-set
to the present first participant. -/
def MatchInvariant (m : MatchRow) : Prop :=
  (∀ p : ℕ, ¬(m.player1 = some p ∧ m.player2 = some p)) ∧
  (m.player2 = none → m.winner = m.player1)

/-- Two matches share no participant. -/
def PlayersDisjoint (m1 m2 : MatchRow) : Prop :=
  ∀ p : ℕ, (m1.player1 = some p ∨ m1.player2 = some p) →
    ¬(m2.player1 = some p ∨ m2.player2 = some p)

/-- Distinct slots of a seeding dict never hold the same player. -/
def SlotsInj (slots : List (ℕ × Option ℕ)) : Prop :=
  (slots.map (·.1)).Nodup ∧
  ∀ e1 ∈ slots, ∀ e2 ∈ slots, e1.1 ≠ e2.1 →
    ∀ p : ℕ, e1.2 = some p → e2.2 ≠ some p

/-- Invariant of the slot-filling folds: slot keys are distinct, every
assigned player was consumed from the advancing list's prefix, and distinct
slots hold distinct players. -/
def BuildInv (players : List ℕ) (acc : List (ℕ × Option ℕ) × ℕ) : Prop :=
  ((acc.1.map (·.1)).Nodup) ∧
  (∀ e ∈ acc.1, ∀ p : ℕ, e.2 = some p → p ∈ players.take acc.2) ∧
  (∀ e1 ∈ acc.1, ∀ e2 ∈ acc.1, e1.1 ≠ e2.1 → ∀ p : ℕ, e1.2 = some p → e2.2 ≠ some p)

/-- A custom-setup call adding a no-opponent match without a winner and a
match pairing player 7 against itself. -/
def c9CustomStore : Store :=
  setupCustomTournament store0 []
    [⟨5, none, Round.roundOf 2, Stage.knockout⟩,
     ⟨7, some 7, Round.roundOf 2, Stage.knockout⟩]

/-- The store generated by the grouped knockout generator for the `c6`
tournament (three groups of two, all group matches decided). -/
def c9GroupedKO : Store := (generateKnockoutWithGroups c6T c6S2).getD c6S2

/-- Sample rows created by each match-creating operation, used to witness the
invariant theorem: a group fixture of `scenarioA0`, a first-round knockout
pair of `scenarioA1`, a grouped-bracket pair of `c9GroupedKO`, and the
3rd-place match the advance step adds to `scenarioA2`. -/
def c9MG : MatchRow := ⟨1, some 1, some 2, none, none, none, Round.groupRound 1, Stage.group⟩

def c9MN : MatchRow := ⟨1, some 1, some 3, none, none, none, Round.roundOf 4, Stage.knockout⟩

def c9MW : MatchRow := ⟨5, some 5, some 3, none, none, none, Round.roundOf 8, Stage.knockout⟩

def c9MA : MatchRow := ⟨3, some 3, some 4, none, none, none, Round.thirdPlace, Stage.knockout⟩

/-- The two decided first-round rows of `scenarioA2`. -/
def c9S2a : MatchRow := ⟨1, some 1, some 3, some 1, some 2, some 0, Round.roundOf 4, Stage.knockout⟩

def c9S2b : MatchRow := ⟨2, some 4, some 2, some 2, some 2, some 0, Round.roundOf 4, Stage.knockout⟩

/-! # Theorems -/

/-! ## Elo facts -/

theorem expected_score_pos (a b : ℝ) : 0 < expected_score a b := by
  unfold expected_score
  have h : (0 : ℝ) < (10 : ℝ) ^ ((b - a) / 400) :=
    Real.rpow_pos_of_pos (by norm_num) _
  have h1 : (0 : ℝ) < 1 + (10 : ℝ) ^ ((b - a) / 400) := by linarith
  exact div_pos one_pos h1

theorem expected_score_lt_one (a b : ℝ) : expected_score a b < 1 := by
  unfold expected_score
  have h : (0 : ℝ) < (10 : ℝ) ^ ((b - a) / 400) :=
    Real.rpow_pos_of_pos (by norm_num) _
  rw [div_lt_one (by linarith)]
  linarith

theorem le_pytrunc (a : ℤ) (x : ℝ) (h : (a : ℝ) ≤ x) : a ≤ pytrunc x := by
  unfold pytrunc
  split
  · exact Int.le_floor.mpr h
  · have h2 : (a : ℝ) ≤ ((⌈x⌉ : ℤ) : ℝ) := le_trans h (Int.le_ceil x)
    exact_mod_cast h2

theorem pytrunc_le (a : ℤ) (x : ℝ) (h : x ≤ (a : ℝ)) : pytrunc x ≤ a := by
  unfold pytrunc
  split
  · have h2 : ((⌊x⌋ : ℤ) : ℝ) ≤ (a : ℝ) := le_trans (Int.floor_le x) h
    exact_mod_cast h2
  · exact Int.ceil_le.mpr h

/-- C10: for all integer ratings `ratingA`, `ratingB` and any matches-played
count, the rating `submit_match` stores for the winner (outcome 1) is ≥
`ratingA`, and for the loser (outcome 0) is ≤ `ratingA`, including after the
caller's `int(...)` conversion. -/
theorem elo_monotone_after_int_cast (ratingA ratingB games : ℤ) :
    ratingA ≤ submit_match_new_rating ratingA ratingB 1 games ∧
    submit_match_new_rating ratingA ratingB 0 games ≤ ratingA := by
  have hE0 := expected_score_pos (ratingA : ℝ) (ratingB : ℝ)
  have hE1 := expected_score_lt_one (ratingA : ℝ) (ratingB : ℝ)
  have hK : (0 : ℝ) < spec_K_factor games := by
    unfold spec_K_factor
    split_ifs <;> norm_num
  have hcalc : ∀ o : ℝ, matches_calculate_elo (ratingA : ℝ) (ratingB : ℝ) o games =
      (ratingA : ℝ) + spec_K_factor games * (o - expected_score (ratingA : ℝ) (ratingB : ℝ)) :=
    fun _ => rfl
  constructor
  · apply le_pytrunc
    rw [hcalc]
    have hnn : 0 ≤ spec_K_factor games *
        (1 - expected_score (ratingA : ℝ) (ratingB : ℝ)) :=
      mul_nonneg hK.le (by linarith)
    linarith
  · apply pytrunc_le
    rw [hcalc]
    have hnn : spec_K_factor games *
        (0 - expected_score (ratingA : ℝ) (ratingB : ℝ)) ≤ 0 :=
      mul_nonpos_of_nonneg_of_nonpos hK.le (by linarith)
    linarith

theorem applyResultWrite_players (s : Store) (mid : ℕ) (r : MatchResultIn) :
    (applyResultWrite s mid r).players = s.players := rfl

theorem applyResultWrite_standings (s : Store) (mid : ℕ) (r : MatchResultIn) :
    (applyResultWrite s mid r).standings = s.standings := rfl

theorem submitTournament_players_unchanged (s : Store) (mid : ℕ) (r : MatchResultIn) :
    (submitTournamentMatchResult s mid r).1.players = s.players := by
  unfold submitTournamentMatchResult
  dsimp only
  repeat' split
  all_goals rfl

/-- C5: every rating actually computed from a recorded result uses the
experience-tiered K factor: the standalone `calculate_elo` of
`matches.py` equals `old + K(m) · (outcome − expected)` with the spec's
tiers K=40 (≤10), K=24 (≤200), else K=16; and the tournament submission
path never updates any Player row (its rating call dies in a `TypeError`),
so no other K is ever applied. -/
theorem rating_k_factor_tiered :
    (∀ (old opp outcome : ℝ) (g : ℤ),
      matches_calculate_elo old opp outcome g =
        old + spec_K_factor g * (outcome - expected_score old opp)) ∧
    (∀ (s : Store) (mid : ℕ) (r : MatchResultIn),
      (submitTournamentMatchResult s mid r).1.players = s.players) :=
  ⟨fun _ _ _ _ => rfl, submitTournament_players_unchanged⟩

/-! ## The tournament submission endpoint (C1, C2) -/

/-- C1: whenever a tournament result submission reaches the rating-update
step (the match exists, both players are found, the winner is one of them),
the four-argument call of the two-parameter `app.elo.calculate_elo` raises
`TypeError`; the returned store shows the match-row update and set-score
replacement already committed, while Player and Standing rows are untouched
(no rating is ever computed). -/
theorem tournament_submit_elo_type_error (s : Store) (mid : ℕ) (r : MatchResultIn)
    (hfind : (s.matchRows.find? (fun m => m.id = mid)).isSome)
    (hplayers : (((applyResultWrite s mid r).players.filter
        (fun p => p.id = r.player1_id ∨ p.id = r.player2_id)).map (·.id)) =
      [r.player1_id, r.player2_id])
    (hwinner : r.winner_id = r.player1_id ∨ r.winner_id = r.player2_id) :
    submitTournamentMatchResult s mid r = (applyResultWrite s mid r, SubmitOutcome.typeError) ∧
    (applyResultWrite s mid r).players = s.players ∧
    (applyResultWrite s mid r).standings = s.standings := by
  refine ⟨?_, rfl, rfl⟩
  obtain ⟨m, hm⟩ := Option.isSome_iff_exists.mp hfind
  unfold submitTournamentMatchResult
  rw [hm]
  dsimp only
  rcases hq : List.filter (fun p => decide (p.id = r.player1_id ∨ p.id = r.player2_id))
      (applyResultWrite s mid r).players with _ | ⟨pa, _ | ⟨pb, rest⟩⟩
  · rw [hq] at hplayers
    simp at hplayers
  · rw [hq] at hplayers
    simp at hplayers
  · rw [hq] at hplayers
    simp only [List.map_cons, List.cons.injEq] at hplayers
    obtain ⟨hpa, hpb, -⟩ := hplayers
    rw [hq]
    rw [if_neg (by simp)]
    dsimp only
    rw [if_pos hpa]
    rw [if_neg (fun h => hwinner.elim (fun h1 => h.1 (h1.trans hpa.symm))
      (fun h2 => h.2 (h2.trans hpb.symm)))]
    rw [if_neg (by decide)]

/-- Witness for C1 at a concrete store: one open knockout match between
players 1 and 2, a submission naming winner 1. -/
theorem tournament_submit_elo_type_error_witness :
    submitTournamentMatchResult wStore 1 wResult = (applyResultWrite wStore 1 wResult, SubmitOutcome.typeError) ∧
    (applyResultWrite wStore 1 wResult).players = wStore.players ∧
    (applyResultWrite wStore 1 wResult).standings = wStore.standings :=
  tournament_submit_elo_type_error wStore 1 wResult (by decide) (by decide) (by decide)

/-- C2 counterexample: a submission whose winner (5) is neither listed
player is rejected with the validation error, but the Match row and its
SetScore rows HAVE changed — the update and set replacement were committed
before the check, contradicting "rejected before any mutation". -/
theorem submit_validation_after_commit_cex :
    (submitTournamentMatchResult wStore 1 wBadResult).2 = SubmitOutcome.invalidWinner ∧
    ((submitTournamentMatchResult wStore 1 wBadResult).1.matchRows = wStore.matchRows) = False ∧
    ((submitTournamentMatchResult wStore 1 wBadResult).1.sets = wStore.sets) = False := by
  refine ⟨by decide, ?_, ?_⟩ <;> simp only [eq_iff_iff, iff_false] <;> decide

/-- C2 amended: an invalid submission (missing player or winner not among
the two listed players) is rejected with a validation error, but only the
Player and Standing rows are unchanged — the Match row update and the
set-score replacement have already been committed when the error is
raised. -/
theorem submit_validation_mutates_first (s : Store) (mid : ℕ) (r : MatchResultIn)
    (hfind : (s.matchRows.find? (fun m => m.id = mid)).isSome)
    (hinvalid :
      ((applyResultWrite s mid r).players.filter
          (fun p => p.id = r.player1_id ∨ p.id = r.player2_id)).length < 2 ∨
      ((((applyResultWrite s mid r).players.filter
          (fun p => p.id = r.player1_id ∨ p.id = r.player2_id)).map (·.id)) =
        [r.player1_id, r.player2_id] ∧
        r.winner_id ≠ r.player1_id ∧ r.winner_id ≠ r.player2_id)) :
    (submitTournamentMatchResult s mid r).1 = applyResultWrite s mid r ∧
    ((submitTournamentMatchResult s mid r).2 = SubmitOutcome.playersMissing ∨
      (submitTournamentMatchResult s mid r).2 = SubmitOutcome.invalidWinner) ∧
    (applyResultWrite s mid r).players = s.players ∧
    (applyResultWrite s mid r).standings = s.standings := by
  obtain ⟨m, hm⟩ := Option.isSome_iff_exists.mp hfind
  have hred : submitTournamentMatchResult s mid r = (applyResultWrite s mid r, SubmitOutcome.playersMissing) ∨
      submitTournamentMatchResult s mid r = (applyResultWrite s mid r, SubmitOutcome.invalidWinner) := by
    unfold submitTournamentMatchResult
    rw [hm]
    dsimp only
    rcases hinvalid with hlen | ⟨hids, hw1, hw2⟩
    · rw [if_pos hlen]
      exact Or.inl rfl
    · rcases hq : List.filter (fun p => decide (p.id = r.player1_id ∨ p.id = r.player2_id))
          (applyResultWrite s mid r).players with _ | ⟨pa, _ | ⟨pb, rest⟩⟩
      · rw [hq] at hids; simp at hids
      · rw [hq] at hids; simp at hids
      · rw [hq] at hids
        simp only [List.map_cons, List.cons.injEq] at hids
        obtain ⟨hpa, hpb, -⟩ := hids
        rw [hq]
        rw [if_neg (by simp)]
        dsimp only
        rw [if_pos hpa]
        rw [if_pos ⟨fun h => hw1 (h.trans hpa), fun h => hw2 (h.trans hpb)⟩]
        exact Or.inr rfl
  rcases hred with h | h <;> rw [h] <;> exact ⟨rfl, by simp, rfl, rfl⟩

/-- Witness for the amended C2: the invalid-winner submission `wBadResult`
at the concrete `wStore`. -/
theorem submit_validation_mutates_first_witness :
    (submitTournamentMatchResult wStore 1 wBadResult).1 = applyResultWrite wStore 1 wBadResult ∧
    ((submitTournamentMatchResult wStore 1 wBadResult).2 = SubmitOutcome.playersMissing ∨
      (submitTournamentMatchResult wStore 1 wBadResult).2 = SubmitOutcome.invalidWinner) ∧
    (applyResultWrite wStore 1 wBadResult).players = wStore.players ∧
    (applyResultWrite wStore 1 wBadResult).standings = wStore.standings :=
  submit_validation_mutates_first wStore 1 wBadResult (by decide) (by decide)

/-! ## Tournament creation (C6) -/

/-- C6 (code bug): the repository's own test case `invalid_6p_3g_3a`
(`tests/test_tournaments.py`) expects the request — 6 players, 3 groups,
3 advancing per group — to be rejected with HTTP 400/422, but
`create_tournament` validates nothing: it accepts the request and stores
`knockout_size = next_power_of_two(3 · 3) = 16`, although only 6 players
exist (smallest power of two ≥ 6 is 8), and the bracket generated at group
completion is in fact a "Round of 8". -/
theorem create_tournament_accepts_invalid_combo :
    (createTournament c6Input store0).map (fun ts => ts.1.knockout_size) = some 16 ∧
    next_power_of_two 6 = 8 ∧
    ((generateKnockoutWithGroups c6T c6S2).map
      (fun s => (s.matchRows.filter (fun m => m.stage = Stage.knockout)).all
        (fun m => m.round = Round.roundOf 8))) = some true ∧
    (16 : ℕ) ≠ 8 := by decide

/-! ## Scenario A: four players, no groups (C3) -/

/-- C3 counterexample: in the size-4 bracket the first round is named
"Round of 4", so after both first-round matches are decided the 3rd-place
logic DOES trigger (a "3rd Place Match" row is created), and once
everything is decided the standings are positions 1–4, not exactly
positions 1 and 2. -/
theorem scenarioA_third_place_cex :
    ((advanceKnockoutRounds scenarioA2).matchRows.filter
      (fun m => m.round = Round.thirdPlace)).length = 1 ∧
    (advanceKnockoutRounds scenarioA6).standings.map (·.position) = [1, 2, 3, 4] := by
  decide

/-- C3 amended: 4 players with 0 groups give a knockout of size 4 with two
first-round "Round of 4" matches whose winners feed the "Final"; because
that round is named "Round of 4" the engine also creates a "3rd Place
Match" between the two first-round losers, finalization defers until that
match is decided, and the final Standing rows are positions 1, 2, 3 and 4
(winner, final loser, 3rd-place winner, 3rd-place loser). -/
theorem scenarioA_amended :
    scenarioA1.matchRows.map (·.round) = [Round.roundOf 4, Round.roundOf 4] ∧
    ((advanceKnockoutRounds scenarioA2).matchRows.filter
        (fun m => m.round = Round.final)).map (fun m => (m.player1, m.player2)) =
      [(some 1, some 2)] ∧
    ((advanceKnockoutRounds scenarioA2).matchRows.filter
        (fun m => m.round = Round.thirdPlace)).map (fun m => (m.player1, m.player2)) =
      [(some 3, some 4)] ∧
    (advanceKnockoutRounds scenarioA4).standings = [] ∧
    (advanceKnockoutRounds scenarioA6).standings.map (fun st => (st.position, st.player)) =
      [(1, some 1), (2, some 2), (3, some 3), (4, some 4)] := by
  decide

/-! ## Round-robin fixtures (C8) -/

theorem roundRobinPairs_mem (l : List ℕ) :
    ∀ p ∈ roundRobinPairs l, p.1 ∈ l ∧ p.2 ∈ l := by
  induction l with
  | nil => intro p hp; cases hp
  | cons x xs ih =>
    intro p hp
    rw [roundRobinPairs, List.mem_append] at hp
    rcases hp with hp | hp
    · obtain ⟨y, hy, rfl⟩ := List.mem_map.mp hp
      exact ⟨List.mem_cons_self _ _, List.mem_cons_of_mem _ hy⟩
    · obtain ⟨h1, h2⟩ := ih p hp
      exact ⟨List.mem_cons_of_mem _ h1, List.mem_cons_of_mem _ h2⟩

theorem roundRobinPairs_length (l : List ℕ) :
    (roundRobinPairs l).length = l.length * (l.length - 1) / 2 := by
  induction l with
  | nil => rfl
  | cons x xs ih =>
    rw [roundRobinPairs, List.length_append, List.length_map, ih, List.length_cons,
      Nat.add_sub_cancel]
    have h1 : 2 * (xs.length * (xs.length - 1) / 2) = xs.length * (xs.length - 1) := by
      refine Nat.two_mul_div_two_of_even ?_
      cases hx : xs.length with
      | zero => simp
      | succ m => simpa [Nat.succ_sub_one, Nat.mul_comm] using Nat.even_mul_succ_self m
    have h2 : 2 * ((xs.length + 1) * xs.length / 2) = (xs.length + 1) * xs.length := by
      refine Nat.two_mul_div_two_of_even ?_
      simpa [Nat.mul_comm] using Nat.even_mul_succ_self xs.length
    have h4 : (xs.length + 1) * xs.length = xs.length * (xs.length - 1) + 2 * xs.length := by
      cases hx : xs.length with
      | zero => rfl
      | succ m => simp only [Nat.succ_sub_one]; ring
    omega

theorem roundRobinPairs_distinct (l : List ℕ) (h : l.Nodup) :
    ∀ p ∈ roundRobinPairs l, p.1 ≠ p.2 := by
  induction l with
  | nil => intro p hp; cases hp
  | cons x xs ih =>
    intro p hp
    rw [roundRobinPairs, List.mem_append] at hp
    rcases hp with hp | hp
    · obtain ⟨y, hy, rfl⟩ := List.mem_map.mp hp
      exact fun hxy => (List.nodup_cons.mp h).1 ((show x = y from hxy) ▸ hy)
    · exact ih (List.nodup_cons.mp h).2 p hp

theorem roundRobinPairs_pairwise (l : List ℕ) (h : l.Nodup) :
    List.Pairwise (fun p q : ℕ × ℕ =>
      ¬(p.1 = q.1 ∧ p.2 = q.2) ∧ ¬(p.1 = q.2 ∧ p.2 = q.1))
      (roundRobinPairs l) := by
  induction l with
  | nil => exact List.Pairwise.nil
  | cons x xs ih =>
    obtain ⟨hx, hxs⟩ := List.nodup_cons.mp h
    rw [roundRobinPairs]
    refine List.pairwise_append.mpr ⟨?_, ih hxs, ?_⟩
    · rw [List.pairwise_map]
      refine List.Pairwise.imp_of_mem ?_ hxs
      intro a b ha hb hab
      exact ⟨fun hc => hab hc.2, fun hc => hx ((show x = b from hc.1) ▸ hb)⟩
    · intro p hp q hq
      obtain ⟨y, hy, rfl⟩ := List.mem_map.mp hp
      obtain ⟨hq1, hq2⟩ := roundRobinPairs_mem xs q hq
      exact ⟨fun hc => hx ((show x = q.1 from hc.1) ▸ hq1),
        fun hc => hx ((show x = q.2 from hc.1) ▸ hq2)⟩

/-- C8: for a group of `n` distinct players, the nested-loop fixture
generation produces exactly `n(n−1)/2` matches, each an unordered pair of
distinct group members, with no pair repeated in either orientation; a
group of size 0 or 1 yields no fixtures. -/
theorem group_fixtures_complete_round_robin (members : List ℕ) (h : members.Nodup) :
    (roundRobinPairs members).length = members.length * (members.length - 1) / 2 ∧
    (∀ p ∈ roundRobinPairs members, p.1 ≠ p.2 ∧ p.1 ∈ members ∧ p.2 ∈ members) ∧
    List.Pairwise (fun p q : ℕ × ℕ =>
      ¬(p.1 = q.1 ∧ p.2 = q.2) ∧ ¬(p.1 = q.2 ∧ p.2 = q.1)) (roundRobinPairs members) ∧
    (members.length ≤ 1 → roundRobinPairs members = []) := by
  refine ⟨roundRobinPairs_length members,
    fun p hp => ⟨roundRobinPairs_distinct members h p hp, roundRobinPairs_mem members p hp⟩,
    roundRobinPairs_pairwise members h, ?_⟩
  intro hlen
  match members, hlen with
  | [], _ => rfl
  | [x], _ => rfl

/-- Witness for C8 on the three-player group `[1, 2, 3]`. -/
theorem group_fixtures_complete_round_robin_witness :
    (roundRobinPairs [1, 2, 3]).length = [1, 2, 3].length * ([1, 2, 3].length - 1) / 2 ∧
    (∀ p ∈ roundRobinPairs [1, 2, 3], p.1 ≠ p.2 ∧ p.1 ∈ [1, 2, 3] ∧ p.2 ∈ [1, 2, 3]) ∧
    List.Pairwise (fun p q : ℕ × ℕ =>
      ¬(p.1 = q.1 ∧ p.2 = q.2) ∧ ¬(p.1 = q.2 ∧ p.2 = q.1)) (roundRobinPairs [1, 2, 3]) ∧
    ([1, 2, 3].length ≤ 1 → roundRobinPairs [1, 2, 3] = []) :=
  group_fixtures_complete_round_robin [1, 2, 3] (by decide)

/-! ## The match-creation invariant (C9 counterexample) -/

/-- C9 counterexample: the custom-setup endpoint creates matches verbatim,
so a single call can produce a match with a null opponent and no winner,
and a match pairing player 7 against itself — both halves of the claimed
invariant fail for this match-creating operation. -/
theorem custom_setup_breaks_invariant_cex :
    (c9CustomStore.matchRows.all
      (fun m => decide (m.player2 ≠ none ∨ m.winner = m.player1))) = false ∧
    (c9CustomStore.matchRows.all
      (fun m => decide (¬(m.player1 ≠ none ∧ m.player1 = m.player2)))) = false := by
  decide

/-! ## Stable-sort lemmas -/

theorem insertSorted_perm (le : α → α → Bool) (a : α) (l : List α) :
    List.Perm (insertSorted le a l) (a :: l) := by
  induction l with
  | nil => exact List.Perm.refl _
  | cons b l ih =>
    rw [insertSorted]
    split
    · exact List.Perm.refl _
    · exact (ih.cons b).trans (List.Perm.swap a b l)

theorem stableSort_perm (le : α → α → Bool) (l : List α) :
    List.Perm (stableSort le l) l := by
  induction l with
  | nil => exact List.Perm.refl _
  | cons a l ih => exact (insertSorted_perm le a _).trans (ih.cons a)

theorem insertSorted_pairwise (le : α → α → Bool)
    (htot : ∀ a b, le a b = true ∨ le b a = true)
    (htrans : ∀ a b c, le a b = true → le b c = true → le a c = true)
    (a : α) (l : List α) (hl : List.Pairwise (fun x y => le x y = true) l) :
    List.Pairwise (fun x y => le x y = true) (insertSorted le a l) := by
  induction l with
  | nil => simp [insertSorted]
  | cons b l ih =>
    rw [insertSorted]
    rcases List.pairwise_cons.mp hl with ⟨hb, hl2⟩
    split
    case isTrue h =>
      refine List.pairwise_cons.mpr ⟨?_, hl⟩
      intro x hx
      rcases List.mem_cons.mp hx with rfl | hx
      · exact h
      · exact htrans a b x h (hb x hx)
    case isFalse h =>
      have hba : le b a = true := (htot a b).resolve_left (by simpa using h)
      refine List.pairwise_cons.mpr ⟨?_, ih hl2⟩
      intro x hx
      rcases List.mem_cons.mp ((insertSorted_perm le a l).mem_iff.mp hx) with rfl | hx
      · exact hba
      · exact hb x hx

theorem stableSort_pairwise (le : α → α → Bool)
    (htot : ∀ a b, le a b = true ∨ le b a = true)
    (htrans : ∀ a b c, le a b = true → le b c = true → le a c = true)
    (l : List α) :
    List.Pairwise (fun x y => le x y = true) (stableSort le l) := by
  induction l with
  | nil => exact List.Pairwise.nil
  | cons a l ih => exact insertSorted_pairwise le htot htrans a _ ih

theorem insertSorted_of_le_all (le : α → α → Bool) (a : α) (l : List α)
    (h : ∀ x ∈ l, le a x = true) : insertSorted le a l = a :: l := by
  cases l with
  | nil => rfl
  | cons b l => rw [insertSorted, if_pos (h b (List.mem_cons_self b l))]

theorem filter_insertSorted (le : α → α → Bool)
    (htot : ∀ a b, le a b = true ∨ le b a = true)
    (htrans : ∀ a b c, le a b = true → le b c = true → le a c = true)
    (p : α → Bool) (a : α) (l : List α)
    (hl : List.Pairwise (fun x y => le x y = true) l) :
    (insertSorted le a l).filter p =
      if p a then insertSorted le a (l.filter p) else l.filter p := by
  induction l with
  | nil => cases hpa : p a <;> simp [insertSorted, hpa, List.filter]
  | cons b l ih =>
    rcases List.pairwise_cons.mp hl with ⟨hb, hl2⟩
    rw [insertSorted]
    split
    case isTrue h =>
      rw [List.filter_cons]
      by_cases hpa : p a
      · rw [if_pos hpa, if_pos hpa]
        refine (insertSorted_of_le_all le a _ ?_).symm
        intro x hx
        rcases List.mem_cons.mp (List.mem_of_mem_filter hx) with rfl | hxl
        · exact h
        · exact htrans a b x h (hb x hxl)
      · rw [if_neg hpa, if_neg hpa]
    case isFalse h =>
      rw [List.filter_cons]
      have ihl := ih hl2
      by_cases hpa : p a <;> by_cases hpb : p b
      · rw [if_pos hpb, ihl, if_pos hpa, if_pos hpa, List.filter_cons, if_pos hpb,
          insertSorted, if_neg h]
      · rw [if_neg hpb, ihl, if_pos hpa, if_pos hpa, List.filter_cons, if_neg hpb]
      · rw [if_pos hpb, ihl, if_neg hpa, if_neg hpa, List.filter_cons, if_pos hpb]
      · rw [if_neg hpb, ihl, if_neg hpa, if_neg hpa, List.filter_cons, if_neg hpb]

theorem filter_stableSort (le : α → α → Bool)
    (htot : ∀ a b, le a b = true ∨ le b a = true)
    (htrans : ∀ a b c, le a b = true → le b c = true → le a c = true)
    (p : α → Bool) (l : List α) :
    (stableSort le l).filter p = stableSort le (l.filter p) := by
  induction l with
  | nil => rfl
  | cons a l ih =>
    rw [stableSort, filter_insertSorted le htot htrans p a _
      (stableSort_pairwise le htot htrans l), List.filter_cons]
    by_cases hpa : p a
    · rw [if_pos hpa, if_pos hpa, ih, stableSort]
    · rw [if_neg hpa, if_neg hpa, ih]

theorem stableSort_of_all_le (le : α → α → Bool) (l : List α)
    (h : ∀ x ∈ l, ∀ y ∈ l, le x y = true) : stableSort le l = l := by
  induction l with
  | nil => rfl
  | cons a l ih =>
    rw [stableSort, ih (fun x hx y hy =>
      h x (List.mem_cons_of_mem a hx) y (List.mem_cons_of_mem a hy))]
    exact insertSorted_of_le_all le a l
      (fun x hx => h a (List.mem_cons_self a l) x (List.mem_cons_of_mem a hx))

theorem sorted_eq_of_perm (le : α → α → Bool)
    (hanti : ∀ a b, le a b = true → le b a = true → a = b)
    (l1 l2 : List α) (hp : List.Perm l1 l2)
    (h1 : List.Pairwise (fun x y => le x y = true) l1)
    (h2 : List.Pairwise (fun x y => le x y = true) l2) : l1 = l2 :=
  @List.eq_of_perm_of_sorted α (fun x y => le x y = true) ⟨hanti⟩ l1 l2 hp h1 h2

/-! ## The adjacent head-to-head pass -/

theorem h2hPassGo_perm (cond : ℕ → ℕ → Bool) (cur : ℕ) (l : List ℕ) :
    List.Perm (h2hPassGo cond cur l) (cur :: l) := by
  induction l generalizing cur with
  | nil => exact List.Perm.refl _
  | cons b rest ih =>
    rw [h2hPassGo]
    split
    · exact ((ih cur).cons b).trans (List.Perm.swap cur b rest)
    · exact (ih b).cons cur

theorem h2hPass_perm (cond : ℕ → ℕ → Bool) (l : List ℕ) :
    List.Perm (h2hPass cond l) l := by
  cases l with
  | nil => exact List.Perm.refl _
  | cons a rest => exact h2hPassGo_perm cond a rest

theorem h2hPassGo_pairwise (w : ℕ → ℤ) (cond : ℕ → ℕ → Bool)
    (hcond : ∀ a b, cond a b = true → w a = w b) (cur : ℕ) (l : List ℕ)
    (h : List.Pairwise (fun x y => w y ≤ w x) (cur :: l)) :
    List.Pairwise (fun x y => w y ≤ w x) (h2hPassGo cond cur l) := by
  induction l generalizing cur with
  | nil => exact h
  | cons b rest ih =>
    rw [h2hPassGo]
    rcases List.pairwise_cons.mp h with ⟨hcur, hrest⟩
    rcases List.pairwise_cons.mp hrest with ⟨hb, hrest2⟩
    split
    case isTrue hc =>
      have hwe := hcond _ _ hc
      refine List.pairwise_cons.mpr ⟨?_, ih cur (List.pairwise_cons.mpr
        ⟨fun y hy => hcur y (List.mem_cons_of_mem b hy), hrest2⟩)⟩
      intro y hy
      rcases List.mem_cons.mp ((h2hPassGo_perm cond cur rest).mem_iff.mp hy) with rfl | hy
      · exact le_of_eq hwe
      · exact hb y hy
    case isFalse hc =>
      refine List.pairwise_cons.mpr ⟨?_, ih b hrest⟩
      intro y hy
      rcases List.mem_cons.mp ((h2hPassGo_perm cond b rest).mem_iff.mp hy) with rfl | hy
      · exact hcur y (List.mem_cons_self y rest)
      · exact hcur y (List.mem_cons_of_mem b hy)

theorem h2hPass_pairwise (w : ℕ → ℤ) (cond : ℕ → ℕ → Bool)
    (hcond : ∀ a b, cond a b = true → w a = w b) (l : List ℕ)
    (h : List.Pairwise (fun x y => w y ≤ w x) l) :
    List.Pairwise (fun x y => w y ≤ w x) (h2hPass cond l) := by
  cases l with
  | nil => exact List.Pairwise.nil
  | cons a rest => exact h2hPassGo_pairwise w cond hcond a rest h

theorem h2hPassGo_of_no_swap (cond : ℕ → ℕ → Bool) (cur : ℕ) (l : List ℕ)
    (h : ∀ a ∈ cur :: l, ∀ b ∈ cur :: l, cond a b = false) :
    h2hPassGo cond cur l = cur :: l := by
  induction l generalizing cur with
  | nil => rfl
  | cons b rest ih =>
    rw [h2hPassGo, if_neg (by
      rw [h cur (List.mem_cons_self _ _) b (List.mem_cons_of_mem _ (List.mem_cons_self _ _))]
      exact Bool.false_ne_true)]
    rw [ih b (fun x hx y hy =>
      h x (List.mem_cons_of_mem _ hx) y (List.mem_cons_of_mem _ hy))]

theorem h2hPass_of_no_swap (cond : ℕ → ℕ → Bool) (l : List ℕ)
    (h : ∀ a ∈ l, ∀ b ∈ l, cond a b = false) : h2hPass cond l = l := by
  cases l with
  | nil => rfl
  | cons a rest => exact h2hPassGo_of_no_swap cond a rest h

/-! ## Group ranking of the details endpoint (C7) -/

theorem keyLe_total (x y : ℤ × ℤ × ℤ) : keyLe x y = true ∨ keyLe y x = true := by
  rcases x with ⟨a1, a2, a3⟩
  rcases y with ⟨b1, b2, b3⟩
  unfold keyLe
  simp only [Bool.or_eq_true, Bool.and_eq_true, decide_eq_true_eq]
  omega

theorem keyLe_trans (x y z : ℤ × ℤ × ℤ) (h1 : keyLe x y = true)
    (h2 : keyLe y z = true) : keyLe x z = true := by
  rcases x with ⟨a1, a2, a3⟩
  rcases y with ⟨b1, b2, b3⟩
  rcases z with ⟨c1, c2, c3⟩
  unfold keyLe at h1 h2 ⊢
  simp only [Bool.or_eq_true, Bool.and_eq_true, decide_eq_true_eq] at h1 h2 ⊢
  omega

theorem keyLe_detailsSortKey_wins (f : Option ℕ → PStats) (a b : ℕ)
    (h : keyLe (detailsSortKey f a) (detailsSortKey f b) = true) :
    (f (some b)).wins ≤ (f (some a)).wins := by
  unfold keyLe detailsSortKey at h
  simp only [Bool.or_eq_true, Bool.and_eq_true, decide_eq_true_eq] at h
  omega

theorem detailsSwapCond_wins (s : Store) (f : Option ℕ → PStats) (a b : ℕ)
    (h : detailsSwapCond s f a b = true) : (f (some a)).wins = (f (some b)).wins := by
  unfold detailsSwapCond at h
  rcases Bool.and_eq_true_iff.mp h with ⟨h1, -⟩
  exact decide_eq_true_eq.mp h1

/-- C7 counterexample: in `c7Store`, players 1 and 2 have equal wins but
DIFFERENT set differentials (so their win/set/point stats are not
identical), yet the head-to-head swap still fires and ranks 2 above 1 even
though 1's sort key is strictly better — the ranking is not consistent with
the sort key, and players tied only on wins do not keep their stats-based
order. -/
theorem details_ranking_swaps_on_wins_only_cex :
    detailsGroupRankings c7Store = [(0, [2, 1, 3, 4])] ∧
    (detailsStats c7Store (some 1)).wins = (detailsStats c7Store (some 2)).wins ∧
    (detailsStats c7Store (some 1)).set_wins - (detailsStats c7Store (some 1)).set_losses ≠
      (detailsStats c7Store (some 2)).set_wins - (detailsStats c7Store (some 2)).set_losses ∧
    keyLe (detailsSortKey (detailsStats c7Store) 1) (detailsSortKey (detailsStats c7Store) 2) = true ∧
    detailsSortKey (detailsStats c7Store) 1 ≠ detailsSortKey (detailsStats c7Store) 2 := by
  decide

/-- C7 amended: for every store the ranking of a group's member list is a
permutation of the members whose win counts are non-increasing; the
head-to-head swap is an adjacent pass whose swaps fire exactly when two
neighbours have EQUAL WINS (set/point stats may differ) and a recorded
head-to-head won by the lower-sorted player; when no pair of members
triggers the swap condition, the ranking is exactly the stable sort by
`(−wins, −(setsWon−setsLost), −(pointsWon−pointsLost))`. -/
theorem details_ranking_amended (s : Store) (pids : List ℕ) :
    List.Perm (detailsRankGroup s pids) pids ∧
    List.Pairwise (fun a b =>
      (detailsStats s (some b)).wins ≤ (detailsStats s (some a)).wins)
      (detailsRankGroup s pids) ∧
    ((∀ a ∈ pids, ∀ b ∈ pids, detailsSwapCond s (detailsStats s) a b = false) →
      detailsRankGroup s pids =
        stableSort (fun a b => keyLe (detailsSortKey (detailsStats s) a)
          (detailsSortKey (detailsStats s) b)) pids) := by
  unfold detailsRankGroup
  have htot : ∀ a b : ℕ, keyLe (detailsSortKey (detailsStats s) a)
      (detailsSortKey (detailsStats s) b) = true ∨
      keyLe (detailsSortKey (detailsStats s) b) (detailsSortKey (detailsStats s) a) = true :=
    fun a b => keyLe_total _ _
  have htrans : ∀ a b c : ℕ, keyLe (detailsSortKey (detailsStats s) a)
      (detailsSortKey (detailsStats s) b) = true →
      keyLe (detailsSortKey (detailsStats s) b) (detailsSortKey (detailsStats s) c) = true →
      keyLe (detailsSortKey (detailsStats s) a) (detailsSortKey (detailsStats s) c) = true :=
    fun a b c => keyLe_trans _ _ _
  refine ⟨(h2hPass_perm _ _).trans (stableSort_perm _ _), ?_, ?_⟩
  · refine h2hPass_pairwise (fun p => (detailsStats s (some p)).wins) _
      (fun a b h => detailsSwapCond_wins s _ a b h) _ ?_
    exact (stableSort_pairwise _ htot htrans pids).imp
      (fun h => keyLe_detailsSortKey_wins _ _ _ h)
  · intro hns
    refine h2hPass_of_no_swap _ _ ?_
    intro a ha b hb
    exact hns a ((stableSort_perm _ pids).mem_iff.mp ha)
      b ((stableSort_perm _ pids).mem_iff.mp hb)

/-- Witness for the amended C7: the empty store and members `[1, 2, 3, 4]`
(no recorded head-to-heads, so the no-swap clause applies). -/
theorem details_ranking_amended_witness :
    List.Perm (detailsRankGroup store0 [1, 2, 3, 4]) [1, 2, 3, 4] ∧
    List.Pairwise (fun a b =>
      (detailsStats store0 (some b)).wins ≤ (detailsStats store0 (some a)).wins)
      (detailsRankGroup store0 [1, 2, 3, 4]) ∧
    detailsRankGroup store0 [1, 2, 3, 4] =
      stableSort (fun a b => keyLe (detailsSortKey (detailsStats store0) a)
        (detailsSortKey (detailsStats store0) b)) [1, 2, 3, 4] :=
  ⟨(details_ranking_amended store0 [1, 2, 3, 4]).1,
    (details_ranking_amended store0 [1, 2, 3, 4]).2.1,
    (details_ranking_amended store0 [1, 2, 3, 4]).2.2 (by decide)⟩

/-! ## Dict-grouping lemmas -/

theorem addToGroups_lookup [DecidableEq β] (key : α → β) (gs : List (β × List α))
    (a : α) (b : β) :
    ((((addToGroups key gs a).find? (fun g => g.1 = b)).map (·.2)).getD []) =
      ((((gs.find? (fun g => g.1 = b)).map (·.2)).getD []) ++
        if key a = b then [a] else []) := by
  induction gs with
  | nil =>
    by_cases h : key a = b
    · rw [if_pos h]
      simp [addToGroups, List.find?, h]
    · rw [if_neg h]
      simp [addToGroups, List.find?, h]
  | cons e rest ih =>
    rcases e with ⟨k, g⟩
    rw [addToGroups]
    by_cases hk : k = key a
    · rw [if_pos hk]
      by_cases hb : k = b
      · rw [List.find?_cons_of_pos _ (by simpa using hb),
          List.find?_cons_of_pos _ (by simpa using hb),
          if_pos (hk.symm.trans hb)]
        simp
      · rw [List.find?_cons_of_neg _ (by simpa using hb),
          List.find?_cons_of_neg _ (by simpa using hb),
          if_neg (fun h => hb (hk.trans h)), List.append_nil]
    · rw [if_neg hk]
      by_cases hb : k = b
      · rw [List.find?_cons_of_pos _ (by simpa using hb),
          List.find?_cons_of_pos _ (by simpa using hb),
          if_neg (fun h => hk (hb.trans h.symm)), List.append_nil]
      · rw [List.find?_cons_of_neg _ (by simpa using hb),
          List.find?_cons_of_neg _ (by simpa using hb)]
        exact ih

theorem foldl_addToGroups_lookup [DecidableEq β] (key : α → β) (l : List α)
    (gs : List (β × List α)) (b : β) :
    ((((l.foldl (addToGroups key) gs).find? (fun g => g.1 = b)).map (·.2)).getD []) =
      ((((gs.find? (fun g => g.1 = b)).map (·.2)).getD []) ++
        l.filter (fun a => key a = b)) := by
  induction l generalizing gs with
  | nil => simp
  | cons a l ih =>
    rw [List.foldl_cons, ih, addToGroups_lookup, List.filter_cons]
    by_cases h : key a = b
    · rw [if_pos h, if_pos (by simpa using h), List.append_assoc]
      simp
    · rw [if_neg h, if_neg (by simpa using h), List.append_nil]

theorem groupListBy_lookup [DecidableEq β] (key : α → β) (l : List α) (b : β) :
    ((((groupListBy key l).find? (fun g => g.1 = b)).map (·.2)).getD []) =
      l.filter (fun a => key a = b) := by
  unfold groupListBy
  rw [foldl_addToGroups_lookup]
  simp

theorem roundsLookup_groupListBy (l : List MatchRow) (r : Round) :
    roundsLookup (groupListBy (·.round) l) r = l.filter (fun m => m.round = r) := by
  unfold roundsLookup
  exact groupListBy_lookup _ l r

theorem addToGroups_keys [DecidableEq β] (key : α → β) (gs : List (β × List α)) (a : α) :
    (addToGroups key gs a).map (·.1) =
      if key a ∈ gs.map (·.1) then gs.map (·.1) else gs.map (·.1) ++ [key a] := by
  induction gs with
  | nil => simp [addToGroups]
  | cons e rest ih =>
    rcases e with ⟨k, g⟩
    rw [addToGroups]
    by_cases hk : k = key a
    · rw [if_pos hk]
      have : key a ∈ ((k, g) :: rest).map (·.1) := by simp [hk.symm]
      rw [if_pos this]
      simp
    · rw [if_neg hk, List.map_cons, List.map_cons, ih]
      by_cases hmem : key a ∈ rest.map (·.1)
      · rw [if_pos hmem, if_pos (by simp [hmem])]
      · rw [if_neg hmem, if_neg (by
          simp only [List.map_cons, List.mem_cons]
          rintro (h | h)
          · exact hk h.symm
          · exact hmem h)]
        simp

theorem foldl_addToGroups_keys_nodup [DecidableEq β] (key : α → β) (l : List α)
    (gs : List (β × List α)) (h : (gs.map (·.1)).Nodup) :
    ((l.foldl (addToGroups key) gs).map (·.1)).Nodup := by
  induction l generalizing gs with
  | nil => exact h
  | cons a l ih =>
    rw [List.foldl_cons]
    refine ih _ ?_
    rw [addToGroups_keys]
    by_cases hmem : key a ∈ gs.map (·.1)
    · rw [if_pos hmem]; exact h
    · rw [if_neg hmem]
      refine List.Nodup.append h (List.nodup_singleton _) ?_
      intro x hx hxmem
      rw [List.mem_singleton] at hxmem
      exact hmem (hxmem ▸ hx)

theorem groupListBy_keys_nodup [DecidableEq β] (key : α → β) (l : List α) :
    ((groupListBy key l).map (·.1)).Nodup :=
  foldl_addToGroups_keys_nodup key l [] (by simp)

theorem find?_eq_of_mem_of_nodup_keys [DecidableEq β] (es : List (β × List α))
    (k : β) (v : List α) (hmem : (k, v) ∈ es) (hnd : (es.map (·.1)).Nodup) :
    es.find? (fun g => g.1 = k) = some (k, v) := by
  induction es with
  | nil => cases hmem
  | cons e rest ih =>
    rcases List.mem_cons.mp hmem with rfl | hmem2
    · exact List.find?_cons_of_pos _ (by simp)
    · have hk : e.1 ≠ k := by
        intro h
        have : k ∈ rest.map (·.1) := List.mem_map.mpr ⟨(k, v), hmem2, rfl⟩
        exact (List.nodup_cons.mp (by simpa using hnd)).1 (h ▸ this)
      rw [List.find?_cons_of_neg _ (by simpa using hk)]
      exact ih hmem2 (List.nodup_cons.mp (by simpa using hnd)).2

theorem groupListBy_entry_content [DecidableEq β] (key : α → β) (l : List α)
    (k : β) (glist : List α) (h : (k, glist) ∈ groupListBy key l) :
    glist = l.filter (fun a => key a = k) := by
  have hf := find?_eq_of_mem_of_nodup_keys _ k glist h (groupListBy_keys_nodup key l)
  have := groupListBy_lookup key l k
  rw [hf] at this
  simpa using this

/-! ## Slot-map lemmas -/

theorem slotGet_mem (slots : List (ℕ × Option ℕ)) (k : ℕ) (p : ℕ)
    (h : slotGet slots k = some p) : ∃ e ∈ slots, e.1 = k ∧ e.2 = some p := by
  unfold slotGet at h
  cases hf : slots.find? (fun e => e.1 = k) with
  | none => rw [hf] at h; cases h
  | some e =>
    rw [hf] at h
    refine ⟨e, List.mem_of_find?_eq_some hf, ?_, h⟩
    have := List.find?_some hf
    simpa using this

theorem slotSet_keys (slots : List (ℕ × Option ℕ)) (k : ℕ) (v : Option ℕ) :
    (slotSet slots k v).map (·.1) =
      if k ∈ slots.map (·.1) then slots.map (·.1) else slots.map (·.1) ++ [k] := by
  induction slots with
  | nil => simp [slotSet]
  | cons e rest ih =>
    rw [slotSet]
    by_cases he : e.1 = k
    · rw [if_pos he, if_pos (by simp [he.symm])]
      simp [he]
    · rw [if_neg he, List.map_cons, List.map_cons, ih]
      by_cases hmem : k ∈ rest.map (·.1)
      · rw [if_pos hmem, if_pos (by simp [hmem])]
      · rw [if_neg hmem, if_neg (by
          simp only [List.map_cons, List.mem_cons]
          rintro (h | h)
          · exact he h.symm
          · exact hmem h)]
        simp

theorem slotSet_keys_nodup (slots : List (ℕ × Option ℕ)) (k : ℕ) (v : Option ℕ)
    (h : (slots.map (·.1)).Nodup) : ((slotSet slots k v).map (·.1)).Nodup := by
  rw [slotSet_keys]
  by_cases hmem : k ∈ slots.map (·.1)
  · rw [if_pos hmem]; exact h
  · rw [if_neg hmem]
    refine List.Nodup.append h (List.nodup_singleton _) ?_
    intro x hx hxmem
    rw [List.mem_singleton] at hxmem
    exact hmem (hxmem ▸ hx)

theorem slotSet_mem_strong (slots : List (ℕ × Option ℕ)) (k : ℕ) (v : Option ℕ)
    (hnd : (slots.map (·.1)).Nodup) (e : ℕ × Option ℕ) (he : e ∈ slotSet slots k v) :
    e = (k, v) ∨ (e ∈ slots ∧ e.1 ≠ k) := by
  induction slots with
  | nil =>
    rw [slotSet, List.mem_singleton] at he
    exact Or.inl he
  | cons f rest ih =>
    rw [slotSet] at he
    rw [List.map_cons] at hnd
    obtain ⟨hf, hrest⟩ := List.nodup_cons.mp hnd
    by_cases hfk : f.1 = k
    · rw [if_pos hfk] at he
      rcases List.mem_cons.mp he with rfl | he2
      · exact Or.inl rfl
      · refine Or.inr ⟨List.mem_cons_of_mem f he2, ?_⟩
        intro hek
        exact hf (hfk ▸ hek ▸ List.mem_map.mpr ⟨e, he2, rfl⟩)
    · rw [if_neg hfk] at he
      rcases List.mem_cons.mp he with rfl | he2
      · exact Or.inr ⟨List.mem_cons_self _ _, hfk⟩
      · rcases ih hrest he2 with h | ⟨hmem, hne⟩
        · exact Or.inl h
        · exact Or.inr ⟨List.mem_cons_of_mem f hmem, hne⟩

theorem mem_take_succ_of_mem_take (l : List ℕ) (i p : ℕ) (h : p ∈ l.take i) :
    p ∈ l.take (i + 1) := by
  rw [List.take_succ]
  exact List.mem_append_left _ h

theorem mem_take_succ_of_get? (l : List ℕ) (i p : ℕ) (h : l.get? i = some p) :
    p ∈ l.take (i + 1) := by
  rw [List.take_succ]
  refine List.mem_append_right _ ?_
  rw [List.get?_eq_getElem?] at h
  simp [h]

theorem not_mem_take_of_get? (l : List ℕ) (i p : ℕ) (hnd : l.Nodup)
    (h : l.get? i = some p) : p ∉ l.take i := by
  intro hmem
  have hd : p ∈ l.drop i := by
    refine List.get?_mem (n := 0) ?_
    rw [List.get?_drop]
    simpa using h
  have hsplit : (l.take i ++ l.drop i).Nodup := by
    rw [List.take_append_drop]; exact hnd
  exact (List.nodup_append.mp hsplit).2.2 hmem hd

theorem slotGet_of_nodup (slots : List (ℕ × Option ℕ)) (e : ℕ × Option ℕ)
    (hnd : (slots.map (·.1)).Nodup) (he : e ∈ slots) : slotGet slots e.1 = e.2 := by
  unfold slotGet
  rw [show slots.find? (fun f => f.1 = e.1) = some e from ?_]
  · induction slots with
    | nil => cases he
    | cons f rest ih =>
      rcases List.mem_cons.mp he with rfl | he2
      · exact List.find?_cons_of_pos _ (by simp)
      · rw [List.map_cons] at hnd
        obtain ⟨hf, hrest⟩ := List.nodup_cons.mp hnd
        refine (List.find?_cons_of_neg _ ?_).trans (ih hrest he2)
        simp only [decide_eq_true_eq]
        intro hfe
        exact hf (hfe ▸ List.mem_map.mpr ⟨e, he2, rfl⟩)

theorem slotSet_buildInv_none (players : List ℕ) (acc : List (ℕ × Option ℕ) × ℕ)
    (pos : ℕ) (h : BuildInv players acc) :
    BuildInv players (slotSet acc.1 pos none, acc.2) := by
  obtain ⟨h1, h2, h3⟩ := h
  refine ⟨slotSet_keys_nodup _ _ _ h1, ?_, ?_⟩
  · intro e he p hp
    rcases slotSet_mem_strong _ _ _ h1 e he with rfl | ⟨hmem, -⟩
    · cases hp
    · exact h2 e hmem p hp
  · intro e1 he1 e2 he2 hne p hp1
    rcases slotSet_mem_strong _ _ _ h1 e1 he1 with rfl | ⟨hm1, -⟩
    · cases hp1
    · rcases slotSet_mem_strong _ _ _ h1 e2 he2 with rfl | ⟨hm2, -⟩
      · simp
      · exact h3 e1 hm1 e2 hm2 hne p hp1

theorem slotSet_buildInv_assign (players : List ℕ) (hnd : players.Nodup)
    (acc : List (ℕ × Option ℕ) × ℕ) (pos pnew : ℕ)
    (hget : players.get? acc.2 = some pnew) (h : BuildInv players acc) :
    BuildInv players (slotSet acc.1 pos (some pnew), acc.2 + 1) := by
  obtain ⟨h1, h2, h3⟩ := h
  have hfresh : pnew ∉ players.take acc.2 := not_mem_take_of_get? _ _ _ hnd hget
  refine ⟨slotSet_keys_nodup _ _ _ h1, ?_, ?_⟩
  · intro e he p hp
    rcases slotSet_mem_strong _ _ _ h1 e he with rfl | ⟨hmem, -⟩
    · cases hp
      exact mem_take_succ_of_get? _ _ _ hget
    · exact mem_take_succ_of_mem_take _ _ _ (h2 e hmem p hp)
  · intro e1 he1 e2 he2 hne p hp1
    rcases slotSet_mem_strong _ _ _ h1 e1 he1 with rfl | ⟨hm1, -⟩
    · cases hp1
      rcases slotSet_mem_strong _ _ _ h1 e2 he2 with rfl | ⟨hm2, -⟩
      · exact absurd rfl hne
      · intro hp2
        exact hfresh (h2 e2 hm2 _ hp2)
    · rcases slotSet_mem_strong _ _ _ h1 e2 he2 with rfl | ⟨hm2, -⟩
      · intro hp2
        have hpe : pnew = p := by simpa using hp2
        refine hfresh ?_
        rw [hpe]
        exact h2 e1 hm1 p hp1
      · exact h3 e1 hm1 e2 hm2 hne p hp1

theorem buildInv_init (players : List ℕ) : BuildInv players ([], 0) := by
  unfold BuildInv
  refine ⟨by simp, ?_, ?_⟩
  · intro e he; cases he
  · intro e1 he1; cases he1

theorem buildStepNoGroups_inv (byes players : List ℕ) (hnd : players.Nodup)
    (acc : List (ℕ × Option ℕ) × ℕ) (seed : ℕ) (h : BuildInv players acc) :
    BuildInv players (buildStepNoGroups byes players acc seed) := by
  unfold buildStepNoGroups
  dsimp only
  by_cases hbye : seed - 1 ∈ byes
  · rw [if_pos hbye]
    exact slotSet_buildInv_none players acc _ h
  · rw [if_neg hbye]
    cases hget : players.get? acc.2 with
    | some p => exact slotSet_buildInv_assign players hnd acc _ p hget h
    | none => exact h

theorem foldl_buildStepNoGroups_inv (byes players : List ℕ) (hnd : players.Nodup)
    (seeds : List ℕ) (acc : List (ℕ × Option ℕ) × ℕ) (h : BuildInv players acc) :
    BuildInv players (seeds.foldl (buildStepNoGroups byes players) acc) := by
  induction seeds generalizing acc with
  | nil => exact h
  | cons seed rest ih =>
    rw [List.foldl_cons]
    exact ih _ (buildStepNoGroups_inv byes players hnd acc seed h)

theorem buildSeedingNoGroups_slotsInj (seeds byes players : List ℕ)
    (hnd : players.Nodup) : SlotsInj (buildSeedingNoGroups seeds byes players) := by
  have h := foldl_buildStepNoGroups_inv byes players hnd seeds ([], 0) (buildInv_init players)
  exact ⟨h.1, h.2.2⟩

theorem buildStepWithGroups_inv (byes players : List ℕ) (hnd : players.Nodup)
    (acc acc2 : List (ℕ × Option ℕ) × ℕ) (seed : ℕ)
    (hstep : buildStepWithGroups byes players acc seed = some acc2)
    (h : BuildInv players acc) : BuildInv players acc2 := by
  unfold buildStepWithGroups at hstep
  dsimp only at hstep
  by_cases hbye : seed - 1 ∈ byes
  · rw [if_pos hbye] at hstep
    cases hstep
    exact slotSet_buildInv_none players acc _ h
  · rw [if_neg hbye] at hstep
    cases hget : players.get? acc.2 with
    | some p =>
      rw [hget] at hstep
      cases hstep
      exact slotSet_buildInv_assign players hnd acc _ p hget h
    | none => rw [hget] at hstep; cases hstep

theorem foldlM_buildStepWithGroups_inv (byes players : List ℕ) (hnd : players.Nodup)
    (seeds : List ℕ) (acc res : List (ℕ × Option ℕ) × ℕ)
    (hrun : seeds.foldlM (buildStepWithGroups byes players) acc = some res)
    (h : BuildInv players acc) : BuildInv players res := by
  induction seeds generalizing acc with
  | nil =>
    rw [List.foldlM_nil] at hrun
    cases hrun
    exact h
  | cons seed rest ih =>
    rw [List.foldlM_cons] at hrun
    cases hstep : buildStepWithGroups byes players acc seed with
    | none => rw [hstep] at hrun; cases hrun
    | some acc2 =>
      rw [hstep] at hrun
      exact ih acc2 hrun (buildStepWithGroups_inv byes players hnd acc acc2 seed hstep h)

theorem buildSeedingWithGroups_slotsInj (seeds byes players : List ℕ)
    (hnd : players.Nodup) (slots : List (ℕ × Option ℕ))
    (hres : buildSeedingWithGroups seeds byes players = some slots) :
    SlotsInj slots := by
  unfold buildSeedingWithGroups at hres
  cases hrun : seeds.foldlM (buildStepWithGroups byes players) ([], 0) with
  | none => rw [hrun] at hres; cases hres
  | some res =>
    rw [hrun] at hres
    have h := foldlM_buildStepWithGroups_inv byes players hnd seeds ([], 0) res hrun
      (buildInv_init players)
    cases hres
    exact ⟨h.1, h.2.2⟩

/-! ## Knockout creation-loop invariants -/

theorem truthy_eq_some (o : Option ℕ) (h : truthy o = true) :
    ∃ v : ℕ, o = some v ∧ v ≠ 0 := by
  cases o with
  | none => cases h
  | some v => exact ⟨v, rfl, by simpa [truthy] using h⟩

theorem koByeRow_invariant (id p : ℕ) (label : Round) :
    MatchInvariant (koByeRow id p label) :=
  ⟨fun _ hq => Option.noConfusion hq.2, fun _ => rfl⟩

theorem koPairRow_invariant (id v1 v2 : ℕ) (label : Round) (hne : v1 ≠ v2) :
    MatchInvariant (koPairRow id v1 v2 label) := by
  refine ⟨?_, ?_⟩
  · intro q hq
    obtain ⟨h1, h2⟩ := hq
    exact hne ((Option.some.injEq _ _ ▸ h1 : v1 = q).trans
      (Option.some.injEq _ _ ▸ h2 : v2 = q).symm)
  · intro h
    exact Option.noConfusion h

theorem slotGet_distinct (slots : List (ℕ × Option ℕ)) (hinj : SlotsInj slots)
    (i j : ℕ) (hne : i ≠ j) (v1 v2 : ℕ) (h1 : slotGet slots i = some v1)
    (h2 : slotGet slots j = some v2) : v1 ≠ v2 := by
  obtain ⟨e1, he1, hk1, hv1⟩ := slotGet_mem slots i v1 h1
  obtain ⟨e2, he2, hk2, hv2⟩ := slotGet_mem slots j v2 h2
  intro heq
  exact hinj.2 e1 he1 e2 he2 (by rw [hk1, hk2]; exact hne) v1 hv1 (heq ▸ hv2)

theorem koLoopNoGroups_invariant (slots : List (ℕ × Option ℕ)) (label : Round)
    (hinj : SlotsInj slots) :
    ∀ (k i nid : ℕ), ∀ m ∈ koLoopNoGroups slots label k i nid, MatchInvariant m := by
  intro k
  induction k with
  | zero => intro i nid m hm; cases hm
  | succ k ih =>
    intro i nid m hm
    rw [koLoopNoGroups] at hm
    by_cases h1 : truthy (slotGet slots i) && truthy (slotGet slots (i + 1))
    · rw [if_pos h1] at hm
      rcases List.mem_cons.mp hm with rfl | hm2
      · obtain ⟨ht1, ht2⟩ := Bool.and_eq_true_iff.mp h1
        obtain ⟨v1, hv1, -⟩ := truthy_eq_some _ ht1
        obtain ⟨v2, hv2, -⟩ := truthy_eq_some _ ht2
        rw [hv1, hv2]
        exact koPairRow_invariant _ _ _ _
          (slotGet_distinct slots hinj i (i + 1) (by omega) v1 v2 hv1 hv2)
      · exact ih _ _ m hm2
    · rw [if_neg h1] at hm
      by_cases h2 : truthy (slotGet slots i)
      · rw [if_pos h2] at hm
        rcases List.mem_cons.mp hm with rfl | hm2
        · exact koByeRow_invariant _ _ _
        · exact ih _ _ m hm2
      · rw [if_neg h2] at hm
        by_cases h3 : truthy (slotGet slots (i + 1))
        · rw [if_pos h3] at hm
          rcases List.mem_cons.mp hm with rfl | hm2
          · exact koByeRow_invariant _ _ _
          · exact ih _ _ m hm2
        · rw [if_neg h3] at hm
          exact ih _ _ m hm

theorem swap_slotsInj (slots : List (ℕ × Option ℕ)) (hinj : SlotsInj slots)
    (i1 j : ℕ) (hne : i1 ≠ j) (pj : ℕ) (hj : slotGet slots j = some pj)
    (p2 : Option ℕ) (hp2 : slotGet slots i1 = p2) :
    SlotsInj (slotSet (slotSet slots i1 (some pj)) j p2) := by
  obtain ⟨hnd, hinj2⟩ := hinj
  obtain ⟨ej, hej, hejk, hejv⟩ := slotGet_mem slots j pj hj
  have hS1nd : ((slotSet slots i1 (some pj)).map (·.1)).Nodup :=
    slotSet_keys_nodup _ _ _ hnd
  refine ⟨slotSet_keys_nodup _ _ _ hS1nd, ?_⟩
  intro e1 he1 e2 he2 hke p hp1
  have hmem : ∀ e ∈ slotSet (slotSet slots i1 (some pj)) j p2,
      e = (j, p2) ∨ e = (i1, some pj) ∨ (e ∈ slots ∧ e.1 ≠ i1 ∧ e.1 ≠ j) := by
    intro e he
    rcases slotSet_mem_strong _ _ _ hS1nd e he with rfl | ⟨he', hnej⟩
    · exact Or.inl rfl
    · rcases slotSet_mem_strong _ _ _ hnd e he' with rfl | ⟨he'', hnei⟩
      · exact Or.inr (Or.inl rfl)
      · exact Or.inr (Or.inr ⟨he'', hnei, hnej⟩)
  have hip2 : ∀ q : ℕ, p2 = some q → ∃ ei ∈ slots, ei.1 = i1 ∧ ei.2 = some q := by
    intro q hq
    exact slotGet_mem slots i1 q (hp2.trans hq)
  rcases hmem e1 he1 with rfl | rfl | ⟨hm1, hk1i, hk1j⟩
  · -- e1 = (j, p2), so p2 = some p
    obtain ⟨ei, hei, heik, heiv⟩ := hip2 p hp1
    rcases hmem e2 he2 with rfl | rfl | ⟨hm2, hk2i, hk2j⟩
    · exact absurd rfl hke
    · intro hc
      have hpj : pj = p := by simpa using hc
      exact hinj2 ej hej ei hei (by rw [hejk, heik]; exact Ne.symm hne) pj hejv
        (hpj ▸ heiv)
    · exact hinj2 ei hei e2 hm2 (by rw [heik]; exact fun hcc => hk2i hcc.symm) p heiv
  · -- e1 = (i1, some pj), so p = pj
    have hppj : pj = p := by simpa using hp1
    rcases hmem e2 he2 with rfl | rfl | ⟨hm2, hk2i, hk2j⟩
    · intro hc
      obtain ⟨ei, hei, heik, heiv⟩ := hip2 p hc
      exact hinj2 ej hej ei hei (by rw [hejk, heik]; exact Ne.symm hne) pj hejv
        (hppj ▸ heiv)
    · exact absurd rfl hke
    · exact hppj ▸ hinj2 ej hej e2 hm2 (by rw [hejk]; exact fun hcc => hk2j hcc.symm) pj hejv
  · -- e1 an untouched original entry
    rcases hmem e2 he2 with rfl | rfl | ⟨hm2, hk2i, hk2j⟩
    · intro hc
      obtain ⟨ei, hei, heik, heiv⟩ := hip2 p hc
      exact hinj2 e1 hm1 ei hei (by rw [heik]; exact hk1i) p hp1 heiv
    · intro hc
      have hpj : pj = p := by simpa using hc
      exact hinj2 e1 hm1 ej hej (by rw [hejk]; exact hk1j) p hp1 (hpj ▸ hejv)
    · exact hinj2 e1 hm1 e2 hm2 hke p hp1

theorem findSwap_spec (sg : ℕ → ℕ → Bool) (slots : List (ℕ × Option ℕ)) (p1v : ℕ) :
    ∀ (k j jres pjv : ℕ), findSwap sg slots p1v j k = some (jres, pjv) →
      j ≤ jres ∧ slotGet slots jres = some pjv := by
  intro k
  induction k with
  | zero => intro j jres pjv h; cases h
  | succ k ih =>
    intro j jres pjv h
    rw [findSwap] at h
    by_cases hc : truthy (slotGet slots j) && !sg p1v ((slotGet slots j).getD 0)
    · rw [if_pos hc] at h
      obtain ⟨ht, -⟩ := Bool.and_eq_true_iff.mp hc
      obtain ⟨v, hv, -⟩ := truthy_eq_some _ ht
      cases h
      refine ⟨le_refl _, ?_⟩
      rw [hv]
      simp [hv]
    · rw [if_neg hc] at h
      obtain ⟨hle, hget⟩ := ih (j + 1) jres pjv h
      exact ⟨by omega, hget⟩

theorem koLoopWithGroups_invariant (sg : ℕ → ℕ → Bool) (label : Round) (total : ℕ) :
    ∀ (k i : ℕ) (slots : List (ℕ × Option ℕ)) (nid : ℕ), SlotsInj slots →
      ∀ m ∈ koLoopWithGroups sg label total k i slots nid, MatchInvariant m := by
  intro k
  induction k with
  | zero => intro i slots nid _ m hm; cases hm
  | succ k ih =>
    intro i slots nid hinj m hm
    rw [koLoopWithGroups] at hm
    by_cases hcl : truthy (slotGet slots i) && truthy (slotGet slots (i + 1)) &&
        sg ((slotGet slots i).getD 0) ((slotGet slots (i + 1)).getD 0)
    · rw [if_pos hcl] at hm
      cases hfs : findSwap sg slots ((slotGet slots i).getD 0) (i + 2) (total - (i + 2)) with
      | some jp =>
        rw [hfs] at hm
        obtain ⟨hle, hget⟩ := findSwap_spec sg slots _ _ _ _ _ hfs
        have hinj2 : SlotsInj (slotSet (slotSet slots (i + 1) (some jp.2)) jp.1
            (slotGet slots (i + 1))) :=
          swap_slotsInj slots hinj (i + 1) jp.1 (by omega) jp.2 hget _ rfl
        obtain ⟨hcl1, -⟩ := Bool.and_eq_true_iff.mp hcl
        obtain ⟨ht1, -⟩ := Bool.and_eq_true_iff.mp hcl1
        obtain ⟨v1, hv1, -⟩ := truthy_eq_some _ ht1
        by_cases hp : truthy (slotGet slots i) && truthy (some jp.2)
        · rw [if_pos hp] at hm
          rcases List.mem_cons.mp hm with rfl | hm2
          · rw [hv1]
            refine koPairRow_invariant _ _ _ _ ?_
            simp only [Option.getD_some]
            exact slotGet_distinct slots hinj i jp.1 (by omega) v1 jp.2 hv1 hget
          · exact ih _ _ _ hinj2 m hm2
        · rw [if_neg hp] at hm
          by_cases hq1 : truthy (slotGet slots i)
          · rw [if_pos hq1] at hm
            rcases List.mem_cons.mp hm with rfl | hm2
            · exact koByeRow_invariant _ _ _
            · exact ih _ _ _ hinj2 m hm2
          · rw [if_neg hq1] at hm
            by_cases hq2 : truthy (some jp.2)
            · rw [if_pos hq2] at hm
              rcases List.mem_cons.mp hm with rfl | hm2
              · exact koByeRow_invariant _ _ _
              · exact ih _ _ _ hinj2 m hm2
            · rw [if_neg hq2] at hm
              exact ih _ _ _ hinj2 m hm
      | none =>
        rw [hfs] at hm
        by_cases hp : truthy (slotGet slots i) && truthy (slotGet slots (i + 1))
        · rw [if_pos hp] at hm
          rcases List.mem_cons.mp hm with rfl | hm2
          · obtain ⟨ht1, ht2⟩ := Bool.and_eq_true_iff.mp hp
            obtain ⟨v1, hv1, -⟩ := truthy_eq_some _ ht1
            obtain ⟨v2, hv2, -⟩ := truthy_eq_some _ ht2
            rw [hv1, hv2]
            exact koPairRow_invariant _ _ _ _
              (slotGet_distinct slots hinj i (i + 1) (by omega) v1 v2 hv1 hv2)
          · exact ih _ _ _ hinj m hm2
        · rw [if_neg hp] at hm
          by_cases hq1 : truthy (slotGet slots i)
          · rw [if_pos hq1] at hm
            rcases List.mem_cons.mp hm with rfl | hm2
            · exact koByeRow_invariant _ _ _
            · exact ih _ _ _ hinj m hm2
          · rw [if_neg hq1] at hm
            by_cases hq2 : truthy (slotGet slots (i + 1))
            · rw [if_pos hq2] at hm
              rcases List.mem_cons.mp hm with rfl | hm2
              · exact koByeRow_invariant _ _ _
              · exact ih _ _ _ hinj m hm2
            · rw [if_neg hq2] at hm
              exact ih _ _ _ hinj m hm
    · rw [if_neg hcl] at hm
      by_cases hp : truthy (slotGet slots i) && truthy (slotGet slots (i + 1))
      · rw [if_pos hp] at hm
        rcases List.mem_cons.mp hm with rfl | hm2
        · obtain ⟨ht1, ht2⟩ := Bool.and_eq_true_iff.mp hp
          obtain ⟨v1, hv1, -⟩ := truthy_eq_some _ ht1
          obtain ⟨v2, hv2, -⟩ := truthy_eq_some _ ht2
          rw [hv1, hv2]
          exact koPairRow_invariant _ _ _ _
            (slotGet_distinct slots hinj i (i + 1) (by omega) v1 v2 hv1 hv2)
        · exact ih _ _ _ hinj m hm2
      · rw [if_neg hp] at hm
        by_cases hq1 : truthy (slotGet slots i)
        · rw [if_pos hq1] at hm
          rcases List.mem_cons.mp hm with rfl | hm2
          · exact koByeRow_invariant _ _ _
          · exact ih _ _ _ hinj m hm2
        · rw [if_neg hq1] at hm
          by_cases hq2 : truthy (slotGet slots (i + 1))
          · rw [if_pos hq2] at hm
            rcases List.mem_cons.mp hm with rfl | hm2
            · exact koByeRow_invariant _ _ _
            · exact ih _ _ _ hinj m hm2
          · rw [if_neg hq2] at hm
            exact ih _ _ _ hinj m hm

/-! ## Generator-level invariants -/

theorem generateGroupStageMatches_invariant (s : Store)
    (hnd : ∀ g members, (g, members) ∈ groupsOfRoster s.roster → members.Nodup) :
    ∀ m ∈ (generateGroupStageMatches s).matchRows, m ∈ s.matchRows ∨ MatchInvariant m := by
  intro m hm
  unfold generateGroupStageMatches at hm
  rcases List.mem_append.mp hm with hold | hnew
  · exact Or.inl hold
  · right
    obtain ⟨pi, hpi, rfl⟩ := List.mem_map.mp hnew
    have hsnd : pi.2 ∈ (groupsOfRoster s.roster).flatMap
        (fun g => (roundRobinPairs g.2).map (fun p => (g.1, p))) := by
      have h1 : pi.2 ∈ (List.enum _).map Prod.snd := List.mem_map_of_mem Prod.snd hpi
      rwa [List.enum_map_snd] at h1
    obtain ⟨grp, hgrp, hmem2⟩ := List.mem_flatMap.mp hsnd
    obtain ⟨pr, hpr, hpair⟩ := List.mem_map.mp hmem2
    have hne : pr.1 ≠ pr.2 :=
      roundRobinPairs_distinct grp.2 (hnd grp.1 grp.2 (by
        rcases grp with ⟨g1, g2⟩; exact hgrp)) pr hpr
    constructor
    · intro p hp
      obtain ⟨h1, h2⟩ := hp
      have e1 : pi.2.2.1 = p := by
        have := h1
        simpa using this
      have e2 : pi.2.2.2 = p := by
        have := h2
        simpa using this
      rw [← hpair] at e1 e2
      exact hne (e1.trans e2.symm)
    · intro h
      exact Option.noConfusion h

theorem generateKnockoutNoGroups_invariant (s s2 : Store)
    (hnd : (s.roster.map (·.player_id)).Nodup)
    (hgen : generateKnockoutNoGroups s = some s2) :
    ∀ m ∈ s2.matchRows, m ∈ s.matchRows ∨ MatchInvariant m := by
  unfold generateKnockoutNoGroups at hgen
  by_cases hz : (stableSort
      (fun a b =>
        -(((s.players.find? (fun p => p.id = a)).map (·.rating)).getD 0) ≤
          -(((s.players.find? (fun p => p.id = b)).map (·.rating)).getD 0))
      (s.roster.map (·.player_id))).length = 0
  · rw [if_pos hz] at hgen
    cases hgen
  · rw [if_neg hz] at hgen
    cases hgen
    intro m hm
    rcases List.mem_append.mp hm with hold | hnew
    · exact Or.inl hold
    · right
      have hadvnd : (stableSort
          (fun a b =>
            -(((s.players.find? (fun p => p.id = a)).map (·.rating)).getD 0) ≤
              -(((s.players.find? (fun p => p.id = b)).map (·.rating)).getD 0))
          (s.roster.map (·.player_id))).Nodup :=
        ((stableSort_perm _ _).nodup_iff).mpr hnd
      exact koLoopNoGroups_invariant _ _
        (buildSeedingNoGroups_slotsInj _ _ _ hadvnd) _ _ _ m hnew

theorem mem_take_mono (l : List ℕ) (i j p : ℕ) (hij : i ≤ j) (h : p ∈ l.take i) :
    p ∈ l.take j := by
  have h2 : p ∈ (l.take j).take i := by
    rw [List.take_take, min_eq_left hij]
    exact h
  exact List.take_subset _ _ h2

theorem nodup_get?_inj (l : List ℕ) (hnd : l.Nodup) (i j p : ℕ)
    (hi : l.get? i = some p) (hj : l.get? j = some p) : i = j := by
  by_contra hne
  rcases Nat.lt_or_ge i j with h | h
  · exact not_mem_take_of_get? l j p hnd hj
      (mem_take_mono l (i + 1) j p (by omega) (mem_take_succ_of_get? l i p hi))
  · have hji : j < i := by omega
    exact not_mem_take_of_get? l i p hnd hi
      (mem_take_mono l (j + 1) i p (by omega) (mem_take_succ_of_get? l j p hj))

theorem pairwise_filterMap_custom {α β : Type} (S : β → β → Prop) (f : α → Option β)
    (R : α → α → Prop) (l : List α) (h : List.Pairwise R l)
    (hf : ∀ a b, R a b → ∀ x y, f a = some x → f b = some y → S x y) :
    List.Pairwise S (l.filterMap f) := by
  induction l with
  | nil => exact List.Pairwise.nil
  | cons a l ih =>
    obtain ⟨ha, hl⟩ := List.pairwise_cons.mp h
    rw [List.filterMap_cons]
    cases hfa : f a with
    | none => exact ih hl
    | some x =>
      refine List.pairwise_cons.mpr ⟨?_, ih hl⟩
      intro y hy
      obtain ⟨b, hb, hfb⟩ := List.mem_filterMap.mp hy
      exact hf a b (ha b hb) x y hfa hfb

theorem advancing_nodup_aux (R : List (ℕ × List ℕ))
    (hnodup : ∀ e ∈ R, e.2.Nodup)
    (hdisj : List.Pairwise (fun g h => ∀ x, x ∈ g.2 → x ∉ h.2) R)
    (adv : ℕ) (le2 : ℕ → ℕ → Bool) (idxs : List ℕ) (hidx : idxs.Nodup) :
    (idxs.flatMap (fun i => stableSort le2
      (R.filterMap (fun g => if i < min adv g.2.length then g.2.get? i else none)))).Nodup := by
  have hsym : Symmetric (fun g h : ℕ × List ℕ => ∀ x, x ∈ g.2 → x ∉ h.2) := by
    intro g h hg x hxh hxg
    exact hg x hxg hxh
  have hbucket_mem : ∀ (i : ℕ) (x : ℕ),
      x ∈ R.filterMap (fun g => if i < min adv g.2.length then g.2.get? i else none) →
        ∃ g ∈ R, g.2.get? i = some x := by
    intro i x hx
    obtain ⟨g, hg, hfg⟩ := List.mem_filterMap.mp hx
    by_cases hc : i < min adv g.2.length
    · rw [if_pos hc] at hfg
      exact ⟨g, hg, hfg⟩
    · rw [if_neg hc] at hfg
      cases hfg
  induction idxs with
  | nil => exact List.nodup_nil
  | cons i rest ih =>
    obtain ⟨hirest, hrestnd⟩ := List.nodup_cons.mp hidx
    rw [List.flatMap_cons]
    refine List.Nodup.append ?_ (ih hrestnd) ?_
    · refine ((stableSort_perm le2 _).nodup_iff).mpr ?_
      refine pairwise_filterMap_custom _ _ _ _ hdisj ?_
      intro g h hgh x y hfx hfy
      by_cases hc1 : i < min adv g.2.length
      · rw [if_pos hc1] at hfx
        by_cases hc2 : i < min adv h.2.length
        · rw [if_pos hc2] at hfy
          intro hxy
          exact hgh x (List.get?_mem hfx) (hxy ▸ List.get?_mem hfy)
        · rw [if_neg hc2] at hfy; cases hfy
      · rw [if_neg hc1] at hfx; cases hfx
    · intro x hxi hxrest
      have hxi2 := (stableSort_perm le2 _).mem_iff.mp hxi
      obtain ⟨g, hg, hget⟩ := hbucket_mem i x hxi2
      obtain ⟨j, hj, hxj⟩ := List.mem_flatMap.mp hxrest
      have hxj2 := (stableSort_perm le2 _).mem_iff.mp hxj
      obtain ⟨h, hh, hgeth⟩ := hbucket_mem j x hxj2
      by_cases hghEq : g = h
      · subst hghEq
        exact hirest ((nodup_get?_inj g.2 (hnodup g hg) i j x hget hgeth) ▸ hj)
      · exact (List.Pairwise.forall hsym hdisj hg hh hghEq) x
          (List.get?_mem hget) (List.get?_mem hgeth)

theorem koGen_rankings_props (s : Store) (hnd : (s.roster.map (·.player_id)).Nodup)
    (le : ℕ → ℕ → Bool) :
    ((((groupListBy (·.group_number) s.roster).map
        (fun g => (g.1, g.2.map (·.player_id)))).map
        (fun g => (g.1, stableSort le g.2))).map (·.1)).Nodup ∧
    (∀ e ∈ ((groupListBy (·.group_number) s.roster).map
        (fun g => (g.1, g.2.map (·.player_id)))).map
        (fun g => (g.1, stableSort le g.2)), e.2.Nodup) ∧
    List.Pairwise (fun g h => ∀ x, x ∈ g.2 → x ∉ h.2)
      (((groupListBy (·.group_number) s.roster).map
        (fun g => (g.1, g.2.map (·.player_id)))).map
        (fun g => (g.1, stableSort le g.2))) := by
  have hmembers : ∀ g ∈ groupListBy (·.group_number) s.roster,
      (g.2.map (·.player_id)).Nodup ∧
        ∀ tp ∈ g.2, tp.group_number = g.1 := by
    intro g hg
    have hcontent : g.2 = s.roster.filter (fun a => a.group_number = g.1) := by
      rcases g with ⟨k, glist⟩
      exact groupListBy_entry_content _ _ _ _ hg
    constructor
    · rw [hcontent]
      exact List.Nodup.sublist ((List.filter_sublist s.roster).map _) hnd
    · intro tp htp
      rw [hcontent] at htp
      simpa using (List.mem_filter.mp htp).2
  refine ⟨?_, ?_, ?_⟩
  · have h1 : ((((groupListBy (·.group_number) s.roster).map
        (fun g => (g.1, g.2.map (·.player_id)))).map
        (fun g => (g.1, stableSort le g.2))).map (·.1)) =
        (groupListBy (fun tp : TPRow => tp.group_number) s.roster).map (fun g => g.1) := by
      rw [List.map_map, List.map_map]
      rfl
    rw [h1]
    exact groupListBy_keys_nodup _ _
  · intro e he
    obtain ⟨g1, hg1, rfl⟩ := List.mem_map.mp he
    obtain ⟨g0, hg0, rfl⟩ := List.mem_map.mp hg1
    exact ((stableSort_perm le _).nodup_iff).mpr (hmembers g0 hg0).1
  · rw [List.pairwise_map, List.pairwise_map]
    have hkeysnd := groupListBy_keys_nodup (fun tp : TPRow => tp.group_number) s.roster
    have hkeyne : List.Pairwise (fun g h : ℕ × List TPRow => g.1 ≠ h.1)
        (groupListBy (·.group_number) s.roster) :=
      List.pairwise_map.mp hkeysnd
    refine hkeyne.imp_of_mem ?_
    intro g h hg hh hne x hxg hxh
    have hxg2 := (stableSort_perm le _).mem_iff.mp hxg
    have hxh2 := (stableSort_perm le _).mem_iff.mp hxh
    obtain ⟨tp1, htp1, htp1e⟩ := List.mem_map.mp hxg2
    obtain ⟨tp2, htp2, htp2e⟩ := List.mem_map.mp hxh2
    have hgrp1 := (hmembers g hg).2 tp1 htp1
    have hgrp2 := (hmembers h hh).2 tp2 htp2
    have htpne : tp1 ≠ tp2 := fun hcc => hne (hgrp1 ▸ hgrp2 ▸ hcc ▸ rfl)
    have hcontent1 : tp1 ∈ s.roster := by
      have := groupListBy_entry_content (fun tp : TPRow => tp.group_number) s.roster g.1 g.2
        (by rcases g with ⟨k, gl⟩; exact hg)
      rw [this] at htp1
      exact List.mem_of_mem_filter htp1
    have hcontent2 : tp2 ∈ s.roster := by
      have := groupListBy_entry_content (fun tp : TPRow => tp.group_number) s.roster h.1 h.2
        (by rcases h with ⟨k, hl⟩; exact hh)
      rw [this] at htp2
      exact List.mem_of_mem_filter htp2
    exact htpne (List.inj_on_of_nodup_map hnd hcontent1 hcontent2
      (htp1e.trans htp2e.symm))

theorem generateKnockoutWithGroups_invariant (t : TournamentRow) (s s2 : Store)
    (hnd : (s.roster.map (·.player_id)).Nodup)
    (hgen : generateKnockoutWithGroups t s = some s2) :
    ∀ m ∈ s2.matchRows, m ∈ s.matchRows ∨ MatchInvariant m := by
  unfold generateKnockoutWithGroups at hgen
  dsimp only at hgen
  split at hgen
  · cases hgen
  · split at hgen
    · cases hgen
    · next slots heq =>
      cases hgen
      intro m hm
      rcases List.mem_append.mp hm with hold | hnew
      · exact Or.inl hold
      · right
        have hprops := koGen_rankings_props s hnd
          (fun a b => keyLe (koSortKey (koGenStats s) a) (koSortKey (koGenStats s) b))
        have hadv := advancing_nodup_aux _ hprops.2.1 hprops.2.2
          t.players_advance_per_group
          (fun a b => keyLe (koSortKey (koGenStats s) a) (koSortKey (koGenStats s) b))
          (List.range t.players_advance_per_group) (List.nodup_range _)
        exact koLoopWithGroups_invariant _ _ _ _ _ _ _
          (buildSeedingWithGroups_slotsInj _ _ _ hadv _ heq) m hnew

theorem loserOf_mem (m : MatchRow) : loserOf m = m.player1 ∨ loserOf m = m.player2 := by
  unfold loserOf
  split
  · exact Or.inl rfl
  · exact Or.inr rfl

theorem nextRoundRows_invariant (label : Round) :
    ∀ (n : ℕ) (ws : List ℕ), ws.length ≤ n → List.Pairwise (· ≠ ·) ws →
      ∀ (nid : ℕ) (m : MatchRow), m ∈ nextRoundRows label ws nid → MatchInvariant m := by
  intro n
  induction n with
  | zero =>
    intro ws hlen _ nid m hm
    rw [List.length_eq_zero.mp (Nat.le_zero.mp hlen)] at hm
    cases hm
  | succ n ih =>
    intro ws hlen hpw nid m hm
    match ws with
    | [] => cases hm
    | [p] =>
      rw [nextRoundRows] at hm
      rcases List.mem_singleton.mp hm with rfl
      exact koByeRow_invariant nid p label
    | p :: q :: rest =>
      rw [nextRoundRows] at hm
      rcases List.mem_cons.mp hm with rfl | htail
      · obtain ⟨hp, hrest⟩ := List.pairwise_cons.mp hpw
        exact koPairRow_invariant nid p q label (hp q (List.mem_cons_self q rest))
      · have hlen2 : rest.length ≤ n := by
          simp only [List.length_cons] at hlen
          omega
        have hpw2 : List.Pairwise (· ≠ ·) rest :=
          ((List.pairwise_cons.mp ((List.pairwise_cons.mp hpw).2)).2)
        exact ih rest hlen2 hpw2 (nid + 1) m htail

theorem finalPhase_matchRows (s : Store) (fm : MatchRow) (first : ℕ)
    (lrm : List MatchRow) : (finalPhase s fm first lrm).matchRows = s.matchRows := by
  unfold finalPhase writeStandings
  dsimp only
  repeat' split
  all_goals rfl

theorem thirdPlacePhase_invariant (s : Store) (crn : Round) (crm : List MatchRow)
    (hdisj : List.Pairwise PlayersDisjoint crm) :
    ∀ m ∈ (thirdPlacePhase s crn crm).matchRows, m ∈ s.matchRows ∨ MatchInvariant m := by
  unfold thirdPlacePhase
  dsimp only
  intro m hm
  by_cases hcrn : crn = Round.roundOf 4
  case neg => rw [if_neg hcrn] at hm; exact Or.inl hm
  rw [if_pos hcrn] at hm
  by_cases h2 : (crm.filter (·.winner ≠ none)).length = 2
  case neg =>
    rw [if_neg h2] at hm
    repeat' split at hm
    all_goals exact Or.inl hm
  rw [if_pos h2] at hm
  have hdisjC : List.Pairwise PlayersDisjoint (crm.filter (·.winner ≠ none)) :=
    hdisj.sublist (List.filter_sublist crm)
  split at hm
  next l1 l2 heq =>
    by_cases hn : l1 = none ∨ l2 = none
    · rw [if_pos hn] at hm; exact Or.inl hm
    rw [if_neg hn] at hm
    by_cases hex : s.matchRows.any (·.round = Round.thirdPlace)
    · rw [if_pos hex] at hm; exact Or.inl hm
    rw [if_neg hex] at hm
    dsimp only at hm
    rcases List.mem_append.mp hm with hold | hnew
    · exact Or.inl hold
    right
    rcases List.mem_singleton.mp hnew with rfl
    push_neg at hn
    obtain ⟨hn1, hn2⟩ := hn
    obtain ⟨v1, hv1⟩ := Option.ne_none_iff_exists'.mp hn1
    obtain ⟨v2, hv2⟩ := Option.ne_none_iff_exists'.mp hn2
    -- recover the two completed matches behind the mapped losers
    have hvne : v1 ≠ v2 := by
      rcases hfc : crm.filter (·.winner ≠ none) with _ | ⟨m1, _ | ⟨m2, rest⟩⟩
      · rw [hfc] at heq; simp at heq
      · rw [hfc] at heq; simp at heq
      · rw [hfc] at heq
        rcases rest with _ | ⟨m3, rest2⟩
        case cons.cons.cons => simp at heq
        rw [List.map_cons, List.map_cons, List.map_nil] at heq
        obtain ⟨hl1, heq2⟩ := List.cons_eq_cons.mp heq
        obtain ⟨hl2, -⟩ := List.cons_eq_cons.mp heq2
        rw [hfc] at hdisjC
        have hd12 : PlayersDisjoint m1 m2 :=
          (List.pairwise_cons.mp hdisjC).1 m2 (List.mem_cons_self m2 [])
        have hp1 : m1.player1 = some v1 ∨ m1.player2 = some v1 := by
          rcases loserOf_mem m1 with h | h
          · exact Or.inl ((h.symm.trans hl1).trans hv1)
          · exact Or.inr ((h.symm.trans hl1).trans hv1)
        have hp2 : m2.player1 = some v2 ∨ m2.player2 = some v2 := by
          rcases loserOf_mem m2 with h | h
          · exact Or.inl ((h.symm.trans hl2).trans hv2)
          · exact Or.inr ((h.symm.trans hl2).trans hv2)
        intro hccc
        subst hccc
        exact hd12 v1 hp1 hp2
    refine ⟨?_, ?_⟩
    · intro q hq
      obtain ⟨hq1, hq2⟩ := hq
      dsimp only at hq1 hq2
      rw [hv1] at hq1
      rw [hv2] at hq2
      exact hvne ((Option.some.inj hq1).trans (Option.some.inj hq2).symm)
    · intro hcc
      dsimp only at hcc
      rw [hv2] at hcc
      cases hcc
  next => exact Or.inl hm

set_option maxHeartbeats 2000000 in
theorem advanceKnockoutRounds_invariant (s : Store)
    (hdisj : List.Pairwise (fun m1 m2 => m1.round = m2.round → PlayersDisjoint m1 m2)
      (s.matchRows.filter (·.stage = Stage.knockout)))
    (hwin : ∀ m ∈ s.matchRows, m.stage = Stage.knockout →
      ∀ p : ℕ, m.winner = some p → m.player1 = some p ∨ m.player2 = some p) :
    ∀ m ∈ (advanceKnockoutRounds s).matchRows, m ∈ s.matchRows ∨ MatchInvariant m := by
  have hsym : Symmetric
      (fun m1 m2 : MatchRow => m1.round = m2.round → PlayersDisjoint m1 m2) := by
    intro a b h hr p hp1 hp2
    exact h hr.symm p hp2 hp1
  have hmemF : ∀ (r : Round) (m2 : MatchRow),
      m2 ∈ roundsLookup (groupListBy (·.round)
        ((stableSort (fun a b => lexLe (roundSqlKey a.round) (roundSqlKey b.round))
          (s.matchRows.filter (·.stage = Stage.knockout))).filter
          (·.round ≠ Round.thirdPlace))) r →
        m2 ∈ s.matchRows ∧ m2.stage = Stage.knockout := by
    intro r m2 hm2
    rw [roundsLookup_groupListBy] at hm2
    have h1 := List.mem_of_mem_filter hm2
    have h2 := List.mem_of_mem_filter h1
    have h3 := (stableSort_perm _ _).mem_iff.mp h2
    have h4 := List.mem_filter.mp h3
    refine ⟨h4.1, by simpa using h4.2⟩
  have hdisjR : ∀ r : Round, List.Pairwise PlayersDisjoint
      (roundsLookup (groupListBy (·.round)
        ((stableSort (fun a b => lexLe (roundSqlKey a.round) (roundSqlKey b.round))
          (s.matchRows.filter (·.stage = Stage.knockout))).filter
          (·.round ≠ Round.thirdPlace))) r) := by
    intro r
    rw [roundsLookup_groupListBy]
    have h1 : List.Pairwise
        (fun m1 m2 : MatchRow => m1.round = m2.round → PlayersDisjoint m1 m2)
        (stableSort (fun a b => lexLe (roundSqlKey a.round) (roundSqlKey b.round))
          (s.matchRows.filter (·.stage = Stage.knockout))) :=
      ((stableSort_perm _ _).pairwise_iff (fun h => hsym h)).mpr hdisj
    refine ((h1.sublist (List.filter_sublist _)).sublist
      (List.filter_sublist _)).imp_of_mem ?_
    intro a b ha hb hR
    have hra : a.round = r := by simpa using (List.mem_filter.mp ha).2
    have hrb : b.round = r := by simpa using (List.mem_filter.mp hb).2
    exact hR (hra.trans hrb.symm)
  have hwpw : ∀ r : Round, List.Pairwise (fun a b : ℕ => a ≠ b)
      ((roundsLookup (groupListBy (·.round)
        ((stableSort (fun a b => lexLe (roundSqlKey a.round) (roundSqlKey b.round))
          (s.matchRows.filter (·.stage = Stage.knockout))).filter
          (·.round ≠ Round.thirdPlace))) r).filterMap
        (fun m => if truthy m.winner then m.winner else none)) := by
    intro r
    refine pairwise_filterMap_custom _ _
      (fun m1 m2 => PlayersDisjoint m1 m2 ∧
        (m1 ∈ s.matchRows ∧ m1.stage = Stage.knockout) ∧
        (m2 ∈ s.matchRows ∧ m2.stage = Stage.knockout)) _ ?_ ?_
    · refine (hdisjR r).imp_of_mem ?_
      intro a b ha hb hR
      exact ⟨hR, hmemF r a ha, hmemF r b hb⟩
    · intro a b hab x y hfx hfy
      obtain ⟨hpd, ⟨haM, haS⟩, ⟨hbM, hbS⟩⟩ := hab
      by_cases hta : truthy a.winner
      · rw [if_pos hta] at hfx
        by_cases htb : truthy b.winner
        · rw [if_pos htb] at hfy
          intro hxy
          subst hxy
          exact hpd x (hwin a haM haS x hfx) (hwin b hbM hbS x hfy)
        · rw [if_neg htb] at hfy; cases hfy
      · rw [if_neg hta] at hfx; cases hfx
  intro m hm
  unfold advanceKnockoutRounds at hm
  dsimp only at hm
  generalize hF : stableSort
      (fun a b : MatchRow => lexLe (roundSqlKey a.round) (roundSqlKey b.round))
      (List.filter (fun x => decide (x.stage = Stage.knockout)) s.matchRows) = FS at hm
  rw [hF] at hmemF hdisjR hwpw
  generalize hL : groupListBy (fun x : MatchRow => x.round)
      (List.filter (fun x => decide (x.round ≠ Round.thirdPlace)) FS) = RDS at hm
  rw [hL] at hmemF hdisjR hwpw
  generalize hN : stableSort (fun a b : Round => decide (round_sort_key b ≤ round_sort_key a))
      (List.map (fun x => x.1) RDS) = RNS at hm
  repeat' split at hm
  all_goals first
    | exact Or.inl hm
    | exact thirdPlacePhase_invariant s _ _ (hdisjR _) m hm
    | (rw [finalPhase_matchRows] at hm
       exact thirdPlacePhase_invariant s _ _ (hdisjR _) m hm)
    | (dsimp only at hm
       rcases List.mem_append.mp hm with hold | hnew
       exacts [thirdPlacePhase_invariant s _ _ (hdisjR _) m hold,
         Or.inr (nextRoundRows_invariant _ _ _ le_rfl (hwpw _) _ m hnew)])

/-! ## Round-label order lemmas (for the advance idempotence analysis) -/

theorem lexLe_total (a : List ℕ) : ∀ b : List ℕ,
    lexLe a b = true ∨ lexLe b a = true := by
  induction a with
  | nil => intro b; exact Or.inl rfl
  | cons x xs ih =>
    intro b
    cases b with
    | nil => exact Or.inr rfl
    | cons y ys =>
      by_cases hxy : x < y
      · exact Or.inl (by simp [lexLe, hxy])
      by_cases hyx : y < x
      · exact Or.inr (by simp [lexLe, hyx])
      have hxe : x = y := by omega
      subst hxe
      rcases ih ys with h | h
      · exact Or.inl (by simp [lexLe, h])
      · exact Or.inr (by simp [lexLe, h])

theorem lexLe_trans (a : List ℕ) : ∀ b c : List ℕ,
    lexLe a b = true → lexLe b c = true → lexLe a c = true := by
  induction a with
  | nil => intro b c _ _; rfl
  | cons x xs ih =>
    intro b c h1 h2
    cases b with
    | nil => simp [lexLe] at h1
    | cons y ys =>
      cases c with
      | nil => simp [lexLe] at h2
      | cons z zs =>
        simp only [lexLe, Bool.or_eq_true, Bool.and_eq_true, decide_eq_true_eq] at h1 h2 ⊢
        rcases h1 with h1 | ⟨h1e, h1r⟩
        · rcases h2 with h2 | ⟨h2e, h2r⟩
          · exact Or.inl (h1.trans h2)
          · exact Or.inl (h2e ▸ h1)
        · rcases h2 with h2 | ⟨h2e, h2r⟩
          · exact Or.inl (h1e ▸ h2)
          · exact Or.inr ⟨h1e.trans h2e, ih ys zs h1r h2r⟩

theorem matchLe_total (a b : MatchRow) :
    lexLe (roundSqlKey a.round) (roundSqlKey b.round) = true ∨
      lexLe (roundSqlKey b.round) (roundSqlKey a.round) = true :=
  lexLe_total _ _

theorem matchLe_trans (a b c : MatchRow)
    (h1 : lexLe (roundSqlKey a.round) (roundSqlKey b.round) = true)
    (h2 : lexLe (roundSqlKey b.round) (roundSqlKey c.round) = true) :
    lexLe (roundSqlKey a.round) (roundSqlKey c.round) = true :=
  lexLe_trans _ _ _ h1 h2

theorem roundGe_total (a b : Round) :
    decide (round_sort_key b ≤ round_sort_key a) = true ∨
      decide (round_sort_key a ≤ round_sort_key b) = true := by
  rcases Int.le_total (round_sort_key b) (round_sort_key a) with h | h
  · exact Or.inl (decide_eq_true_eq.mpr h)
  · exact Or.inr (decide_eq_true_eq.mpr h)

theorem roundGe_trans (a b c : Round)
    (h1 : decide (round_sort_key b ≤ round_sort_key a) = true)
    (h2 : decide (round_sort_key c ≤ round_sort_key b) = true) :
    decide (round_sort_key c ≤ round_sort_key a) = true :=
  decide_eq_true_eq.mpr
    (le_trans (decide_eq_true_eq.mp h2) (decide_eq_true_eq.mp h1))

/-- C9 (amended): the match-creating operations of the regular tournament
flow preserve the invariant — no created match pairs a player against itself,
and a created match with a null second participant has its winner pre-set to
the first participant.  This holds for group-stage generation (groups with
distinct members), both knockout generators (roster player ids distinct), and
the advance step (knockout matches of a common round player-disjoint and
every recorded winner one of the match's participants); each only adds rows
satisfying `MatchInvariant`.  The custom-setup endpoints do NOT preserve the
invariant (see the counterexample), so the claim's "every operation" fails. -/
theorem match_creation_invariant_amended :
    (∀ s : Store, (∀ g members, (g, members) ∈ groupsOfRoster s.roster → members.Nodup) →
      ∀ m ∈ (generateGroupStageMatches s).matchRows, m ∈ s.matchRows ∨ MatchInvariant m) ∧
    (∀ s s2 : Store, (s.roster.map (·.player_id)).Nodup →
      generateKnockoutNoGroups s = some s2 →
      ∀ m ∈ s2.matchRows, m ∈ s.matchRows ∨ MatchInvariant m) ∧
    (∀ (t : TournamentRow) (s s2 : Store), (s.roster.map (·.player_id)).Nodup →
      generateKnockoutWithGroups t s = some s2 →
      ∀ m ∈ s2.matchRows, m ∈ s.matchRows ∨ MatchInvariant m) ∧
    (∀ s : Store,
      List.Pairwise (fun m1 m2 => m1.round = m2.round → PlayersDisjoint m1 m2)
        (s.matchRows.filter (·.stage = Stage.knockout)) →
      (∀ m ∈ s.matchRows, m.stage = Stage.knockout →
        ∀ p : ℕ, m.winner = some p → m.player1 = some p ∨ m.player2 = some p) →
      ∀ m ∈ (advanceKnockoutRounds s).matchRows, m ∈ s.matchRows ∨ MatchInvariant m) :=
  ⟨generateGroupStageMatches_invariant,
   generateKnockoutNoGroups_invariant,
   generateKnockoutWithGroups_invariant,
   advanceKnockoutRounds_invariant⟩

/-- Witness: each conjunct of the amended C9 theorem applied at a concrete
store, with every hypothesis discharged on concrete data. -/
theorem match_creation_invariant_amended_witness :
    (∀ g members, (g, members) ∈ groupsOfRoster scenarioA0.roster → members.Nodup) ∧
    c9MG ∈ (generateGroupStageMatches scenarioA0).matchRows ∧
    (c9MG ∈ scenarioA0.matchRows ∨ MatchInvariant c9MG) ∧
    (scenarioA0.roster.map (·.player_id)).Nodup ∧
    generateKnockoutNoGroups scenarioA0 = some scenarioA1 ∧
    c9MN ∈ scenarioA1.matchRows ∧
    (c9MN ∈ scenarioA0.matchRows ∨ MatchInvariant c9MN) ∧
    (c6S2.roster.map (·.player_id)).Nodup ∧
    generateKnockoutWithGroups c6T c6S2 = some c9GroupedKO ∧
    c9MW ∈ c9GroupedKO.matchRows ∧
    (c9MW ∈ c6S2.matchRows ∨ MatchInvariant c9MW) ∧
    c9MA ∈ (advanceKnockoutRounds scenarioA2).matchRows ∧
    (c9MA ∈ scenarioA2.matchRows ∨ MatchInvariant c9MA) := by
  have H1 : ∀ g members, (g, members) ∈ groupsOfRoster scenarioA0.roster →
      members.Nodup := by
    intro g members hgm
    have he : groupsOfRoster scenarioA0.roster = [(0, [1, 2, 3, 4])] := by decide
    rw [he] at hgm
    have h := List.mem_singleton.mp hgm
    have h2 : members = [1, 2, 3, 4] := congrArg Prod.snd h
    rw [h2]
    decide
  have Hpw : List.Pairwise (fun m1 m2 => m1.round = m2.round → PlayersDisjoint m1 m2)
      (scenarioA2.matchRows.filter (·.stage = Stage.knockout)) := by
    have he : scenarioA2.matchRows.filter (·.stage = Stage.knockout) = [c9S2a, c9S2b] := by
      decide
    rw [he]
    refine List.pairwise_cons.mpr ⟨?_, List.pairwise_cons.mpr
      ⟨fun b hb => absurd hb (List.not_mem_nil b), List.Pairwise.nil⟩⟩
    intro b hb hr p hp1 hp2
    have hbe := List.mem_singleton.mp hb
    subst hbe
    rcases hp1 with h1 | h1 <;> rcases hp2 with h2 | h2 <;>
      (first
        | (have e1 := Option.some.inj h1
           have e2 := Option.some.inj h2
           omega))
  have Hwin : ∀ m ∈ scenarioA2.matchRows, m.stage = Stage.knockout →
      ∀ p : ℕ, m.winner = some p → m.player1 = some p ∨ m.player2 = some p := by
    intro m hm hst p hw
    have he : scenarioA2.matchRows = [c9S2a, c9S2b] := by decide
    rw [he] at hm
    rcases List.mem_cons.mp hm with rfl | hm2
    · exact Or.inl (congrArg some (Option.some.inj hw))
    rcases List.mem_cons.mp hm2 with rfl | hm3
    · exact Or.inr (congrArg some (Option.some.inj hw))
    · exact absurd hm3 (List.not_mem_nil m)
  refine ⟨H1, by decide,
    match_creation_invariant_amended.1 scenarioA0 H1 c9MG (by decide),
    by decide, by decide, by decide,
    match_creation_invariant_amended.2.1 scenarioA0 scenarioA1 (by decide) (by decide)
      c9MN (by decide),
    by decide, by decide, by decide,
    match_creation_invariant_amended.2.2.1 c6T c6S2 c9GroupedKO (by decide) (by decide)
      c9MW (by decide),
    by decide,
    match_creation_invariant_amended.2.2.2 scenarioA2 Hpw Hwin c9MA (by decide)⟩

/-! ## Filter, key-list and `getLast?` lemmas for the advance idempotence -/

theorem filter_swap (p q : α → Bool) (l : List α) :
    (l.filter p).filter q = (l.filter q).filter p := by
  induction l with
  | nil => rfl
  | cons a l ih =>
    by_cases hp : p a <;> by_cases hq : q a <;>
      simp [List.filter_cons, hp, hq, ih]

theorem foldl_addToGroups_keys_filter [DecidableEq β] (key : α → β) (p : β → Bool) :
    ∀ (l : List α) (gs gs' : List (β × List α)),
      gs'.map (·.1) = (gs.map (·.1)).filter p →
      ((l.filter (fun a => p (key a))).foldl (addToGroups key) gs').map (·.1) =
        ((l.foldl (addToGroups key) gs).map (·.1)).filter p := by
  intro l
  induction l with
  | nil => intro gs gs' h; exact h
  | cons a l ih =>
    intro gs gs' hacc
    by_cases hpa : p (key a)
    · rw [List.filter_cons_of_pos (by simpa using hpa), List.foldl_cons, List.foldl_cons]
      refine ih _ _ ?_
      rw [addToGroups_keys, addToGroups_keys, hacc]
      by_cases hmem : key a ∈ gs.map (·.1)
      · rw [if_pos hmem, if_pos (List.mem_filter.mpr ⟨hmem, hpa⟩)]
      · rw [if_neg hmem, if_neg (fun hc => hmem (List.mem_of_mem_filter hc)),
          List.filter_append]
        simp [hpa]
    · rw [List.filter_cons_of_neg (by simpa using hpa), List.foldl_cons]
      refine ih _ _ ?_
      rw [addToGroups_keys]
      by_cases hmem : key a ∈ gs.map (·.1)
      · rw [if_pos hmem]; exact hacc
      · rw [if_neg hmem, List.filter_append, hacc]
        simp [hpa]

theorem groupListBy_keys_filter [DecidableEq β] (key : α → β) (p : β → Bool)
    (l : List α) :
    ((groupListBy key (l.filter (fun a => p (key a)))).map (·.1)) =
      ((groupListBy key l).map (·.1)).filter p :=
  foldl_addToGroups_keys_filter key p l [] [] rfl

theorem foldl_addToGroups_keys_mem [DecidableEq β] (key : α → β) (l : List α) :
    ∀ (gs : List (β × List α)) (b : β),
      (b ∈ (l.foldl (addToGroups key) gs).map (·.1) ↔
        b ∈ gs.map (·.1) ∨ b ∈ l.map key) := by
  induction l with
  | nil => intro gs b; simp
  | cons a l ih =>
    intro gs b
    rw [List.foldl_cons, ih, addToGroups_keys]
    by_cases hmem : key a ∈ gs.map (·.1)
    · rw [if_pos hmem]
      simp only [List.map_cons, List.mem_cons]
      constructor
      · rintro (h | h)
        · exact Or.inl h
        · exact Or.inr (Or.inr h)
      · rintro (h | h | h)
        · exact Or.inl h
        · exact Or.inl (h ▸ hmem)
        · exact Or.inr h
    · rw [if_neg hmem]
      simp only [List.mem_append, List.mem_singleton, List.map_cons, List.mem_cons]
      tauto

theorem groupListBy_keys_mem [DecidableEq β] (key : α → β) (l : List α) (b : β) :
    b ∈ (groupListBy key l).map (·.1) ↔ b ∈ l.map key := by
  rw [groupListBy, foldl_addToGroups_keys_mem]
  simp

/-! ## `thirdPlacePhase` characterization -/

theorem thirdPlacePhase_of_ne (s : Store) (crn : Round) (crm : List MatchRow)
    (h : crn ≠ Round.roundOf 4) : thirdPlacePhase s crn crm = s := by
  unfold thirdPlacePhase
  rw [if_neg h]

theorem thirdPlacePhase_blocked (s : Store) (crn : Round) (crm : List MatchRow)
    (h2 : (crm.filter (·.winner ≠ none)).length = 2)
    (hex : s.matchRows.any (·.round = Round.thirdPlace) = true) :
    thirdPlacePhase s crn crm = s := by
  unfold thirdPlacePhase
  by_cases hcrn : crn = Round.roundOf 4
  case neg => rw [if_neg hcrn]
  rw [if_pos hcrn]
  dsimp only
  rw [if_pos h2]
  split
  next l1 l2 heq =>
    by_cases hn : l1 = none ∨ l2 = none
    · rw [if_pos hn]
    · rw [if_neg hn, if_pos hex]
  next => rfl

theorem thirdPlacePhase_tri (s : Store) (crn : Round) (crm : List MatchRow) :
    (∀ s2 : Store, thirdPlacePhase s2 crn crm = s2) ∨
    (∃ st : StandingRow, thirdPlacePhase s crn crm =
      { s with standings := s.standings ++ [st] }) ∨
    ((crm.filter (·.winner ≠ none)).length = 2 ∧
      ((s.matchRows.any (·.round = Round.thirdPlace) = true ∧
          thirdPlacePhase s crn crm = s) ∨
        (∃ l1 l2 : Option ℕ, thirdPlacePhase s crn crm =
          { s with
            matchRows := s.matchRows ++
              [⟨s.nextId, l1, l2, none, none, none, Round.thirdPlace, Stage.knockout⟩]
            nextId := s.nextId + 1 }))) := by
  by_cases hcrn : crn = Round.roundOf 4
  case neg => exact Or.inl (fun s2 => thirdPlacePhase_of_ne s2 crn crm hcrn)
  by_cases h2 : (crm.filter (·.winner ≠ none)).length = 2
  · rcases hM : (crm.filter (·.winner ≠ none)).map loserOf with _ | ⟨l1, _ | ⟨l2, rest⟩⟩
    · refine Or.inl (fun s2 => ?_)
      unfold thirdPlacePhase
      rw [if_pos hcrn]
      try dsimp only
      rw [if_pos h2, hM]
    · refine Or.inl (fun s2 => ?_)
      unfold thirdPlacePhase
      rw [if_pos hcrn]
      try dsimp only
      rw [if_pos h2, hM]
    · rcases rest with _ | ⟨l3, rest2⟩
      · by_cases hn : l1 = none ∨ l2 = none
        · refine Or.inl (fun s2 => ?_)
          unfold thirdPlacePhase
          rw [if_pos hcrn]
          try dsimp only
          rw [if_pos h2, hM]
          try dsimp only
          rw [if_pos hn]
        · refine Or.inr (Or.inr ⟨h2, ?_⟩)
          by_cases hex : s.matchRows.any (·.round = Round.thirdPlace) = true
          · exact Or.inl ⟨hex, thirdPlacePhase_blocked s crn crm h2 hex⟩
          · refine Or.inr ⟨l1, l2, ?_⟩
            unfold thirdPlacePhase
            rw [if_pos hcrn]
            try dsimp only
            rw [if_pos h2, hM]
            try dsimp only
            rw [if_neg hn, if_neg hex]
      · refine Or.inl (fun s2 => ?_)
        unfold thirdPlacePhase
        rw [if_pos hcrn]
        try dsimp only
        rw [if_pos h2, hM]
  · by_cases h1 : (crm.filter (·.winner ≠ none)).length = 1
    · rcases hC : crm.filter (·.winner ≠ none) with _ | ⟨semi, _ | ⟨m2, rest⟩⟩
      · rw [hC] at h1; simp at h1
      · by_cases hw : truthy semi.winner = true
        · by_cases ht : truthy (loserOf semi) = true
          · refine Or.inr (Or.inl ⟨⟨loserOf semi, 3⟩, ?_⟩)
            unfold thirdPlacePhase
            rw [if_pos hcrn]
            try dsimp only
            rw [if_neg h2, if_pos h1, hC]
            try dsimp only
            rw [if_pos hw]
            try dsimp only
            rw [if_pos ht]
          · refine Or.inl (fun s2 => ?_)
            unfold thirdPlacePhase
            rw [if_pos hcrn]
            try dsimp only
            rw [if_neg h2, if_pos h1, hC]
            try dsimp only
            rw [if_pos hw]
            try dsimp only
            rw [if_neg ht]
        · refine Or.inl (fun s2 => ?_)
          unfold thirdPlacePhase
          rw [if_pos hcrn]
          try dsimp only
          rw [if_neg h2, if_pos h1, hC]
          try dsimp only
          rw [if_neg hw]
      · rw [hC] at h1; simp at h1
    · refine Or.inl (fun s2 => ?_)
      unfold thirdPlacePhase
      rw [if_pos hcrn]
      try dsimp only
      rw [if_neg h2, if_neg h1]

/-! ## Evaluation lemmas for `advance_knockout_rounds` -/

theorem advance_of_standings (s : Store) (h : s.standings ≠ []) :
    advanceKnockoutRounds s = s := by
  unfold advanceKnockoutRounds
  rw [if_pos h]

theorem advance_of_fetched_nil (s : Store) (h0 : s.standings = [])
    (hf : stableSort (fun a b => lexLe (roundSqlKey a.round) (roundSqlKey b.round))
      (s.matchRows.filter (·.stage = Stage.knockout)) = []) :
    advanceKnockoutRounds s = s := by
  unfold advanceKnockoutRounds
  rw [if_neg (fun hc => hc h0)]
  dsimp only
  rw [if_pos hf]

theorem advance_of_no_rounds (s : Store) (h0 : s.standings = [])
    (hrn : (stableSort (fun a b => round_sort_key b ≤ round_sort_key a)
      ((groupListBy (·.round)
        ((stableSort (fun a b => lexLe (roundSqlKey a.round) (roundSqlKey b.round))
          (s.matchRows.filter (·.stage = Stage.knockout))).filter
          (·.round ≠ Round.thirdPlace))).map (·.1))).getLast? = none) :
    advanceKnockoutRounds s = s := by
  unfold advanceKnockoutRounds
  rw [if_neg (fun hc => hc h0)]
  dsimp only
  by_cases hf : stableSort (fun a b => lexLe (roundSqlKey a.round) (roundSqlKey b.round))
      (s.matchRows.filter (·.stage = Stage.knockout)) = []
  · rw [if_pos hf]
  · rw [if_neg hf, hrn]

theorem advance_of_current_undecided (s : Store) (h0 : s.standings = []) (c : Round)
    (hc : (stableSort (fun a b => round_sort_key b ≤ round_sort_key a)
      ((groupListBy (·.round)
        ((stableSort (fun a b => lexLe (roundSqlKey a.round) (roundSqlKey b.round))
          (s.matchRows.filter (·.stage = Stage.knockout))).filter
          (·.round ≠ Round.thirdPlace))).map (·.1))).getLast? = some c)
    (hund : ((roundsLookup (groupListBy (·.round)
        ((stableSort (fun a b => lexLe (roundSqlKey a.round) (roundSqlKey b.round))
          (s.matchRows.filter (·.stage = Stage.knockout))).filter
          (·.round ≠ Round.thirdPlace))) c).any (·.winner = none)) = true) :
    advanceKnockoutRounds s = s := by
  unfold advanceKnockoutRounds
  rw [if_neg (fun hc2 => hc2 h0)]
  dsimp only
  by_cases hf : stableSort (fun a b => lexLe (roundSqlKey a.round) (roundSqlKey b.round))
      (s.matchRows.filter (·.stage = Stage.knockout)) = []
  · rw [if_pos hf]
  · rw [if_neg hf, hc]
    dsimp only
    rw [if_pos hund]

theorem advance_of_last_undecided (s : Store) (h0 : s.standings = []) (c : Round)
    (hc : (stableSort (fun a b => round_sort_key b ≤ round_sort_key a)
      ((groupListBy (·.round)
        ((stableSort (fun a b => lexLe (roundSqlKey a.round) (roundSqlKey b.round))
          (s.matchRows.filter (·.stage = Stage.knockout))).filter
          (·.round ≠ Round.thirdPlace))).map (·.1))).getLast? = some c)
    (hcur : ((roundsLookup (groupListBy (·.round)
        ((stableSort (fun a b => lexLe (roundSqlKey a.round) (roundSqlKey b.round))
          (s.matchRows.filter (·.stage = Stage.knockout))).filter
          (·.round ≠ Round.thirdPlace))) c).any (·.winner = none)) = false)
    (hlen : (stableSort (fun a b => round_sort_key b ≤ round_sort_key a)
      ((groupListBy (·.round)
        ((stableSort (fun a b => lexLe (roundSqlKey a.round) (roundSqlKey b.round))
          (s.matchRows.filter (·.stage = Stage.knockout))).filter
          (·.round ≠ Round.thirdPlace))).map (·.1))).length > 1)
    (L : Round)
    (hL : (stableSort (fun a b => round_sort_key b ≤ round_sort_key a)
      ((groupListBy (·.round)
        ((stableSort (fun a b => lexLe (roundSqlKey a.round) (roundSqlKey b.round))
          (s.matchRows.filter (·.stage = Stage.knockout))).filter
          (·.round ≠ Round.thirdPlace))).map (·.1))).dropLast.getLast? = some L)
    (hundL : ((roundsLookup (groupListBy (·.round)
        ((stableSort (fun a b => lexLe (roundSqlKey a.round) (roundSqlKey b.round))
          (s.matchRows.filter (·.stage = Stage.knockout))).filter
          (·.round ≠ Round.thirdPlace))) L).any (·.winner = none)) = true) :
    advanceKnockoutRounds s = s := by
  unfold advanceKnockoutRounds
  rw [if_neg (fun hc2 => hc2 h0)]
  dsimp only
  by_cases hf : stableSort (fun a b => lexLe (roundSqlKey a.round) (roundSqlKey b.round))
      (s.matchRows.filter (·.stage = Stage.knockout)) = []
  · rw [if_pos hf]
  · rw [if_neg hf, hc]
    dsimp only
    rw [if_neg (by rw [hcur]; exact Bool.false_ne_true), if_pos hlen, hL]
    dsimp only
    rw [if_pos hundL]

theorem advance_eval_tail (s : Store) (h0 : s.standings = []) (c : Round)
    (hfne : ¬(stableSort (fun a b => lexLe (roundSqlKey a.round) (roundSqlKey b.round))
      (s.matchRows.filter (·.stage = Stage.knockout)) = []))
    (hc : (stableSort (fun a b => round_sort_key b ≤ round_sort_key a)
      ((groupListBy (·.round)
        ((stableSort (fun a b => lexLe (roundSqlKey a.round) (roundSqlKey b.round))
          (s.matchRows.filter (·.stage = Stage.knockout))).filter
          (·.round ≠ Round.thirdPlace))).map (·.1))).getLast? = some c)
    (hcur : ((roundsLookup (groupListBy (·.round)
        ((stableSort (fun a b => lexLe (roundSqlKey a.round) (roundSqlKey b.round))
          (s.matchRows.filter (·.stage = Stage.knockout))).filter
          (·.round ≠ Round.thirdPlace))) c).any (·.winner = none)) = false)
    (lrm : List MatchRow)
    (hlrm : (if (stableSort (fun a b => round_sort_key b ≤ round_sort_key a)
        ((groupListBy (·.round)
          ((stableSort (fun a b => lexLe (roundSqlKey a.round) (roundSqlKey b.round))
            (s.matchRows.filter (·.stage = Stage.knockout))).filter
            (·.round ≠ Round.thirdPlace))).map (·.1))).length > 1 then
        match (stableSort (fun a b => round_sort_key b ≤ round_sort_key a)
          ((groupListBy (·.round)
            ((stableSort (fun a b => lexLe (roundSqlKey a.round) (roundSqlKey b.round))
              (s.matchRows.filter (·.stage = Stage.knockout))).filter
              (·.round ≠ Round.thirdPlace))).map (·.1))).dropLast.getLast? with
        | some last_round_name =>
          roundsLookup (groupListBy (·.round)
            ((stableSort (fun a b => lexLe (roundSqlKey a.round) (roundSqlKey b.round))
              (s.matchRows.filter (·.stage = Stage.knockout))).filter
              (·.round ≠ Round.thirdPlace))) last_round_name
        | none => []
      else []) = lrm)
    (hlast : (lrm.any (·.winner = none)) = false) :
    advanceKnockoutRounds s = advanceTail s c
      (roundsLookup (groupListBy (·.round)
        ((stableSort (fun a b => lexLe (roundSqlKey a.round) (roundSqlKey b.round))
          (s.matchRows.filter (·.stage = Stage.knockout))).filter
          (·.round ≠ Round.thirdPlace))) c) lrm := by
  unfold advanceKnockoutRounds advanceTail
  rw [if_neg (fun hc2 => hc2 h0)]
  dsimp only
  rw [if_neg hfne, hc]
  dsimp only
  rw [if_neg (by rw [hcur]; exact Bool.false_ne_true), hlrm,
    if_neg (by rw [hlast]; exact Bool.false_ne_true)]

theorem advance_noop_at_tail (s' : Store) (c : Round)
    (hst : s'.standings = [])
    (hfne : ¬(stableSort (fun a b => lexLe (roundSqlKey a.round) (roundSqlKey b.round))
      (s'.matchRows.filter (·.stage = Stage.knockout)) = []))
    (hc : (stableSort (fun a b => round_sort_key b ≤ round_sort_key a)
      ((groupListBy (·.round)
        ((stableSort (fun a b => lexLe (roundSqlKey a.round) (roundSqlKey b.round))
          (s'.matchRows.filter (·.stage = Stage.knockout))).filter
          (·.round ≠ Round.thirdPlace))).map (·.1))).getLast? = some c)
    (hcur : ((roundsLookup (groupListBy (·.round)
        ((stableSort (fun a b => lexLe (roundSqlKey a.round) (roundSqlKey b.round))
          (s'.matchRows.filter (·.stage = Stage.knockout))).filter
          (·.round ≠ Round.thirdPlace))) c).any (·.winner = none)) = false)
    (lrm : List MatchRow)
    (hlrm : (if (stableSort (fun a b => round_sort_key b ≤ round_sort_key a)
        ((groupListBy (·.round)
          ((stableSort (fun a b => lexLe (roundSqlKey a.round) (roundSqlKey b.round))
            (s'.matchRows.filter (·.stage = Stage.knockout))).filter
            (·.round ≠ Round.thirdPlace))).map (·.1))).length > 1 then
        match (stableSort (fun a b => round_sort_key b ≤ round_sort_key a)
          ((groupListBy (·.round)
            ((stableSort (fun a b => lexLe (roundSqlKey a.round) (roundSqlKey b.round))
              (s'.matchRows.filter (·.stage = Stage.knockout))).filter
              (·.round ≠ Round.thirdPlace))).map (·.1))).dropLast.getLast? with
        | some last_round_name =>
          roundsLookup (groupListBy (·.round)
            ((stableSort (fun a b => lexLe (roundSqlKey a.round) (roundSqlKey b.round))
              (s'.matchRows.filter (·.stage = Stage.knockout))).filter
              (·.round ≠ Round.thirdPlace))) last_round_name
        | none => []
      else []) = lrm)
    (hlast : (lrm.any (·.winner = none)) = false)
    (hs1 : thirdPlacePhase s' c (roundsLookup (groupListBy (·.round)
        ((stableSort (fun a b => lexLe (roundSqlKey a.round) (roundSqlKey b.round))
          (s'.matchRows.filter (·.stage = Stage.knockout))).filter
          (·.round ≠ Round.thirdPlace))) c) = s')
    (hbr1 : ¬(((roundsLookup (groupListBy (·.round)
        ((stableSort (fun a b => lexLe (roundSqlKey a.round) (roundSqlKey b.round))
          (s'.matchRows.filter (·.stage = Stage.knockout))).filter
          (·.round ≠ Round.thirdPlace))) c).filterMap
        (fun m => if truthy m.winner then m.winner else none)).length = 1 ∧
      c = Round.final))
    (hbr2 : ¬(((roundsLookup (groupListBy (·.round)
        ((stableSort (fun a b => lexLe (roundSqlKey a.round) (roundSqlKey b.round))
          (s'.matchRows.filter (·.stage = Stage.knockout))).filter
          (·.round ≠ Round.thirdPlace))) c).filterMap
        (fun m => if truthy m.winner then m.winner else none)).length = 1 ∧
      c = Round.thirdPlace))
    (hnext : ((roundsLookup (groupListBy (·.round)
        ((stableSort (fun a b => lexLe (roundSqlKey a.round) (roundSqlKey b.round))
          (s'.matchRows.filter (·.stage = Stage.knockout))).filter
          (·.round ≠ Round.thirdPlace))) c).filterMap
        (fun m => if truthy m.winner then m.winner else none)).length < 2 ∨
      (s'.matchRows.any (fun m => m.round = nextRoundName
        ((roundsLookup (groupListBy (·.round)
        ((stableSort (fun a b => lexLe (roundSqlKey a.round) (roundSqlKey b.round))
          (s'.matchRows.filter (·.stage = Stage.knockout))).filter
          (·.round ≠ Round.thirdPlace))) c).filterMap
        (fun m => if truthy m.winner then m.winner else none)).length c ∧
        m.stage = Stage.knockout)) = true) :
    advanceKnockoutRounds s' = s' := by
  rw [advance_eval_tail s' hst c hfne hc hcur lrm hlrm hlast]
  unfold advanceTail
  dsimp only
  rw [hs1, if_neg hbr1, if_neg hbr2]
  by_cases hlt : ((roundsLookup (groupListBy (·.round)
      ((stableSort (fun a b => lexLe (roundSqlKey a.round) (roundSqlKey b.round))
        (s'.matchRows.filter (·.stage = Stage.knockout))).filter
        (·.round ≠ Round.thirdPlace))) c).filterMap
      (fun m => if truthy m.winner then m.winner else none)).length < 2
  · rw [if_pos hlt]
  · rw [if_neg hlt]
    rcases hnext with h | h
    · exact absurd h hlt
    · rw [if_pos h]

/-! ## Relating the store after an advance write back to the original -/

theorem nextRoundRows_fields (label : Round) :
    ∀ (n : ℕ) (ws : List ℕ), ws.length ≤ n →
      ∀ (nid : ℕ) (m : MatchRow), m ∈ nextRoundRows label ws nid →
        m.round = label ∧ m.stage = Stage.knockout := by
  intro n
  induction n with
  | zero =>
    intro ws hlen _ m hm
    rw [List.length_eq_zero.mp (Nat.le_zero.mp hlen)] at hm
    cases hm
  | succ n ih =>
    intro ws hlen nid m hm
    match ws with
    | [] => cases hm
    | [p] =>
      rw [nextRoundRows] at hm
      rcases List.mem_singleton.mp hm with rfl
      exact ⟨rfl, rfl⟩
    | p :: q :: rest =>
      rw [nextRoundRows] at hm
      rcases List.mem_cons.mp hm with rfl | htail
      · exact ⟨rfl, rfl⟩
      · have hlen2 : rest.length ≤ n := by
          simp only [List.length_cons] at hlen
          omega
        exact ih rest hlen2 (nid + 1) m htail

/-- The filtered, sorted, non-3rd-place knockout list of the store after the
advance writes, with the fresh-round rows filtered back out, is the original
one. -/
theorem l1_after (s : Store) (ext : List MatchRow) (nrn : Round)
    (hko : ∀ m ∈ ext, m.stage = Stage.knockout)
    (hrounds : ∀ m ∈ ext, m.round = nrn ∨ m.round = Round.thirdPlace)
    (hfresh : ∀ m ∈ s.matchRows, m.stage = Stage.knockout → m.round ≠ nrn) :
    ((stableSort (fun a b => lexLe (roundSqlKey a.round) (roundSqlKey b.round))
      ((s.matchRows ++ ext).filter (·.stage = Stage.knockout))).filter
      (·.round ≠ Round.thirdPlace)).filter (fun m => m.round ≠ nrn) =
    (stableSort (fun a b => lexLe (roundSqlKey a.round) (roundSqlKey b.round))
      (s.matchRows.filter (·.stage = Stage.knockout))).filter
      (·.round ≠ Round.thirdPlace) := by
  rw [filter_stableSort _ matchLe_total matchLe_trans,
    filter_stableSort _ matchLe_total matchLe_trans,
    filter_stableSort _ matchLe_total matchLe_trans]
  congr 1
  rw [List.filter_append, List.filter_append]
  have hextko : ext.filter (·.stage = Stage.knockout) = ext :=
    List.filter_eq_self.mpr (fun a ha => by simp [hko a ha])
  rw [hextko]
  have hext3 : ∀ m ∈ ext.filter (·.round ≠ Round.thirdPlace), m.round = nrn := by
    intro m hm
    rcases hrounds m (List.mem_of_mem_filter hm) with h | h
    · exact h
    · have := (List.mem_filter.mp hm).2
      rw [h] at this
      simp at this
  have hkill : (ext.filter (·.round ≠ Round.thirdPlace)).filter
      (fun m => m.round ≠ nrn) = [] := by
    rw [List.filter_eq_nil]
    intro m hm
    simp [hext3 m hm]
  rw [List.filter_append, hkill, List.append_nil]
  apply List.filter_eq_self.mpr
  intro m hm
  have h1 := List.mem_of_mem_filter (List.mem_of_mem_filter hm)
  have h2 := (List.mem_filter.mp (List.mem_of_mem_filter hm)).2
  simpa using hfresh m h1 (by simpa using h2)

theorem lookup_of_filter_ne (l1' : List MatchRow) (nrn r : Round) (hr : r ≠ nrn) :
    roundsLookup (groupListBy (·.round) (l1'.filter (fun m => m.round ≠ nrn))) r =
      roundsLookup (groupListBy (·.round) l1') r := by
  rw [roundsLookup_groupListBy, roundsLookup_groupListBy, filter_swap]
  apply List.filter_eq_self.mpr
  intro a ha
  have h2 := (List.mem_filter.mp ha).2
  simp only [decide_eq_true_eq] at h2
  simp [h2, hr]

theorem keys_of_filter_ne (l1' : List MatchRow) (nrn : Round) :
    ((groupListBy (·.round) (l1'.filter (fun m => m.round ≠ nrn))).map (·.1)) =
      ((groupListBy (·.round) l1').map (·.1)).filter (fun r => r ≠ nrn) :=
  groupListBy_keys_filter (·.round) (fun r => r ≠ nrn) l1'

theorem getLast?_filter_last (l : List α) (p : α → Bool) (x : α)
    (hx : l.getLast? = some x) (hpx : p x = true) :
    (l.filter p).getLast? = some x := by
  rw [List.getLast?_eq_head?_reverse] at hx ⊢
  rw [← List.filter_reverse]
  cases hrev : l.reverse with
  | nil => rw [hrev] at hx; cases hx
  | cons y t =>
    rw [hrev] at hx
    have hyx : y = x := Option.some.inj hx
    subst hyx
    rw [List.filter_cons_of_pos hpx]
    rfl

/-- After only a 3rd-place row was appended (no next-round rows), the next
advance call is a no-op: the 3rd-place row is invisible to the round grouping
and the in-phase existence check blocks a second 3rd-place write. -/
theorem advance_noop_after_third (s s' : Store) (c : Round) (row3 : MatchRow)
    (hmr : s'.matchRows = s.matchRows ++ [row3])
    (hst : s'.standings = [])
    (h3r : row3.round = Round.thirdPlace) (h3s : row3.stage = Stage.knockout)
    (hc : (stableSort (fun a b => round_sort_key b ≤ round_sort_key a)
      ((groupListBy (·.round)
        ((stableSort (fun a b => lexLe (roundSqlKey a.round) (roundSqlKey b.round))
          (s.matchRows.filter (·.stage = Stage.knockout))).filter
          (·.round ≠ Round.thirdPlace))).map (·.1))).getLast? = some c)
    (hcur : ((roundsLookup (groupListBy (·.round)
        ((stableSort (fun a b => lexLe (roundSqlKey a.round) (roundSqlKey b.round))
          (s.matchRows.filter (·.stage = Stage.knockout))).filter
          (·.round ≠ Round.thirdPlace))) c).any (·.winner = none)) = false)
    (lrm : List MatchRow)
    (hlrm : (if (stableSort (fun a b => round_sort_key b ≤ round_sort_key a)
        ((groupListBy (·.round)
          ((stableSort (fun a b => lexLe (roundSqlKey a.round) (roundSqlKey b.round))
            (s.matchRows.filter (·.stage = Stage.knockout))).filter
            (·.round ≠ Round.thirdPlace))).map (·.1))).length > 1 then
        match (stableSort (fun a b => round_sort_key b ≤ round_sort_key a)
          ((groupListBy (·.round)
            ((stableSort (fun a b => lexLe (roundSqlKey a.round) (roundSqlKey b.round))
              (s.matchRows.filter (·.stage = Stage.knockout))).filter
              (·.round ≠ Round.thirdPlace))).map (·.1))).dropLast.getLast? with
        | some last_round_name =>
          roundsLookup (groupListBy (·.round)
            ((stableSort (fun a b => lexLe (roundSqlKey a.round) (roundSqlKey b.round))
              (s.matchRows.filter (·.stage = Stage.knockout))).filter
              (·.round ≠ Round.thirdPlace))) last_round_name
        | none => []
      else []) = lrm)
    (hlast : (lrm.any (·.winner = none)) = false)
    (h2 : ((roundsLookup (groupListBy (·.round)
        ((stableSort (fun a b => lexLe (roundSqlKey a.round) (roundSqlKey b.round))
          (s.matchRows.filter (·.stage = Stage.knockout))).filter
          (·.round ≠ Round.thirdPlace))) c).filter (·.winner ≠ none)).length = 2)
    (hbr1 : ¬(((roundsLookup (groupListBy (·.round)
        ((stableSort (fun a b => lexLe (roundSqlKey a.round) (roundSqlKey b.round))
          (s.matchRows.filter (·.stage = Stage.knockout))).filter
          (·.round ≠ Round.thirdPlace))) c).filterMap
        (fun m => if truthy m.winner then m.winner else none)).length = 1 ∧
      c = Round.final))
    (hbr2 : ¬(((roundsLookup (groupListBy (·.round)
        ((stableSort (fun a b => lexLe (roundSqlKey a.round) (roundSqlKey b.round))
          (s.matchRows.filter (·.stage = Stage.knockout))).filter
          (·.round ≠ Round.thirdPlace))) c).filterMap
        (fun m => if truthy m.winner then m.winner else none)).length = 1 ∧
      c = Round.thirdPlace))
    (hnext : ((roundsLookup (groupListBy (·.round)
        ((stableSort (fun a b => lexLe (roundSqlKey a.round) (roundSqlKey b.round))
          (s.matchRows.filter (·.stage = Stage.knockout))).filter
          (·.round ≠ Round.thirdPlace))) c).filterMap
        (fun m => if truthy m.winner then m.winner else none)).length < 2 ∨
      (s'.matchRows.any (fun m => m.round = nextRoundName
        ((roundsLookup (groupListBy (·.round)
        ((stableSort (fun a b => lexLe (roundSqlKey a.round) (roundSqlKey b.round))
          (s.matchRows.filter (·.stage = Stage.knockout))).filter
          (·.round ≠ Round.thirdPlace))) c).filterMap
        (fun m => if truthy m.winner then m.winner else none)).length c ∧
        m.stage = Stage.knockout)) = true) :
    advanceKnockoutRounds s' = s' := by
  have hKO : s'.matchRows.filter (·.stage = Stage.knockout) =
      s.matchRows.filter (·.stage = Stage.knockout) ++ [row3] := by
    rw [hmr, List.filter_append]
    congr 1
    simp [List.filter_cons, h3s]
  have hL1 : (stableSort (fun a b => lexLe (roundSqlKey a.round) (roundSqlKey b.round))
      (s'.matchRows.filter (·.stage = Stage.knockout))).filter
      (·.round ≠ Round.thirdPlace) =
      (stableSort (fun a b => lexLe (roundSqlKey a.round) (roundSqlKey b.round))
        (s.matchRows.filter (·.stage = Stage.knockout))).filter
        (·.round ≠ Round.thirdPlace) := by
    rw [hKO, filter_stableSort _ matchLe_total matchLe_trans,
      filter_stableSort _ matchLe_total matchLe_trans, List.filter_append]
    congr 1
    rw [List.filter_cons]
    simp [h3r]
  have hex3 : s'.matchRows.any (·.round = Round.thirdPlace) = true := by
    refine List.any_eq_true.mpr ⟨row3, ?_, by simp [h3r]⟩
    rw [hmr]
    exact List.mem_append_right _ (List.mem_singleton.mpr rfl)
  have hfne : ¬(stableSort (fun a b => lexLe (roundSqlKey a.round) (roundSqlKey b.round))
      (s'.matchRows.filter (·.stage = Stage.knockout)) = []) := by
    intro hnil
    have hlen := (stableSort_perm (fun a b : MatchRow =>
      lexLe (roundSqlKey a.round) (roundSqlKey b.round))
      (s'.matchRows.filter (·.stage = Stage.knockout))).length_eq
    rw [hnil, hKO] at hlen
    simp at hlen
  refine advance_noop_at_tail s' c hst hfne ?_ ?_ lrm ?_ hlast ?_ ?_ ?_ ?_
  · rw [hL1]; exact hc
  · rw [hL1]; exact hcur
  · rw [hL1]; exact hlrm
  · rw [hL1]
    exact thirdPlacePhase_blocked s' c _ h2 hex3
  · rw [hL1]; exact hbr1
  · rw [hL1]; exact hbr2
  · rw [hL1]; exact hnext

theorem dropLast_getLast?_eq (l : List α) :
    l.dropLast.getLast? = l.reverse.tail.head? := by
  cases hrev : l.reverse with
  | nil =>
    have hl : l = [] := List.reverse_eq_nil_iff.mp hrev
    rw [hl]
    rfl
  | cons a t =>
    have hl : l = t.reverse ++ [a] := by
      rw [← List.reverse_reverse l, hrev, List.reverse_cons]
    rw [hl, List.dropLast_concat, List.getLast?_eq_head?_reverse,
      List.reverse_reverse]
    rfl

set_option maxHeartbeats 2000000 in
/-- After next-round rows for a fresh label (plus possibly a 3rd-place row)
were appended, the next advance call is a no-op: the fresh round either
becomes the current or previous round (and contains an undecided pair match),
or the old current round persists and its next-round existence check fires. -/
theorem advance_noop_after_rows (s s' : Store) (c nrn : Round)
    (ext : List MatchRow) (mu : MatchRow)
    (hmr : s'.matchRows = s.matchRows ++ ext)
    (hst : s'.standings = [])
    (hextko : ∀ m ∈ ext, m.stage = Stage.knockout)
    (hextr : ∀ m ∈ ext, m.round = nrn ∨ m.round = Round.thirdPlace)
    (hnrn3 : nrn ≠ Round.thirdPlace)
    (hfresh : ∀ m ∈ s.matchRows, m.stage = Stage.knockout → m.round ≠ nrn)
    (hmu : mu ∈ ext) (hmur : mu.round = nrn) (hmuw : mu.winner = none)
    (hc : (stableSort (fun a b => round_sort_key b ≤ round_sort_key a)
      ((groupListBy (·.round)
      ((stableSort (fun a b => lexLe (roundSqlKey a.round) (roundSqlKey b.round))
      (s.matchRows.filter (·.stage = Stage.knockout))).filter
      (·.round ≠ Round.thirdPlace))).map (·.1))).getLast? = some c)
    (hcur : ((roundsLookup (groupListBy (·.round)
      ((stableSort (fun a b => lexLe (roundSqlKey a.round) (roundSqlKey b.round))
      (s.matchRows.filter (·.stage = Stage.knockout))).filter
      (·.round ≠ Round.thirdPlace))) c).any (·.winner = none)) = false)
    (lrm : List MatchRow)
    (hlrm : (if (stableSort (fun a b => round_sort_key b ≤ round_sort_key a)
      ((groupListBy (·.round)
      ((stableSort (fun a b => lexLe (roundSqlKey a.round) (roundSqlKey b.round))
      (s.matchRows.filter (·.stage = Stage.knockout))).filter
      (·.round ≠ Round.thirdPlace))).map (·.1))).length > 1 then
        match (stableSort (fun a b => round_sort_key b ≤ round_sort_key a)
      ((groupListBy (·.round)
      ((stableSort (fun a b => lexLe (roundSqlKey a.round) (roundSqlKey b.round))
      (s.matchRows.filter (·.stage = Stage.knockout))).filter
      (·.round ≠ Round.thirdPlace))).map (·.1))).dropLast.getLast? with
        | some last_round_name =>
          roundsLookup (groupListBy (·.round)
      ((stableSort (fun a b => lexLe (roundSqlKey a.round) (roundSqlKey b.round))
      (s.matchRows.filter (·.stage = Stage.knockout))).filter
      (·.round ≠ Round.thirdPlace))) last_round_name
        | none => []
      else []) = lrm)
    (hlast : (lrm.any (·.winner = none)) = false)
    (hs1 : thirdPlacePhase s' c (roundsLookup (groupListBy (·.round)
      ((stableSort (fun a b => lexLe (roundSqlKey a.round) (roundSqlKey b.round))
      (s.matchRows.filter (·.stage = Stage.knockout))).filter
      (·.round ≠ Round.thirdPlace))) c) = s')
    (hbr1 : ¬(((roundsLookup (groupListBy (·.round)
      ((stableSort (fun a b => lexLe (roundSqlKey a.round) (roundSqlKey b.round))
      (s.matchRows.filter (·.stage = Stage.knockout))).filter
      (·.round ≠ Round.thirdPlace))) c).filterMap
      (fun m => if truthy m.winner then m.winner else none)).length = 1 ∧ c = Round.final))
    (hbr2 : ¬(((roundsLookup (groupListBy (·.round)
      ((stableSort (fun a b => lexLe (roundSqlKey a.round) (roundSqlKey b.round))
      (s.matchRows.filter (·.stage = Stage.knockout))).filter
      (·.round ≠ Round.thirdPlace))) c).filterMap
      (fun m => if truthy m.winner then m.winner else none)).length = 1 ∧ c = Round.thirdPlace))
    (hnextex : (s'.matchRows.any (fun m => m.round = nextRoundName
      ((roundsLookup (groupListBy (·.round)
      ((stableSort (fun a b => lexLe (roundSqlKey a.round) (roundSqlKey b.round))
      (s.matchRows.filter (·.stage = Stage.knockout))).filter
      (·.round ≠ Round.thirdPlace))) c).filterMap
      (fun m => if truthy m.winner then m.winner else none)).length c ∧ m.stage = Stage.knockout)) = true) :
    advanceKnockoutRounds s' = s' := by
  have hmuS : mu ∈ s'.matchRows := by
    rw [hmr]
    exact List.mem_append_right _ hmu
  have hmuKO : mu ∈ s'.matchRows.filter (·.stage = Stage.knockout) :=
    List.mem_filter.mpr ⟨hmuS, by simp [hextko mu hmu]⟩
  have hmusort : mu ∈ stableSort (fun a b => lexLe (roundSqlKey a.round) (roundSqlKey b.round))
      (s'.matchRows.filter (·.stage = Stage.knockout)) :=
    ((stableSort_perm _ _).mem_iff).mpr hmuKO
  have hmuL1 : mu ∈ (stableSort (fun a b => lexLe (roundSqlKey a.round) (roundSqlKey b.round))
      (s'.matchRows.filter (·.stage = Stage.knockout))).filter
      (·.round ≠ Round.thirdPlace) := by
    refine List.mem_filter.mpr ⟨hmusort, ?_⟩
    simp only [decide_eq_true_eq]
    rw [hmur]
    exact hnrn3
  have hfne : ¬(stableSort (fun a b => lexLe (roundSqlKey a.round) (roundSqlKey b.round))
      (s'.matchRows.filter (·.stage = Stage.knockout)) = []) := by
    intro hnil
    rw [hnil] at hmusort
    cases hmusort
  have hL1rel : ((stableSort (fun a b => lexLe (roundSqlKey a.round) (roundSqlKey b.round))
      (s'.matchRows.filter (·.stage = Stage.knockout))).filter
      (·.round ≠ Round.thirdPlace)).filter (fun m => m.round ≠ nrn) = (stableSort (fun a b => lexLe (roundSqlKey a.round) (roundSqlKey b.round))
      (s.matchRows.filter (·.stage = Stage.knockout))).filter
      (·.round ≠ Round.thirdPlace) := by
    rw [hmr]
    exact l1_after s ext nrn hextko hextr hfresh
  have hlk : ∀ r : Round, r ≠ nrn →
      roundsLookup (groupListBy (·.round)
      ((stableSort (fun a b => lexLe (roundSqlKey a.round) (roundSqlKey b.round))
      (s'.matchRows.filter (·.stage = Stage.knockout))).filter
      (·.round ≠ Round.thirdPlace))) r = roundsLookup (groupListBy (·.round)
      ((stableSort (fun a b => lexLe (roundSqlKey a.round) (roundSqlKey b.round))
      (s.matchRows.filter (·.stage = Stage.knockout))).filter
      (·.round ≠ Round.thirdPlace))) r := by
    intro r hr
    have h := lookup_of_filter_ne ((stableSort (fun a b => lexLe (roundSqlKey a.round) (roundSqlKey b.round))
      (s'.matchRows.filter (·.stage = Stage.knockout))).filter
      (·.round ≠ Round.thirdPlace)) nrn r hr
    rw [hL1rel] at h
    exact h.symm
  have hkeys : ((groupListBy (·.round)
      ((stableSort (fun a b => lexLe (roundSqlKey a.round) (roundSqlKey b.round))
      (s.matchRows.filter (·.stage = Stage.knockout))).filter
      (·.round ≠ Round.thirdPlace))).map (·.1)) = (((groupListBy (·.round)
      ((stableSort (fun a b => lexLe (roundSqlKey a.round) (roundSqlKey b.round))
      (s'.matchRows.filter (·.stage = Stage.knockout))).filter
      (·.round ≠ Round.thirdPlace))).map (·.1))).filter (fun r => r ≠ nrn) := by
    have h := keys_of_filter_ne ((stableSort (fun a b => lexLe (roundSqlKey a.round) (roundSqlKey b.round))
      (s'.matchRows.filter (·.stage = Stage.knockout))).filter
      (·.round ≠ Round.thirdPlace)) nrn
    rw [hL1rel] at h
    exact h
  have hrn : (stableSort (fun a b => round_sort_key b ≤ round_sort_key a)
      ((groupListBy (·.round)
      ((stableSort (fun a b => lexLe (roundSqlKey a.round) (roundSqlKey b.round))
      (s.matchRows.filter (·.stage = Stage.knockout))).filter
      (·.round ≠ Round.thirdPlace))).map (·.1))) = (stableSort (fun a b => round_sort_key b ≤ round_sort_key a)
      ((groupListBy (·.round)
      ((stableSort (fun a b => lexLe (roundSqlKey a.round) (roundSqlKey b.round))
      (s'.matchRows.filter (·.stage = Stage.knockout))).filter
      (·.round ≠ Round.thirdPlace))).map (·.1))).filter (fun r => r ≠ nrn) := by
    rw [hkeys]
    exact (filter_stableSort _ roundGe_total roundGe_trans _ _).symm
  have hnrnK : nrn ∈ ((groupListBy (·.round)
      ((stableSort (fun a b => lexLe (roundSqlKey a.round) (roundSqlKey b.round))
      (s'.matchRows.filter (·.stage = Stage.knockout))).filter
      (·.round ≠ Round.thirdPlace))).map (·.1)) :=
    (groupListBy_keys_mem _ _ _).mpr (List.mem_map.mpr ⟨mu, hmuL1, hmur⟩)
  have hnrnRN : nrn ∈ (stableSort (fun a b => round_sort_key b ≤ round_sort_key a)
      ((groupListBy (·.round)
      ((stableSort (fun a b => lexLe (roundSqlKey a.round) (roundSqlKey b.round))
      (s'.matchRows.filter (·.stage = Stage.knockout))).filter
      (·.round ≠ Round.thirdPlace))).map (·.1))) :=
    ((stableSort_perm _ _).mem_iff).mpr hnrnK
  have hundN : ((roundsLookup (groupListBy (·.round)
      ((stableSort (fun a b => lexLe (roundSqlKey a.round) (roundSqlKey b.round))
      (s'.matchRows.filter (·.stage = Stage.knockout))).filter
      (·.round ≠ Round.thirdPlace))) nrn).any (·.winner = none)) = true := by
    rw [roundsLookup_groupListBy]
    refine List.any_eq_true.mpr ⟨mu, List.mem_filter.mpr ⟨hmuL1, by simp [hmur]⟩,
      by simp [hmuw]⟩
  cases hrev : (stableSort (fun a b => round_sort_key b ≤ round_sort_key a)
      ((groupListBy (·.round)
      ((stableSort (fun a b => lexLe (roundSqlKey a.round) (roundSqlKey b.round))
      (s'.matchRows.filter (·.stage = Stage.knockout))).filter
      (·.round ≠ Round.thirdPlace))).map (·.1))).reverse with
  | nil =>
    rw [List.reverse_eq_nil_iff.mp hrev] at hnrnRN
    cases hnrnRN
  | cons c0 rest =>
    have hc0 : (stableSort (fun a b => round_sort_key b ≤ round_sort_key a)
      ((groupListBy (·.round)
      ((stableSort (fun a b => lexLe (roundSqlKey a.round) (roundSqlKey b.round))
      (s'.matchRows.filter (·.stage = Stage.knockout))).filter
      (·.round ≠ Round.thirdPlace))).map (·.1))).getLast? = some c0 := by
      rw [List.getLast?_eq_head?_reverse, hrev]
      rfl
    by_cases hc0n : c0 = nrn
    · refine advance_of_current_undecided s' hst c0 hc0 ?_
      rw [hc0n]
      exact hundN
    · have hrevS : (stableSort (fun a b => round_sort_key b ≤ round_sort_key a)
      ((groupListBy (·.round)
      ((stableSort (fun a b => lexLe (roundSqlKey a.round) (roundSqlKey b.round))
      (s.matchRows.filter (·.stage = Stage.knockout))).filter
      (·.round ≠ Round.thirdPlace))).map (·.1))).reverse = c0 :: rest.filter (fun r => r ≠ nrn) := by
        rw [hrn, ← List.filter_reverse, hrev,
          List.filter_cons_of_pos (by simpa using hc0n)]
      have hcc : c = c0 := by
        have h1 : (stableSort (fun a b => round_sort_key b ≤ round_sort_key a)
      ((groupListBy (·.round)
      ((stableSort (fun a b => lexLe (roundSqlKey a.round) (roundSqlKey b.round))
      (s.matchRows.filter (·.stage = Stage.knockout))).filter
      (·.round ≠ Round.thirdPlace))).map (·.1))).getLast? = some c0 := by
          rw [List.getLast?_eq_head?_reverse, hrevS]
          rfl
        exact Option.some.inj (hc.symm.trans h1)
      rw [← hcc] at hc0 hc0n hrev hrevS
      have hnrnrest : nrn ∈ rest := by
        have h1 : nrn ∈ (stableSort (fun a b => round_sort_key b ≤ round_sort_key a)
      ((groupListBy (·.round)
      ((stableSort (fun a b => lexLe (roundSqlKey a.round) (roundSqlKey b.round))
      (s'.matchRows.filter (·.stage = Stage.knockout))).filter
      (·.round ≠ Round.thirdPlace))).map (·.1))).reverse := List.mem_reverse.mpr hnrnRN
        rw [hrev] at h1
        rcases List.mem_cons.mp h1 with h | h
        · exact absurd h.symm hc0n
        · exact h
      cases rest with
      | nil => cases hnrnrest
      | cons d rest2 =>
        have hlen2 : (stableSort (fun a b => round_sort_key b ≤ round_sort_key a)
      ((groupListBy (·.round)
      ((stableSort (fun a b => lexLe (roundSqlKey a.round) (roundSqlKey b.round))
      (s'.matchRows.filter (·.stage = Stage.knockout))).filter
      (·.round ≠ Round.thirdPlace))).map (·.1))).length > 1 := by
          rw [← List.length_reverse, hrev]
          simp
        have hdrop : (stableSort (fun a b => round_sort_key b ≤ round_sort_key a)
      ((groupListBy (·.round)
      ((stableSort (fun a b => lexLe (roundSqlKey a.round) (roundSqlKey b.round))
      (s'.matchRows.filter (·.stage = Stage.knockout))).filter
      (·.round ≠ Round.thirdPlace))).map (·.1))).dropLast.getLast? = some d := by
          rw [dropLast_getLast?_eq, hrev]
          rfl
        have hcurT : ((roundsLookup (groupListBy (·.round)
      ((stableSort (fun a b => lexLe (roundSqlKey a.round) (roundSqlKey b.round))
      (s'.matchRows.filter (·.stage = Stage.knockout))).filter
      (·.round ≠ Round.thirdPlace))) c).any (·.winner = none)) = false := by
          rw [hlk c hc0n]
          exact hcur
        by_cases hdn : d = nrn
        · refine advance_of_last_undecided s' hst c hc0 hcurT hlen2 d hdrop ?_
          rw [hdn]
          exact hundN
        · -- the old current round persists; the existence check fires
          have hrevS2 : (stableSort (fun a b => round_sort_key b ≤ round_sort_key a)
      ((groupListBy (·.round)
      ((stableSort (fun a b => lexLe (roundSqlKey a.round) (roundSqlKey b.round))
      (s.matchRows.filter (·.stage = Stage.knockout))).filter
      (·.round ≠ Round.thirdPlace))).map (·.1))).reverse =
              c :: d :: rest2.filter (fun r => r ≠ nrn) := by
            rw [hrevS]
            congr 1
            exact List.filter_cons_of_pos (by simpa using hdn)
          have hlenS : (stableSort (fun a b => round_sort_key b ≤ round_sort_key a)
      ((groupListBy (·.round)
      ((stableSort (fun a b => lexLe (roundSqlKey a.round) (roundSqlKey b.round))
      (s.matchRows.filter (·.stage = Stage.knockout))).filter
      (·.round ≠ Round.thirdPlace))).map (·.1))).length > 1 := by
            rw [← List.length_reverse, hrevS2]
            simp
          have hdropS : (stableSort (fun a b => round_sort_key b ≤ round_sort_key a)
      ((groupListBy (·.round)
      ((stableSort (fun a b => lexLe (roundSqlKey a.round) (roundSqlKey b.round))
      (s.matchRows.filter (·.stage = Stage.knockout))).filter
      (·.round ≠ Round.thirdPlace))).map (·.1))).dropLast.getLast? = some d := by
            rw [dropLast_getLast?_eq, hrevS2]
            rfl
          have hlrmS : (roundsLookup (groupListBy (·.round)
      ((stableSort (fun a b => lexLe (roundSqlKey a.round) (roundSqlKey b.round))
      (s.matchRows.filter (·.stage = Stage.knockout))).filter
      (·.round ≠ Round.thirdPlace))) d) = lrm := by
            rw [← hlrm, if_pos hlenS, hdropS]
          have hlrmT : (if (stableSort (fun a b => round_sort_key b ≤ round_sort_key a)
      ((groupListBy (·.round)
      ((stableSort (fun a b => lexLe (roundSqlKey a.round) (roundSqlKey b.round))
      (s'.matchRows.filter (·.stage = Stage.knockout))).filter
      (·.round ≠ Round.thirdPlace))).map (·.1))).length > 1 then
        match (stableSort (fun a b => round_sort_key b ≤ round_sort_key a)
      ((groupListBy (·.round)
      ((stableSort (fun a b => lexLe (roundSqlKey a.round) (roundSqlKey b.round))
      (s'.matchRows.filter (·.stage = Stage.knockout))).filter
      (·.round ≠ Round.thirdPlace))).map (·.1))).dropLast.getLast? with
        | some last_round_name =>
          roundsLookup (groupListBy (·.round)
      ((stableSort (fun a b => lexLe (roundSqlKey a.round) (roundSqlKey b.round))
      (s'.matchRows.filter (·.stage = Stage.knockout))).filter
      (·.round ≠ Round.thirdPlace))) last_round_name
        | none => []
      else []) = lrm := by
            rw [if_pos hlen2, hdrop]
            exact (hlk d hdn).trans hlrmS
          refine advance_noop_at_tail s' c hst hfne hc0 hcurT lrm hlrmT hlast ?_ ?_ ?_ ?_
          · rw [hlk c hc0n]
            exact hs1
          · rw [hlk c hc0n]
            exact hbr1
          · rw [hlk c hc0n]
            exact hbr2
          · rw [hlk c hc0n]
            exact Or.inr hnextex

theorem bool_eq_false_of_ne (b : Bool) (h : ¬(b = true)) : b = false := by
  cases b
  · rfl
  · exact absurd rfl h

/-- The final-standings phase either defers (undecided 3rd-place match) or
appends a nonempty block of standings. -/
theorem finalPhase_cases (s : Store) (fm : MatchRow) (first : ℕ)
    (lrm : List MatchRow) :
    finalPhase s fm first lrm = s ∨
    ∃ rest : List StandingRow,
      finalPhase s fm first lrm = { s with standings := s.standings ++ rest } ∧
      rest ≠ [] := by
  unfold finalPhase writeStandings
  dsimp only
  repeat' split
  all_goals first
    | exact Or.inl rfl
    | exact Or.inr ⟨_, rfl, by simp⟩

/-- One advance call from the post-guard tail leaves a store on which the
next advance call is a no-op: dispatch over the third-place trichotomy and
the tail branches. -/
theorem advance_idem_tail (s A : Store) (c : Round)
    (FS : List MatchRow) (RDS : List (Round × List MatchRow)) (RNS : List Round)
    (lrm : List MatchRow)
    (hF : stableSort (fun a b => lexLe (roundSqlKey a.round) (roundSqlKey b.round))
      (s.matchRows.filter (·.stage = Stage.knockout)) = FS)
    (hL : groupListBy (fun x : MatchRow => x.round)
      (List.filter (fun x => decide (x.round ≠ Round.thirdPlace)) FS) = RDS)
    (hN : stableSort (fun a b => round_sort_key b ≤ round_sort_key a)
      (List.map (fun x => x.1) RDS) = RNS)
    (hse : s.standings = [])
    (hA2 : advanceKnockoutRounds s = A)
    (hcg : RNS.getLast? = some c)
    (hcur : ((roundsLookup RDS c).any (·.winner = none)) = false)
    (hlrm : (if RNS.length > 1 then
        match RNS.dropLast.getLast? with
        | some last_round_name => roundsLookup RDS last_round_name
        | none => []
      else []) = lrm)
    (hlast : (lrm.any (·.winner = none)) = false)
    (hA : advanceTail s c (roundsLookup RDS c) lrm = A) :
    advanceKnockoutRounds A = A := by
  unfold advanceTail at hA
  dsimp only at hA
  by_cases hbf : (((roundsLookup RDS c).filterMap
      (fun m : MatchRow => if truthy m.winner then m.winner else none))).length = 1 ∧ c = Round.final
  · rw [if_pos hbf] at hA
    have hs1 : thirdPlacePhase s c (roundsLookup RDS c) = s :=
      thirdPlacePhase_of_ne s c _ (by rw [hbf.2]; decide)
    rw [hs1] at hA
    cases hh1 : (roundsLookup RDS c).head? with
    | none =>
      rw [hh1] at hA
      dsimp only at hA
      subst hA
      exact hA2
    | some fm =>
      rw [hh1] at hA
      cases hh2 : (((roundsLookup RDS c).filterMap
      (fun m : MatchRow => if truthy m.winner then m.winner else none))).head? with
      | none =>
        rw [hh2] at hA
        dsimp only at hA
        subst hA
        exact hA2
      | some w =>
        rw [hh2] at hA
        dsimp only at hA
        rcases finalPhase_cases s fm w lrm with hfp | ⟨rest, hfp, hrne⟩
        · rw [hfp] at hA
          subst hA
          exact hA2
        · rw [hfp] at hA
          refine advance_of_standings A ?_
          rw [← hA]
          simp [hse, hrne]
  · rw [if_neg hbf] at hA
    by_cases hb3 : (((roundsLookup RDS c).filterMap
      (fun m : MatchRow => if truthy m.winner then m.winner else none))).length = 1 ∧ c = Round.thirdPlace
    · rw [if_pos hb3] at hA
      rw [thirdPlacePhase_of_ne s c _ (by rw [hb3.2]; decide)] at hA
      subst hA
      exact hA2
    rw [if_neg hb3] at hA
    by_cases hlt : (((roundsLookup RDS c).filterMap
      (fun m : MatchRow => if truthy m.winner then m.winner else none))).length < 2
    · rw [if_pos hlt] at hA
      rcases thirdPlacePhase_tri s c (roundsLookup RDS c) with h1 | ⟨st, h2s⟩ | ⟨h2c, h3⟩
      · rw [h1 s] at hA
        subst hA
        exact hA2
      · rw [h2s] at hA
        refine advance_of_standings A ?_
        rw [← hA]
        simp [hse]
      · rcases h3 with ⟨hex3, heq⟩ | ⟨l1, l2, heq⟩
        · rw [heq] at hA
          subst hA
          exact hA2
        · rw [heq] at hA
          refine advance_noop_after_third s A c
            ⟨s.nextId, l1, l2, none, none, none, Round.thirdPlace, Stage.knockout⟩
            (by rw [← hA]) (by rw [← hA]; exact hse) rfl rfl
            (by rw [hF, hL, hN]; exact hcg)
            (by rw [hF, hL]; exact hcur)
            lrm
            (by rw [hF, hL, hN]; exact hlrm)
            hlast
            (by rw [hF, hL]; exact h2c)
            (by rw [hF, hL]; exact hbf)
            (by rw [hF, hL]; exact hb3)
            (by rw [hF, hL]; exact Or.inl hlt)
    rw [if_neg hlt] at hA
    by_cases hex : ((thirdPlacePhase s c (roundsLookup RDS c)).matchRows.any
        (fun m => m.round = nextRoundName (((roundsLookup RDS c).filterMap
      (fun m : MatchRow => if truthy m.winner then m.winner else none))).length c ∧ m.stage = Stage.knockout)) = true
    · rw [if_pos hex] at hA
      rcases thirdPlacePhase_tri s c (roundsLookup RDS c) with h1 | ⟨st, h2s⟩ | ⟨h2c, h3⟩
      · rw [h1 s] at hA
        subst hA
        exact hA2
      · rw [h2s] at hA
        refine advance_of_standings A ?_
        rw [← hA]
        simp [hse]
      · rcases h3 with ⟨hex3, heq⟩ | ⟨l1, l2, heq⟩
        · rw [heq] at hA
          subst hA
          exact hA2
        · rw [heq] at hex hA
          rw [hA] at hex
          refine advance_noop_after_third s A c
            ⟨s.nextId, l1, l2, none, none, none, Round.thirdPlace, Stage.knockout⟩
            (by rw [← hA]) (by rw [← hA]; exact hse) rfl rfl
            (by rw [hF, hL, hN]; exact hcg)
            (by rw [hF, hL]; exact hcur)
            lrm
            (by rw [hF, hL, hN]; exact hlrm)
            hlast
            (by rw [hF, hL]; exact h2c)
            (by rw [hF, hL]; exact hbf)
            (by rw [hF, hL]; exact hb3)
            (by rw [hF, hL]; exact Or.inr hex)
    · rw [if_neg hex] at hA
      rcases hwshape : ((roundsLookup RDS c).filterMap
      (fun m : MatchRow => if truthy m.winner then m.winner else none)) with _ | ⟨w1, _ | ⟨w2, ws⟩⟩
      · rw [hwshape] at hlt
        simp at hlt
      · rw [hwshape] at hlt
        simp at hlt
      rcases thirdPlacePhase_tri s c (roundsLookup RDS c) with h1 | ⟨st, h2s⟩ | ⟨h2c, h3⟩
      · rw [h1 s] at hA hex
        refine advance_noop_after_rows s A c (nextRoundName (((roundsLookup RDS c).filterMap
      (fun m : MatchRow => if truthy m.winner then m.winner else none))).length c)
          (nextRoundRows (nextRoundName (((roundsLookup RDS c).filterMap
      (fun m : MatchRow => if truthy m.winner then m.winner else none))).length c) (((roundsLookup RDS c).filterMap
      (fun m : MatchRow => if truthy m.winner then m.winner else none))) s.nextId)
          (koPairRow s.nextId w1 w2 (nextRoundName (((roundsLookup RDS c).filterMap
      (fun m : MatchRow => if truthy m.winner then m.winner else none))).length c))
          (by rw [← hA]) (by rw [← hA]; exact hse)
          (fun m hm => (nextRoundRows_fields _ _ _ le_rfl _ m hm).2)
          (fun m hm => Or.inl (nextRoundRows_fields _ _ _ le_rfl _ m hm).1)
          (by unfold nextRoundName; split <;> simp)
          (fun m hm hst2 hr => hex (List.any_eq_true.mpr ⟨m, hm, by simp [hr, hst2]⟩))
          (by rw [hwshape, nextRoundRows]; exact List.mem_cons_self _ _)
          rfl rfl
          (by rw [hF, hL, hN]; exact hcg)
          (by rw [hF, hL]; exact hcur)
          lrm
          (by rw [hF, hL, hN]; exact hlrm)
          hlast
          (by rw [hF, hL]; exact h1 A)
          (by rw [hF, hL]; exact hbf)
          (by rw [hF, hL]; exact hb3)
          ?_
        rw [hF, hL]
        refine List.any_eq_true.mpr ⟨koPairRow s.nextId w1 w2 (nextRoundName (((roundsLookup RDS c).filterMap
      (fun m : MatchRow => if truthy m.winner then m.winner else none))).length c), ?_, by simp [koPairRow]⟩
        rw [← hA]
        refine List.mem_append_right _ ?_
        rw [hwshape, nextRoundRows]
        exact List.mem_cons_self _ _
      · rw [h2s] at hA
        refine advance_of_standings A ?_
        rw [← hA]
        simp [hse]
      · rcases h3 with ⟨hex3, heq⟩ | ⟨l1, l2, heq⟩
        · rw [heq] at hA hex
          obtain ⟨m3, hm3, hp3⟩ := List.any_eq_true.mp hex3
          refine advance_noop_after_rows s A c (nextRoundName (((roundsLookup RDS c).filterMap
      (fun m : MatchRow => if truthy m.winner then m.winner else none))).length c)
            (nextRoundRows (nextRoundName (((roundsLookup RDS c).filterMap
      (fun m : MatchRow => if truthy m.winner then m.winner else none))).length c) (((roundsLookup RDS c).filterMap
      (fun m : MatchRow => if truthy m.winner then m.winner else none))) s.nextId)
            (koPairRow s.nextId w1 w2 (nextRoundName (((roundsLookup RDS c).filterMap
      (fun m : MatchRow => if truthy m.winner then m.winner else none))).length c))
            (by rw [← hA]) (by rw [← hA]; exact hse)
            (fun m hm => (nextRoundRows_fields _ _ _ le_rfl _ m hm).2)
            (fun m hm => Or.inl (nextRoundRows_fields _ _ _ le_rfl _ m hm).1)
            (by unfold nextRoundName; split <;> simp)
            (fun m hm hst2 hr => hex (List.any_eq_true.mpr ⟨m, hm, by simp [hr, hst2]⟩))
            (by rw [hwshape, nextRoundRows]; exact List.mem_cons_self _ _)
            rfl rfl
            (by rw [hF, hL, hN]; exact hcg)
            (by rw [hF, hL]; exact hcur)
            lrm
            (by rw [hF, hL, hN]; exact hlrm)
            hlast
            ?_
            (by rw [hF, hL]; exact hbf)
            (by rw [hF, hL]; exact hb3)
            ?_
          · rw [hF, hL]
            refine thirdPlacePhase_blocked A c _ h2c ?_
            refine List.any_eq_true.mpr ⟨m3, ?_, hp3⟩
            rw [← hA]
            exact List.mem_append_left _ hm3
          · rw [hF, hL]
            refine List.any_eq_true.mpr ⟨koPairRow s.nextId w1 w2 (nextRoundName (((roundsLookup RDS c).filterMap
      (fun m : MatchRow => if truthy m.winner then m.winner else none))).length c), ?_, by simp [koPairRow]⟩
            rw [← hA]
            refine List.mem_append_right _ ?_
            rw [hwshape, nextRoundRows]
            exact List.mem_cons_self _ _
        · rw [heq] at hA hex
          refine advance_noop_after_rows s A c (nextRoundName (((roundsLookup RDS c).filterMap
      (fun m : MatchRow => if truthy m.winner then m.winner else none))).length c)
            ([⟨s.nextId, l1, l2, none, none, none, Round.thirdPlace, Stage.knockout⟩] ++
              nextRoundRows (nextRoundName (((roundsLookup RDS c).filterMap
      (fun m : MatchRow => if truthy m.winner then m.winner else none))).length c) (((roundsLookup RDS c).filterMap
      (fun m : MatchRow => if truthy m.winner then m.winner else none))) (s.nextId + 1))
            (koPairRow (s.nextId + 1) w1 w2 (nextRoundName (((roundsLookup RDS c).filterMap
      (fun m : MatchRow => if truthy m.winner then m.winner else none))).length c))
            (by rw [← hA, List.append_assoc]) (by rw [← hA]; exact hse)
            ?_ ?_
            (by unfold nextRoundName; split <;> simp)
            (fun m hm hst2 hr => hex (List.any_eq_true.mpr
              ⟨m, List.mem_append_left _ hm, by simp [hr, hst2]⟩))
            (by
              refine List.mem_append_right _ ?_
              rw [hwshape, nextRoundRows]
              exact List.mem_cons_self _ _)
            rfl rfl
            (by rw [hF, hL, hN]; exact hcg)
            (by rw [hF, hL]; exact hcur)
            lrm
            (by rw [hF, hL, hN]; exact hlrm)
            hlast
            ?_
            (by rw [hF, hL]; exact hbf)
            (by rw [hF, hL]; exact hb3)
            ?_
          · intro m hm
            rcases List.mem_append.mp hm with hm1 | hm2
            · rw [List.mem_singleton.mp hm1]
            · exact (nextRoundRows_fields _ _ _ le_rfl _ m hm2).2
          · intro m hm
            rcases List.mem_append.mp hm with hm1 | hm2
            · rw [List.mem_singleton.mp hm1]
              exact Or.inr rfl
            · exact Or.inl (nextRoundRows_fields _ _ _ le_rfl _ m hm2).1
          · rw [hF, hL]
            refine thirdPlacePhase_blocked A c _ h2c ?_
            refine List.any_eq_true.mpr
              ⟨⟨s.nextId, l1, l2, none, none, none, Round.thirdPlace, Stage.knockout⟩,
                ?_, by simp⟩
            rw [← hA]
            exact List.mem_append_left _ (List.mem_append_right _
              (List.mem_singleton.mpr rfl))
          · rw [hF, hL]
            refine List.any_eq_true.mpr
              ⟨koPairRow (s.nextId + 1) w1 w2 (nextRoundName (((roundsLookup RDS c).filterMap
      (fun m : MatchRow => if truthy m.winner then m.winner else none))).length c), ?_, by simp [koPairRow]⟩
            rw [← hA]
            refine List.mem_append_right _ ?_
            rw [hwshape, nextRoundRows]
            exact List.mem_cons_self _ _

/-- C4: `advance_knockout_rounds` is idempotent: for every store, calling the
advance step twice with no new results in between is the same as calling it
once — the second call creates no Match rows and no Standing rows (it is a
pure no-op on the store). Every store the first call can produce is fixed by
the second: a finalized store exits at the finalized guard, a store extended
only by a fresh 3rd-place row exits at the 3rd-place existence check, and a
store extended by fresh next-round rows exits at the next-round existence
check (or at the undecided-round guards, since the fresh rows have no
winners). -/
theorem advance_knockout_idempotent (s : Store) :
    advanceKnockoutRounds (advanceKnockoutRounds s) = advanceKnockoutRounds s := by
  by_cases h0 : s.standings ≠ []
  · rw [advance_of_standings s h0]
    exact advance_of_standings s h0
  have hse : s.standings = [] := not_ne_iff.mp h0
  generalize hA0 : advanceKnockoutRounds s = A
  have hA2 := hA0
  unfold advanceKnockoutRounds at hA0
  rw [if_neg h0] at hA0
  dsimp only at hA0
  generalize hF : stableSort
      (fun a b : MatchRow => lexLe (roundSqlKey a.round) (roundSqlKey b.round))
      (List.filter (fun x => decide (x.stage = Stage.knockout)) s.matchRows) = FS at hA0
  generalize hL : groupListBy (fun x : MatchRow => x.round)
      (List.filter (fun x => decide (x.round ≠ Round.thirdPlace)) FS) = RDS at hA0
  generalize hN : stableSort (fun a b : Round => decide (round_sort_key b ≤ round_sort_key a))
      (List.map (fun x => x.1) RDS) = RNS at hA0
  by_cases hf0 : FS = []
  · rw [if_pos hf0] at hA0
    subst hA0
    exact hA2
  rw [if_neg hf0] at hA0
  cases hget : RNS.getLast? with
  | none =>
    rw [hget] at hA0
    subst hA0
    exact hA2
  | some c =>
    rw [hget] at hA0
    dsimp only at hA0
    by_cases hcur : ((roundsLookup RDS c).any (·.winner = none)) = true
    · rw [if_pos hcur] at hA0
      subst hA0
      exact hA2
    rw [if_neg hcur] at hA0
    by_cases hl : ((if RNS.length > 1 then
        match RNS.dropLast.getLast? with
        | some last_round_name => roundsLookup RDS last_round_name
        | none => []
      else []).any (·.winner = none)) = true
    · rw [if_pos hl] at hA0
      subst hA0
      exact hA2
    rw [if_neg hl] at hA0
    exact advance_idem_tail s A c FS RDS RNS
      (if RNS.length > 1 then
        match RNS.dropLast.getLast? with
        | some last_round_name => roundsLookup RDS last_round_name
        | none => []
      else [])
      hF hL hN hse hA2 hget (bool_eq_false_of_ne _ hcur) rfl
      (bool_eq_false_of_ne _ hl) hA0

end PlayerRankings
